import Mathlib

/-!
# quantec/qos: symmetric queues (`src/src/qsymqueue.c`) and simulator port

A shallow embedding of the symmetric queue and of the part of the ChibiOS
scheduler it talks to; the embedding of the simulator port (`chcore.h`) follows
the queue definitions.

* Pointers are natural-number addresses; `q_counter` is a signed counter.
* The ring buffer of the queue lives in `World.mem`; the arrays that callers
  hand to `chSymQReadTimeout` / `chSymQWriteTimeout` live in `World.umem`
  (distinct C objects do not overlap).
* `chSchReadyI(tp)->p_u.rdymsg = msg` appends `(tp, msg)` to `World.rdy`.
* `chSchGoSleepTimeoutS` consumes the next `Wake` of the schedule: the message
  the sleeping thread is resumed with, and what the other threads did to the
  world while it slept.  With no `Wake` left the caller stays asleep.
* `chSysLock` / `chSysUnlock` delimit the critical sections and have no effect
  on the data, they are not represented; neither is the store of the wait
  object into the thread structure (`currp->p_u.wtobjp`).
* The calling thread `currp` is an argument of the functions.
-/

/-- A byte, the C type `uint8_t`. -/
abbrev uint8_t := Fin 256

/-- Normal wake-up / success code (`RDY_OK`). -/
def Q_OK : Int := 0

/-- Timeout code (`RDY_TIMEOUT`). -/
def Q_TIMEOUT : Int := -1

/-- Queue-reset code (`RDY_RESET`). -/
def Q_RESET : Int := -2

/-- The timeout value `TIME_IMMEDIATE`, `((systime_t)0)`. -/
def TIME_IMMEDIATE : Nat := 0

/-- The timeout value `TIME_INFINITE`, `((systime_t)-1)` for a 32 bit `systime_t`. -/
def TIME_INFINITE : Nat := 0xFFFFFFFF

/-- The C structure `SymmetricQueue`: the threads queue (head = longest
waiting thread), the used-bytes counter and the four buffer pointers. -/
structure SymmetricQueue where
  q_waiting : List Nat
  q_counter : Int
  q_buffer : Nat
  q_top : Nat
  q_wrptr : Nat
  q_rdptr : Nat
  deriving DecidableEq, Repr

/-- Everything the queue code reads or writes: the queue structure, the memory
holding its ring buffer, the memory of the callers' arrays, the threads made
ready so far (oldest first, with their wake message) and the number of times
the sleep primitive was entered. -/
structure World where
  sq : SymmetricQueue
  mem : Nat → uint8_t
  umem : Nat → uint8_t
  rdy : List (Nat × Int)
  sleeps : Nat

/-- One resumption of a sleeping thread: the wake message and the effect of the
threads that ran in the meantime. -/
structure Wake where
  msg : Int
  env : World → World

/-- What a call gives back: a message (`msg_t`), a transfer count (`size_t`),
nothing (`void`), no return yet because the caller is still asleep, or a halt
in a debug check. -/
inductive Reply where
  | msg (m : Int)
  | count (n : Nat)
  | unit
  | asleep
  | halted
  deriving DecidableEq, Repr

/-- Result of a call: the reply, the world it leaves and the wake-ups of the
schedule that were not consumed. -/
structure Out where
  reply : Reply
  k : World
  ws : List Wake

/-- Writes one byte of a memory. -/
def store (m : Nat → uint8_t) (a : Nat) (b : uint8_t) : Nat → uint8_t :=
  fun x => if x = a then b else m x

/-- Modelled from the spec: the macro of the missing `qsymqueue.h` giving the
capacity, the distance between `q_top` and `q_buffer`. -/
def chSymQSizeI (sqp : SymmetricQueue) : Int :=
  (sqp.q_top : Int) - (sqp.q_buffer : Int)

/-- Modelled from the spec: the macro of the missing `qsymqueue.h`; the queue
is empty exactly when the count is 0. -/
def chSymQIsEmptyI (sqp : SymmetricQueue) : Bool :=
  decide (sqp.q_counter = 0)

/-- Modelled from the spec: the macro of the missing `qsymqueue.h`; the queue
is full exactly when the count equals the size. -/
def chSymQIsFullI (sqp : SymmetricQueue) : Bool :=
  decide (sqp.q_counter = chSymQSizeI sqp)

/-- Kernel list primitive `queue_insert`: appends a thread at the tail. -/
def queue_insert (tp : Nat) (tqp : List Nat) : List Nat :=
  tqp ++ [tp]

/-- Kernel primitive `chSchReadyI` followed by the store of the wake message. -/
def chSchReadyI (tp : Nat) (msg : Int) (k : World) : World :=
  { k with rdy := k.rdy ++ [(tp, msg)] }

/-- Modelled from the spec: the kernel primitive `chSchGoSleepTimeoutS`.  The
caller sleeps; with a wake-up left in the schedule the other threads act on the
world, the caller is off the threads queue when it resumes (removed by the
thread that readied it or by the timeout mechanism) and gets the wake message;
with none left it stays asleep. -/
def chSchGoSleepTimeoutS (currp : Nat) (k : World) :
    List Wake → Option Int × World × List Wake
  | [] => (none, { k with sleeps := k.sleeps + 1 }, [])
  | w :: ws =>
    let k1 := w.env { k with sleeps := k.sleeps + 1 }
    (some w.msg,
      { k1 with sq := { k1.sq with q_waiting := k1.sq.q_waiting.filter (fun t => t != currp) } },
      ws)

/-- The static function `qwait`: immediate timeout without sleeping, otherwise
the calling thread is appended to the threads queue and goes to sleep. -/
def qwait (currp : Nat) (timeout : Nat) (k : World) (ws : List Wake) :
    Option Int × World × List Wake :=
  if timeout = TIME_IMMEDIATE then (some Q_TIMEOUT, k, ws)
  else
    chSchGoSleepTimeoutS currp
      { k with sq := { k.sq with q_waiting := queue_insert currp k.sq.q_waiting } } ws

/-- How a waiting loop ends: its condition became false (`go`), a `qwait`
result made the function return (`ret`), or the caller is still asleep. -/
inductive Waited where
  | go (k : World) (ws : List Wake)
  | ret (msg : Int) (k : World) (ws : List Wake)
  | asleep (k : World)

/-- The loop `while (cond(sqp)) { if (leave(qwait(sqp, timeout))) return ...; }`
shared by the four transfer functions.  Every turn that does not return
consumes one wake-up, so `fuel` larger than the length of the schedule is
never used up (`waitWhile_fuel`). -/
def waitWhile (cond : SymmetricQueue → Bool) (leave : Int → Bool) (currp timeout : Nat) :
    Nat → World → List Wake → Waited
  | 0, k, _ => .asleep k
  | fuel + 1, k, ws =>
    if cond k.sq then
      match qwait currp timeout k ws with
      | (none, k1, _) => .asleep k1
      | (some msg, k1, ws1) =>
        if leave msg then .ret msg k1 ws1
        else waitWhile cond leave currp timeout fuel k1 ws1
    else .go k ws

/-- The function `chSymQInit`. -/
def chSymQInit (bp : Nat) (size : Nat) (k : World) : World :=
  { k with sq :=
      { q_waiting := [],
        q_counter := 0,
        q_buffer := bp, q_rdptr := bp, q_wrptr := bp,
        q_top := bp + size } }

/-- The loop of `chSymQResetI`: every waiting thread, head first, is made ready
with `Q_RESET`. -/
def resetWake : List Nat → World → World
  | [], k => { k with sq := { k.sq with q_waiting := [] } }
  | tp :: rest, k => resetWake rest (chSchReadyI tp Q_RESET k)

/-- The function `chSymQResetI`. -/
def chSymQResetI (k : World) : World :=
  let k1 := { k with sq := { k.sq with
                q_rdptr := k.sq.q_buffer, q_wrptr := k.sq.q_buffer, q_counter := 0 } }
  resetWake k1.sq.q_waiting k1

/-- The function `chSymQGetTimeout`, called by thread `currp`. -/
def chSymQGetTimeout (currp timeout : Nat) (k : World) (ws : List Wake) : Out :=
  match waitWhile chSymQIsEmptyI (fun msg => decide (msg < Q_OK)) currp timeout
      (ws.length + 1) k ws with
  | .asleep k1 => ⟨.asleep, k1, []⟩
  | .ret msg k1 ws1 => ⟨.msg msg, k1, ws1⟩
  | .go k1 ws1 =>
    let b := k1.mem k1.sq.q_rdptr
    let rd := k1.sq.q_rdptr + 1
    let sq1 := { k1.sq with
                  q_counter := k1.sq.q_counter - 1,
                  q_rdptr := if rd ≥ k1.sq.q_top then k1.sq.q_buffer else rd }
    match sq1.q_waiting with
    | [] => ⟨.msg (b.val : Int), { k1 with sq := sq1 }, ws1⟩
    | tp :: rest =>
      ⟨.msg (b.val : Int),
        chSchReadyI tp Q_OK { k1 with sq := { sq1 with q_waiting := rest } }, ws1⟩

/-- The function `chSymQPutTimeout`, called by thread `currp`. -/
def chSymQPutTimeout (currp : Nat) (b : uint8_t) (timeout : Nat) (k : World)
    (ws : List Wake) : Out :=
  match waitWhile chSymQIsFullI (fun msg => decide (msg < Q_OK)) currp timeout
      (ws.length + 1) k ws with
  | .asleep k1 => ⟨.asleep, k1, []⟩
  | .ret msg k1 ws1 => ⟨.msg msg, k1, ws1⟩
  | .go k1 ws1 =>
    let wr := k1.sq.q_wrptr + 1
    let sq1 := { k1.sq with
                  q_counter := k1.sq.q_counter + 1,
                  q_wrptr := if wr ≥ k1.sq.q_top then k1.sq.q_buffer else wr }
    let k2 := { k1 with mem := store k1.mem k1.sq.q_wrptr b }
    match sq1.q_waiting with
    | [] => ⟨.msg Q_OK, { k2 with sq := sq1 }, ws1⟩
    | tp :: rest =>
      ⟨.msg Q_OK, chSchReadyI tp Q_OK { k2 with sq := { sq1 with q_waiting := rest } }, ws1⟩

/-- The outer loop of `chSymQReadTimeout`: `n` bytes are still wanted, `r` were
transferred, `bp` is the next destination address.  The arm for 0 is the
`return r` taken when `--n == 0`. -/
def readLoop (currp timeout : Nat) : Nat → Nat → Nat → World → List Wake → Out
  | 0, r, _, k, ws => ⟨.count r, k, ws⟩
  | n + 1, r, bp, k, ws =>
    match waitWhile chSymQIsEmptyI (fun msg => decide (msg ≠ Q_OK)) currp timeout
        (ws.length + 1) k ws with
    | .asleep k1 => ⟨.asleep, k1, []⟩
    | .ret _ k1 ws1 => ⟨.count r, k1, ws1⟩
    | .go k1 ws1 =>
      let rd := k1.sq.q_rdptr + 1
      let sq1 := { k1.sq with
                    q_counter := k1.sq.q_counter - 1,
                    q_rdptr := if rd ≥ k1.sq.q_top then k1.sq.q_buffer else rd }
      let k2 := { k1 with umem := store k1.umem bp (k1.mem k1.sq.q_rdptr) }
      let k3 :=
        match sq1.q_waiting with
        | [] => { k2 with sq := sq1 }
        | tp :: rest => chSchReadyI tp Q_OK { k2 with sq := { sq1 with q_waiting := rest } }
      readLoop currp timeout n (r + 1) (bp + 1) k3 ws1

/-- The function `chSymQReadTimeout`, called by thread `currp`; the debug check
`n > 0` halts. -/
def chSymQReadTimeout (currp : Nat) (bp n timeout : Nat) (k : World) (ws : List Wake) : Out :=
  if n = 0 then ⟨.halted, k, ws⟩
  else readLoop currp timeout n 0 bp k ws

/-- The outer loop of `chSymQWriteTimeout`: `n` bytes are still to be written,
`w` were transferred, `bp` is the next source address.  The arm for 0 is the
`return w` taken when `--n == 0`. -/
def writeLoop (currp timeout : Nat) : Nat → Nat → Nat → World → List Wake → Out
  | 0, w, _, k, ws => ⟨.count w, k, ws⟩
  | n + 1, w, bp, k, ws =>
    match waitWhile chSymQIsFullI (fun msg => decide (msg ≠ Q_OK)) currp timeout
        (ws.length + 1) k ws with
    | .asleep k1 => ⟨.asleep, k1, []⟩
    | .ret _ k1 ws1 => ⟨.count w, k1, ws1⟩
    | .go k1 ws1 =>
      let wr := k1.sq.q_wrptr + 1
      let sq1 := { k1.sq with
                    q_counter := k1.sq.q_counter + 1,
                    q_wrptr := if wr ≥ k1.sq.q_top then k1.sq.q_buffer else wr }
      let k2 := { k1 with mem := store k1.mem k1.sq.q_wrptr (k1.umem bp) }
      let k3 :=
        match sq1.q_waiting with
        | [] => { k2 with sq := sq1 }
        | tp :: rest => chSchReadyI tp Q_OK { k2 with sq := { sq1 with q_waiting := rest } }
      writeLoop currp timeout n (w + 1) (bp + 1) k3 ws1

/-- The function `chSymQWriteTimeout`, called by thread `currp`; the debug
check `n > 0` halts. -/
def chSymQWriteTimeout (currp : Nat) (bp n timeout : Nat) (k : World) (ws : List Wake) : Out :=
  if n = 0 then ⟨.halted, k, ws⟩
  else writeLoop currp timeout n 0 bp k ws

/-- A call of the queue interface, with its arguments. -/
inductive Call where
  | put (currp : Nat) (b : uint8_t) (timeout : Nat)
  | get (currp : Nat) (timeout : Nat)
  | read (currp bp n timeout : Nat)
  | write (currp bp n timeout : Nat)
  | reset

/-- Executes one call. -/
def Call.exec : Call → World → List Wake → Out
  | .put currp b timeout, k, ws => chSymQPutTimeout currp b timeout k ws
  | .get currp timeout, k, ws => chSymQGetTimeout currp timeout k ws
  | .read currp bp n timeout, k, ws => chSymQReadTimeout currp bp n timeout k ws
  | .write currp bp n timeout, k, ws => chSymQWriteTimeout currp bp n timeout k ws
  | .reset, k, ws => ⟨.unit, chSymQResetI k, ws⟩

/-- Executes calls one after the other on the same schedule and collects the
replies. -/
def runCalls : List Call → World → List Wake → List Reply × World × List Wake
  | [], k, ws => ([], k, ws)
  | c :: cs, k, ws =>
    let o := c.exec k ws
    let r := runCalls cs o.k o.ws
    (o.reply :: r.1, r.2)

/-- A wake-up that only delivers a wake code: nothing else ran meanwhile. -/
def wakeCode (m : Int) : Wake := ⟨m, fun k => k⟩

/-- The address after `p` in the ring buffer, as the code advances a pointer. -/
def nextPtr (buffer top p : Nat) : Nat :=
  if p + 1 ≥ top then buffer else p + 1

/-- The `n` bytes found from address `p` on in the ring between `buffer` and
`top`. -/
def bufferedFrom (buffer top : Nat) (mem : Nat → uint8_t) : Nat → Nat → List uint8_t
  | 0, _ => []
  | n + 1, p => mem p :: bufferedFrom buffer top mem n (nextPtr buffer top p)

/-- The buffered bytes, oldest first: `q_counter` bytes from the read pointer on. -/
def buffered (k : World) : List uint8_t :=
  bufferedFrom k.sq.q_buffer k.sq.q_top k.mem k.sq.q_counter.toNat k.sq.q_rdptr

/-- Well-formed queue of capacity `C`: the buffer has `C` bytes, both pointers
are inside it, the counter is between 0 and `C`, and the write pointer is
`q_counter` bytes ahead of the read pointer around the ring. -/
def WF (C : Nat) (k : World) : Prop :=
  k.sq.q_top = k.sq.q_buffer + C ∧
  k.sq.q_buffer ≤ k.sq.q_rdptr ∧ k.sq.q_rdptr < k.sq.q_top ∧
  k.sq.q_buffer ≤ k.sq.q_wrptr ∧ k.sq.q_wrptr < k.sq.q_top ∧
  0 ≤ k.sq.q_counter ∧ k.sq.q_counter ≤ (C : Int) ∧
  ((k.sq.q_wrptr : Int) = k.sq.q_rdptr + k.sq.q_counter ∨
    (k.sq.q_wrptr : Int) + C = k.sq.q_rdptr + k.sq.q_counter)

instance (C : Nat) (k : World) : Decidable (WF C k) := by
  unfold WF; infer_instance

/-- A queue state reached from `chSymQInit` with capacity `C` by calls of the
interface, the scheduler delivering wake codes. -/
def Reachable (C : Nat) (k : World) : Prop :=
  ∃ (k0 : World) (bp : Nat) (calls : List Call) (codes : List Int),
    k = (runCalls calls (chSymQInit bp C k0) (codes.map wakeCode)).2.1

/-- The world after the queue gave out its oldest byte: counter decremented,
read pointer advanced, head waiter (if any) readied with `Q_OK`. -/
def popped (k : World) : World :=
  { k with
    sq := { k.sq with
            q_counter := k.sq.q_counter - 1,
            q_rdptr := nextPtr k.sq.q_buffer k.sq.q_top k.sq.q_rdptr,
            q_waiting := k.sq.q_waiting.drop 1 },
    rdy := k.rdy ++ (k.sq.q_waiting.take 1).map (fun t => (t, Q_OK)) }

/-- The world after byte `b` was stored at the write pointer: counter
incremented, write pointer advanced, head waiter (if any) readied with `Q_OK`. -/
def pushed (b : uint8_t) (k : World) : World :=
  { k with
    sq := { k.sq with
            q_counter := k.sq.q_counter + 1,
            q_wrptr := nextPtr k.sq.q_buffer k.sq.q_top k.sq.q_wrptr,
            q_waiting := k.sq.q_waiting.drop 1 },
    mem := store k.mem k.sq.q_wrptr b,
    rdy := k.rdy ++ (k.sq.q_waiting.take 1).map (fun t => (t, Q_OK)) }

/-- The world after the oldest byte went from the queue to address `bp` of the
caller's array. -/
def delivered (bp : Nat) (k : World) : World :=
  { popped k with umem := store k.umem bp (k.mem k.sq.q_rdptr) }

/-- World of a waiting-loop result. -/
def Waited.world : Waited → World
  | .go k _ => k
  | .ret _ k _ => k
  | .asleep k => k

/-- Wake-ups left after a waiting loop. -/
def Waited.rest : Waited → List Wake
  | .go _ ws => ws
  | .ret _ _ ws => ws
  | .asleep _ => []

/-- A property of worlds that does not depend on the threads queue nor on the
sleep count. -/
def Stable (P : World → Prop) : Prop :=
  ∀ (k : World) (l : List Nat) (n : Nat),
    P k → P { k with sq := { k.sq with q_waiting := l }, sleeps := n }

/-- Every wake-up of the schedule keeps property `P` of the world. -/
def EnvKeeps (P : World → Prop) (ws : List Wake) : Prop :=
  ∀ w ∈ ws, ∀ k, P k → P (w.env k)

/-- The world in which thread `currp`, gone to sleep in world `k` through
`qwait`, resumes on wake-up `w`. -/
def resumed (currp : Nat) (w : Wake) (k : World) : World :=
  (qwait currp (TIME_IMMEDIATE + 1) k [w]).2.1

/-- Two worlds with the same queue data: counter, pointers, buffer bounds and
both memories agree; threads queue, ready list and sleep count may differ. -/
def SameData (k k1 : World) : Prop :=
  k1.sq.q_counter = k.sq.q_counter ∧ k1.sq.q_buffer = k.sq.q_buffer ∧
  k1.sq.q_top = k.sq.q_top ∧ k1.sq.q_wrptr = k.sq.q_wrptr ∧
  k1.sq.q_rdptr = k.sq.q_rdptr ∧ k1.mem = k.mem ∧ k1.umem = k.umem

/-- The threads that run during a sleep neither put nor take a byte: they
leave the queue data and the callers' arrays as they are. -/
def Quiet (env : World → World) : Prop :=
  ∀ k, SameData k (env k)

/-- A schedule in which the wait ends with a timeout or a reset before any
byte arrives or any space is freed: possibly some wake-ups with `Q_OK` that
find the queue unchanged, then a wake-up with `Q_TIMEOUT` or `Q_RESET`. -/
def EndsQuietly (ws : List Wake) : Prop :=
  ∃ (pre : List Wake) (w : Wake) (post : List Wake),
    ws = pre ++ w :: post ∧ (∀ v ∈ pre, v.msg = Q_OK ∧ Quiet v.env) ∧
    (w.msg = Q_TIMEOUT ∨ w.msg = Q_RESET) ∧ Quiet w.env

/-- The queue data of `k1` are those of `k` after a reset: the counter is 0,
both pointers are at the start of the buffer, the buffer bounds and both
memories are those of `k`. -/
def ResetData (k k1 : World) : Prop :=
  k1.sq.q_counter = 0 ∧ k1.sq.q_buffer = k.sq.q_buffer ∧
  k1.sq.q_top = k.sq.q_top ∧ k1.sq.q_wrptr = k.sq.q_buffer ∧
  k1.sq.q_rdptr = k.sq.q_buffer ∧ k1.mem = k.mem ∧ k1.umem = k.umem

/-- The threads that run during a sleep reset the queue: they leave the queue
data as `chSymQResetI` does, and the callers' arrays as they are. -/
def Resets (env : World → World) : Prop :=
  ∀ k, ResetData k (env k)

/-- A schedule in which the wait ends with a reset of the queue before any
byte arrives or any space is freed otherwise: possibly some wake-ups with
`Q_OK` that find the queue unchanged, then a wake-up with `Q_RESET` (or with
`Q_TIMEOUT`, the timeout having come first) that finds the queue reset. -/
def EndsReset (ws : List Wake) : Prop :=
  ∃ (pre : List Wake) (w : Wake) (post : List Wake),
    ws = pre ++ w :: post ∧ (∀ v ∈ pre, v.msg = Q_OK ∧ Quiet v.env) ∧
    (w.msg = Q_TIMEOUT ∨ w.msg = Q_RESET) ∧ Resets w.env

/-- A schedule in which the wait ends with a timeout or a reset before any
byte arrives: it ends quietly or with a reset of the queue. -/
def EndsUnfed (ws : List Wake) : Prop :=
  EndsQuietly ws ∨ EndsReset ws

/-- The wake-up of a waiting thread by another thread that calls
`chSymQResetI`. -/
def resetWakeUp : Wake :=
  ⟨Q_RESET, chSymQResetI⟩

/-- Read as the specification words it: single-byte gets are repeated, each
returned byte is stored in the caller's array, until `n` bytes were got or a
get returns `Q_TIMEOUT` or `Q_RESET`; the result is the number of gets that
returned a byte (`r` counts them, `bp` is the next destination address). -/
def readByGets (currp timeout : Nat) : Nat → Nat → Nat → World → List Wake → Out
  | 0, r, _, k, ws => ⟨.count r, k, ws⟩
  | n + 1, r, bp, k, ws =>
    match chSymQGetTimeout currp timeout k ws with
    | ⟨.msg m, k1, ws1⟩ =>
      if m = Q_TIMEOUT ∨ m = Q_RESET then ⟨.count r, k1, ws1⟩
      else
        readByGets currp timeout n (r + 1) (bp + 1)
          { k1 with umem := store k1.umem bp (Fin.ofNat m.toNat) } ws1
    | ⟨_, k1, ws1⟩ => ⟨.asleep, k1, ws1⟩

/-- The schedule delivers only the wake messages that `qwait` documents:
`Q_OK`, `Q_RESET` and `Q_TIMEOUT`. -/
def ValidCodes (ws : List Wake) : Prop :=
  ∀ w ∈ ws, w.msg = Q_OK ∨ w.msg = Q_TIMEOUT ∨ w.msg = Q_RESET

instance (ws : List Wake) : Decidable (ValidCodes ws) := by
  unfold ValidCodes; infer_instance

/-- A world before the queue is initialised: cleared structure and memories. -/
def world0 : World := ⟨⟨[], 0, 0, 0, 0, 0⟩, fun _ => 0, fun _ => 0, [], 0⟩

/-- Example: an empty queue of capacity 3 reached with both pointers on the
last byte of the buffer (two puts and two gets after `chSymQInit` at 100). -/
def wrapWorld : World :=
  (runCalls [.put 1 7 0, .put 1 8 0, .get 2 0, .get 2 0] (chSymQInit 100 3 world0)
    (([] : List Int).map wakeCode)).2.1

/-- Example: a full queue of capacity 2 at address 100 holding `0x41, 0x42`,
with thread 9 waiting. -/
def fullWorld : World :=
  ⟨⟨[9], 2, 100, 102, 100, 100⟩, fun a => if a = 100 then 0x41 else 0x42, fun _ => 0, [], 0⟩

/-- Example: an empty queue of capacity 2 at address 100, with thread 9 waiting. -/
def emptyWorld : World :=
  ⟨⟨[9], 0, 100, 102, 101, 101⟩, fun _ => 0, fun _ => 0, [], 0⟩

/-- Example: a queue of capacity 3 at address 100 holding `0x41, 0x42` from
the last byte of the buffer on, threads 9 and 5 waiting; the callers' memory
holds `0x61, 0x62, ...` from address 0 on. -/
def twoWorld : World :=
  ⟨⟨[9, 5], 2, 100, 103, 101, 102⟩,
    fun a => if a = 102 then 0x41 else if a = 100 then 0x42 else 0,
    fun a => Fin.ofNat (0x61 + a), [], 0⟩


/-- The world in which thread `currp` sleeps after `qwait` put it on the
threads queue of world `k`. -/
def parked (currp : Nat) (k : World) : World :=
  { k with sq := { k.sq with q_waiting := queue_insert currp k.sq.q_waiting },
           sleeps := k.sleeps + 1 }

/-- A call of `chSymQInit` seen as the other calls: the function has neither a
check nor a wait, it returns to its caller. -/
def chSymQInitCall (bp size : Nat) (k : World) (ws : List Wake) : Out :=
  ⟨.unit, chSymQInit bp size k, ws⟩

/-- Example: an empty queue of capacity 4 at address 200 with both pointers on
the third byte, nobody waiting. -/
def fourWorld : World :=
  ⟨⟨[], 0, 200, 204, 202, 202⟩, fun _ => 0, fun _ => 0, [], 0⟩

/-- Example: what a thread putting `0x42` does while another one sleeps. -/
def putWake : Wake :=
  ⟨Q_OK, fun x => (chSymQPutTimeout 2 0x42 TIME_INFINITE x []).k⟩

/-! ## The simulator port (`src/common/ports/SIMIA32/compilers/GCC/chcore.h`)

The interrupt sources of the simulator are the signals of the process.  The
state of the port is the pair of globals `port_irq_sts` and
`port_isr_context_flag` together with the signal mask of the process.  The
signal calls are those of Linux with glibc, the platform that the register
names of the port (`REG_ECX`, `REG_EDX`) belong to: `SIGKILL` and `SIGSTOP`
cannot be blocked and `sigfillset` leaves out the two signals that the library
reserves.  The results of the C library calls made by a port function are
given to it as
`SigCalls`; `chSysHalt` does not return, a port function that calls it ends in
`PortResult.halt`. -/

/-- A signal set (`sigset_t`), also the signal mask of the process: `true` for
the signals that are members (blocked). -/
abbrev sigset_t := Nat → Bool

/-- The failure for which `chSysHalt` is called. -/
inductive HaltReason where
  | sigfillset_failed
  | sigdelset_failed
  | sigprocmask_failed
  | getcontext_failed
  | stack_overflow
  deriving DecidableEq, Repr

/-- The state the port functions act on. -/
structure PortState where
  port_irq_sts : Nat
  port_isr_context_flag : Bool
  sigmask : sigset_t

/-- What the C library answers to the calls of one port function: the values
returned by `sigfillset`, `sigdelset` and `sigprocmask`, and the content of the
local variable `set` before it is filled. -/
structure SigCalls where
  fill_ret : Int
  del_ret : Int
  mask_ret : Int
  junk : sigset_t

/-- How a port function ends: it returns, or `chSysHalt` was called. -/
inductive PortResult where
  | done (p : PortState)
  | halt (reason : HaltReason) (p : PortState)

/-- State in which a port function ended. -/
def PortResult.state : PortResult → PortState
  | .done p => p
  | .halt _ p => p

/-- Whether `chSysHalt` was called. -/
def PortResult.halted : PortResult → Bool
  | .done _ => false
  | .halt _ _ => true

/-- The signal `SIGKILL`, number 9 on Linux. -/
def SIGKILL : Nat := 9

/-- The signal `SIGSTOP`, number 19 on Linux for IA32. -/
def SIGSTOP : Nat := 19

/-- The two signals that the C library keeps for its own use (glibc:
`SIGCANCEL`, 32, and `SIGSETXID`, 33); `sigfillset` leaves them out of the
set it builds. -/
def reservedSignal (s : Nat) : Bool :=
  s == 32 || s == 33

/-- The signals that `sigprocmask` can block: all but `SIGKILL` and `SIGSTOP`,
for which the request is silently ignored. -/
def blockable (s : Nat) : Bool :=
  !(s == SIGKILL || s == SIGSTOP)

/-- POSIX `sigfillset` as glibc on Linux does it: returning 0 it makes `set`
hold every signal but the two reserved ones, failing it leaves `set` as it
was. -/
def sigfillset (ret : Int) (set : sigset_t) : Int × sigset_t :=
  (ret, if ret = 0 then fun s => !reservedSignal s else set)

/-- POSIX `sigdelset`: returning 0 it removes `signo` from `set`, failing it
leaves `set` as it was. -/
def sigdelset (ret : Int) (set : sigset_t) (signo : Nat) : Int × sigset_t :=
  (ret, if ret = 0 then fun s => if s = signo then false else set s else set)

/-- First argument of `sigprocmask`. -/
inductive SigHow where
  | SIG_BLOCK
  | SIG_UNBLOCK
  deriving DecidableEq, Repr

/-- POSIX `sigprocmask` with a null third argument: returning 0 it adds the
members of `set` that can be blocked to the mask (`SIG_BLOCK`; `SIGKILL` and
`SIGSTOP` are never added) or removes the members of `set` from it
(`SIG_UNBLOCK`), failing it leaves the mask as it was. -/
def sigprocmask (ret : Int) (how : SigHow) (set : sigset_t) (mask : sigset_t) :
    Int × sigset_t :=
  (ret,
    if ret = 0 then
      match how with
      | .SIG_BLOCK => fun s => mask s || (set s && blockable s)
      | .SIG_UNBLOCK => fun s => mask s && !set s
    else mask)

/-- The function `port_init`. -/
def port_init (p : PortState) : PortState :=
  { p with port_irq_sts := 0, port_isr_context_flag := false }

/-- The function `port_is_isr_context`. -/
def port_is_isr_context (p : PortState) : Bool :=
  p.port_isr_context_flag

/-- The code of `PORT_IRQ_PROLOGUE`. -/
def PORT_IRQ_PROLOGUE (p : PortState) : PortState :=
  { p with port_isr_context_flag := true }

/-- The code of `PORT_IRQ_EPILOGUE`; `preempt` is what
`chSchIsPreemptionRequired` answers, the value the handler returns. -/
def PORT_IRQ_EPILOGUE (preempt : Bool) (p : PortState) : Bool × PortState :=
  (preempt, { p with port_isr_context_flag := false })

/-- The function `port_lock`. -/
def port_lock (o : SigCalls) (p : PortState) : PortResult :=
  let set := sigfillset o.fill_ret o.junk
  if set.1 < 0 then .halt .sigfillset_failed p
  else
    let r := sigprocmask o.mask_ret .SIG_BLOCK set.2 p.sigmask
    if r.1 > 0 then .halt .sigprocmask_failed { p with sigmask := r.2 }
    else .done { p with sigmask := r.2, port_irq_sts := 1 }

/-- The function `port_unlock`. -/
def port_unlock (o : SigCalls) (p : PortState) : PortResult :=
  let p1 := { p with port_irq_sts := 0 }
  let set := sigfillset o.fill_ret o.junk
  if set.1 < 0 then .halt .sigfillset_failed p1
  else
    let r := sigprocmask o.mask_ret .SIG_UNBLOCK set.2 p1.sigmask
    if r.1 > 0 then .halt .sigprocmask_failed { p1 with sigmask := r.2 }
    else .done { p1 with sigmask := r.2 }

/-- The function `port_lock_from_isr`; `PORT_TIMER_SIGNAL` is the constant of
that name, defined in a header that is not among the sources. -/
def port_lock_from_isr (PORT_TIMER_SIGNAL : Nat) (o : SigCalls) (p : PortState) :
    PortResult :=
  let set := sigfillset o.fill_ret o.junk
  if set.1 < 0 then .halt .sigfillset_failed p
  else
    let set1 := sigdelset o.del_ret set.2 PORT_TIMER_SIGNAL
    if set1.1 ≠ 0 then .halt .sigdelset_failed p
    else
      let r := sigprocmask o.mask_ret .SIG_BLOCK set1.2 p.sigmask
      if r.1 > 0 then .halt .sigprocmask_failed { p with sigmask := r.2 }
      else .done { p with sigmask := r.2, port_irq_sts := 1 }

/-- The function `port_unlock_from_isr`. -/
def port_unlock_from_isr (PORT_TIMER_SIGNAL : Nat) (o : SigCalls) (p : PortState) :
    PortResult :=
  let p1 := { p with port_irq_sts := 0 }
  let set := sigfillset o.fill_ret o.junk
  if set.1 < 0 then .halt .sigfillset_failed p1
  else
    let set1 := sigdelset o.del_ret set.2 PORT_TIMER_SIGNAL
    if set1.1 ≠ 0 then .halt .sigdelset_failed p1
    else
      let r := sigprocmask o.mask_ret .SIG_UNBLOCK set1.2 p1.sigmask
      if r.1 > 0 then .halt .sigprocmask_failed { p1 with sigmask := r.2 }
      else .done { p1 with sigmask := r.2 }

/-- The function `port_disable`. -/
def port_disable (o : SigCalls) (p : PortState) : PortResult :=
  let set := sigfillset o.fill_ret o.junk
  if set.1 < 0 then .halt .sigfillset_failed p
  else
    let r := sigprocmask o.mask_ret .SIG_BLOCK set.2 p.sigmask
    if r.1 > 0 then .halt .sigprocmask_failed { p with sigmask := r.2 }
    else .done { p with sigmask := r.2, port_irq_sts := 1 }

/-- The function `port_suspend`. -/
def port_suspend (o : SigCalls) (p : PortState) : PortResult :=
  let set := sigfillset o.fill_ret o.junk
  if set.1 < 0 then .halt .sigfillset_failed p
  else
    let r := sigprocmask o.mask_ret .SIG_BLOCK set.2 p.sigmask
    if r.1 > 0 then .halt .sigprocmask_failed { p with sigmask := r.2 }
    else .done { p with sigmask := r.2, port_irq_sts := 1 }

/-- The function `port_enable`. -/
def port_enable (o : SigCalls) (p : PortState) : PortResult :=
  let p1 := { p with port_irq_sts := 0 }
  let set := sigfillset o.fill_ret o.junk
  if set.1 < 0 then .halt .sigfillset_failed p1
  else
    let r := sigprocmask o.mask_ret .SIG_UNBLOCK set.2 p1.sigmask
    if r.1 > 0 then .halt .sigprocmask_failed { p1 with sigmask := r.2 }
    else .done { p1 with sigmask := r.2 }

/-- The seven masking operations of the port. -/
inductive PortOp where
  | lock
  | unlock
  | lock_from_isr
  | unlock_from_isr
  | disable
  | suspend
  | enable
  deriving DecidableEq, Repr

/-- Executes one masking operation. -/
def PortOp.exec (PORT_TIMER_SIGNAL : Nat) : PortOp → SigCalls → PortState → PortResult
  | .lock, o, p => port_lock o p
  | .unlock, o, p => port_unlock o p
  | .lock_from_isr, o, p => port_lock_from_isr PORT_TIMER_SIGNAL o p
  | .unlock_from_isr, o, p => port_unlock_from_isr PORT_TIMER_SIGNAL o p
  | .disable, o, p => port_disable o p
  | .suspend, o, p => port_suspend o p
  | .enable, o, p => port_enable o p

/-- Executes masking operations one after the other; nothing runs after a halt. -/
def runPort (PORT_TIMER_SIGNAL : Nat) : List (PortOp × SigCalls) → PortState → PortResult
  | [], p => .done p
  | (op, o) :: rest, p =>
    match op.exec PORT_TIMER_SIGNAL o p with
    | .done p1 => runPort PORT_TIMER_SIGNAL rest p1
    | .halt reason p1 => .halt reason p1

/-- Library calls that all succeed. -/
def sigOk : SigCalls := ⟨0, 0, 0, fun _ => false⟩

/-- Example: an unlocked port state in which signal 10 is blocked. -/
def port10 : PortState := ⟨0, false, fun s => s == 10⟩

/-- The function `port_get_irq_status`: it returns the constant 0 and reads
nothing of the port state. -/
def port_get_irq_status (_p : PortState) : Nat :=
  0

/-- The function `port_irq_enabled`. -/
def port_irq_enabled (sts : Nat) : Bool :=
  sts == 0

/-- The part of `ucontext_t` that `PORT_SETUP_CONTEXT` deals with: the stack
description `uc_stack`, the saved registers `ECX` and `EDX` of
`uc_mcontext.gregs`, and the place where execution goes on when the context is
resumed. -/
structure ucontext_t where
  ss_sp : Nat
  ss_size : Nat
  ss_flags : Int
  gregs_ECX : Nat
  gregs_EDX : Nat
  resume : Nat
  deriving DecidableEq, Repr

/-- How `PORT_SETUP_CONTEXT` ends: the context is set up, or `chSysHalt` was
called. -/
inductive SetupResult where
  | done (uc : ucontext_t)
  | halt (reason : HaltReason) (uc : ucontext_t)
  deriving DecidableEq, Repr

/-- C library `getcontext`: returning 0 it stores the current context `cur`
of the caller in `uc`, failing it leaves `uc` as it was. -/
def getcontext (ret : Int) (cur uc : ucontext_t) : Int × ucontext_t :=
  (ret, if ret = 0 then cur else uc)

/-- C library `makecontext`: the context will continue in function `func`; the
stack description and the saved `ECX` and `EDX` stay as they are. -/
def makecontext (uc : ucontext_t) (func : Nat) : ucontext_t :=
  { uc with resume := func }

/-- The code of `PORT_SETUP_CONTEXT(tp, workspace, wsize, pf, arg)` acting on
`tp->p_ctx.uc`; `ret` and `cur` are the answer of `getcontext`, `pf` and `arg`
are addresses, cast to `uint32_t`, and `_port_thread_start` is the address of
the function of that name. -/
def PORT_SETUP_CONTEXT (ret : Int) (cur : ucontext_t) (_port_thread_start : Nat)
    (uc : ucontext_t) (workspace wsize pf arg : Nat) : SetupResult :=
  let g := getcontext ret cur uc
  if g.1 < 0 then .halt .getcontext_failed g.2
  else
    let uc1 := { g.2 with ss_sp := workspace }
    let uc2 := { uc1 with ss_size := wsize }
    let uc3 := { uc2 with ss_flags := 0 }
    let uc4 := { uc3 with gregs_ECX := pf % 2 ^ 32 }
    let uc5 := { uc4 with gregs_EDX := arg % 2 ^ 32 }
    .done (makecontext uc5 _port_thread_start)

/-- The preprocessor checks of `chcore.h`: the header is rejected (`#error`)
when `CH_DBG_ENABLE_STACK_CHECK` is set, and when `_GNU_SOURCE` is not defined. -/
def chcore_h_accepted (CH_DBG_ENABLE_STACK_CHECK GNU_SOURCE : Bool) : Bool :=
  if CH_DBG_ENABLE_STACK_CHECK then false
  else if !GNU_SOURCE then false
  else true

/-- How `port_switch` ends: `_port_switch(ntp, otp)` was called, or
`chSysHalt` was. -/
inductive SwitchResult where
  | switched (ntp otp : Nat)
  | halt (reason : HaltReason)
  deriving DecidableEq, Repr

/-- The two variants of the macro `port_switch(ntp, otp)`, chosen by
`CH_DBG_ENABLE_STACK_CHECK`.  `sp` is the stack pointer, `ctxsize` is
`sizeof(struct port_intctx)` (the step of `sp - 1`), `p_stklimit` is
`otp->p_stklimit`, the lower limit of the stack of the outgoing thread. -/
def port_switch (CH_DBG_ENABLE_STACK_CHECK : Bool) (ctxsize sp p_stklimit : Nat)
    (ntp otp : Nat) : SwitchResult :=
  if !CH_DBG_ENABLE_STACK_CHECK then .switched ntp otp
  else if (sp : Int) - (ctxsize : Int) < (p_stklimit : Int) then .halt .stack_overflow
  else .switched ntp otp

/-- Example: a context as `getcontext` captures it. -/
def someContext : ucontext_t := ⟨5000, 64, 2, 11, 12, 777⟩

/-! ## Non-volatile memory devices (`src/src/nvm_tools.c`,
`src/hal/src/qhal_nvm_partition.c`)

The header declaring `BaseNVMDevice`, `NVMDeviceInfo` and `nvmstate_t` is not
among the sources.  A device is modelled as a byte memory that records every
request it receives and answers with failure the requests given by `fails`.
32 bit unsigned arithmetic is written with `% 2 ^ 32`. -/

/-- Modelled from the spec: the result value `HAL_SUCCESS`, also `CH_SUCCESS`,
of a header that is not among the sources; the value is the one of ChibiOS.
The code compares results with it and never uses the value itself. -/
def HAL_SUCCESS : Bool := false

/-- Modelled from the spec: the result value `HAL_FAILED`, also `CH_FAILED`. -/
def HAL_FAILED : Bool := true

/-- Modelled from the spec: the structure `NVMDeviceInfo` of the missing
`qhal_nvm.h`, with the fields the code uses. -/
structure NVMDeviceInfo where
  sector_size : Nat
  sector_num : Nat
  identification : List uint8_t
  write_alignment : Nat
  deriving DecidableEq, Repr

/-- Modelled from the spec: a request to a device through the methods table of
the missing `qhal_nvm.h`. -/
inductive NVMRequest where
  | read (startaddr n : Nat)
  | write (startaddr n : Nat) (data : List uint8_t)
  | erase (startaddr n : Nat)
  | sync
  | get_info
  | writeprotect (startaddr n : Nat)
  | writeunprotect (startaddr n : Nat)
  deriving DecidableEq, Repr

/-- Modelled from the spec: a device behind `BaseNVMDevice`: its content, its
geometry, the requests it fails, and the requests it has received (oldest
first). -/
structure NVMDevice where
  mem : Nat → uint8_t
  info : NVMDeviceInfo
  fails : NVMRequest → Bool
  log : List NVMRequest

/-- Modelled from the spec: the method `nvmRead`: `n` bytes from `startaddr`
on, none when the device fails the request. -/
def nvmRead (dev : NVMDevice) (startaddr n : Nat) : Bool × List uint8_t × NVMDevice :=
  let dev1 := { dev with log := dev.log ++ [.read startaddr n] }
  if dev.fails (.read startaddr n) then (HAL_FAILED, [], dev1)
  else (HAL_SUCCESS, (List.range n).map (fun j => dev.mem (startaddr + j)), dev1)

/-- Modelled from the spec: the method `nvmWrite` of a device that is plain writable memory: the first
`n` bytes of `data` go to `startaddr` and the following addresses, nothing is
written when the device fails the request. -/
def nvmWrite (dev : NVMDevice) (startaddr n : Nat) (data : List uint8_t) : Bool × NVMDevice :=
  let dev1 := { dev with log := dev.log ++ [.write startaddr n (data.take n)] }
  if dev.fails (.write startaddr n (data.take n)) then (HAL_FAILED, dev1)
  else
    (HAL_SUCCESS,
      { dev1 with mem := fun x =>
          if startaddr ≤ x ∧ x < startaddr + n then (data.take n).getD (x - startaddr) (dev.mem x)
          else dev.mem x })

/-- Modelled from the spec: the method `nvmErase`: the bytes of the range become `0xff`. -/
def nvmErase (dev : NVMDevice) (startaddr n : Nat) : Bool × NVMDevice :=
  let dev1 := { dev with log := dev.log ++ [.erase startaddr n] }
  if dev.fails (.erase startaddr n) then (HAL_FAILED, dev1)
  else
    (HAL_SUCCESS,
      { dev1 with mem := fun x =>
          if startaddr ≤ x ∧ x < startaddr + n then 0xff else dev.mem x })

/-- Modelled from the spec: the method `nvmSync`. -/
def nvmSync (dev : NVMDevice) : Bool × NVMDevice :=
  let dev1 := { dev with log := dev.log ++ [.sync] }
  if dev.fails .sync then (HAL_FAILED, dev1) else (HAL_SUCCESS, dev1)

/-- Modelled from the spec: the method `nvmGetInfo`: the geometry of the device goes to the structure
of the caller, which is `di` before the call and stays so on failure. -/
def nvmGetInfo (dev : NVMDevice) (di : NVMDeviceInfo) : Bool × NVMDeviceInfo × NVMDevice :=
  let dev1 := { dev with log := dev.log ++ [.get_info] }
  if dev.fails .get_info then (HAL_FAILED, di, dev1) else (HAL_SUCCESS, dev.info, dev1)

/-- Modelled from the spec: the method `nvmWriteProtect`. -/
def nvmWriteProtect (dev : NVMDevice) (startaddr n : Nat) : Bool × NVMDevice :=
  let dev1 := { dev with log := dev.log ++ [.writeprotect startaddr n] }
  if dev.fails (.writeprotect startaddr n) then (HAL_FAILED, dev1) else (HAL_SUCCESS, dev1)

/-- Modelled from the spec: the method `nvmWriteUnprotect`. -/
def nvmWriteUnprotect (dev : NVMDevice) (startaddr n : Nat) : Bool × NVMDevice :=
  let dev1 := { dev with log := dev.log ++ [.writeunprotect startaddr n] }
  if dev.fails (.writeunprotect startaddr n) then (HAL_FAILED, dev1) else (HAL_SUCCESS, dev1)

/-- The loop of `nvmcmp` from index `i` on (`n - i` is what is left to do). -/
def nvmcmpLoop (n : Nat) : Nat → Nat → NVMDevice → NVMDevice → Int × NVMDevice × NVMDevice
  | 0, _, deva, devb => (0, deva, devb)
  | left + 1, i, deva, devb =>
    if i < n then
      let ra := nvmRead deva i 1
      if ra.1 != HAL_SUCCESS then (-1, ra.2.2, devb)
      else
        let rb := nvmRead devb i 1
        if rb.1 != HAL_SUCCESS then (-1, ra.2.2, rb.2.2)
        else if ra.2.1 != rb.2.1 then (1, ra.2.2, rb.2.2)
        else nvmcmpLoop n left ((i + 1) % 2 ^ 32) ra.2.2 rb.2.2
    else (0, deva, devb)

/-- The function `nvmcmp`; `n` is a `uint32_t`.  The index runs from 0 to `n`,
which takes at most `n + 1` tests of the loop condition. -/
def nvmcmp (deva devb : NVMDevice) (n : Nat) : Int × NVMDevice × NVMDevice :=
  nvmcmpLoop n (n + 1) 0 deva devb

/-- How a function of `nvm_tools.c` ends: it returns a value, a debug
assertion fails, or it is still in its loop when the `fuel` of the model is
used up. -/
inductive ToolResult where
  | ret (v : Bool) (dst src : NVMDevice)
  | assertFailed
  | running

/-- The loop of `nvmcpy` with alignment `a`, index `i` a `uint32_t`. -/
def nvmcpyLoop (a n : Nat) : Nat → Nat → NVMDevice → NVMDevice → ToolResult
  | 0, _, _, _ => .running
  | fuel + 1, i, dst, src =>
    if i < n then
      let chunk_n := if n - i < a then n - i else a
      let rs := nvmRead src i chunk_n
      if rs.1 != HAL_SUCCESS then .ret false dst rs.2.2
      else
        let temp := rs.2.1 ++ List.replicate (4 - chunk_n) (0xff : uint8_t)
        let rd := nvmWrite dst i a temp
        if rd.1 != HAL_SUCCESS then .ret false rd.2 rs.2.2
        else nvmcpyLoop a n fuel ((i + a) % 2 ^ 32) rd.2 rs.2.2
    else .ret true dst src

/-- The function `nvmcpy`; `n` is a `uint32_t`, `di` is the content of the
local structure before `nvmGetInfo` fills it. -/
def nvmcpy (fuel : Nat) (di : NVMDeviceInfo) (dst src : NVMDevice) (n : Nat) : ToolResult :=
  let gi := nvmGetInfo dst di
  if gi.1 != HAL_SUCCESS then .ret false gi.2.2 src
  else if ¬ gi.2.1.write_alignment ≤ 4 then .assertFailed
  else
    let a := if gi.2.1.write_alignment = 0 then 1 else gi.2.1.write_alignment
    nvmcpyLoop a n fuel 0 gi.2.2 src

/-- The loop of `nvmset` with alignment `a`, index `i` a `uint32_t`; only the
destination device is involved. -/
def nvmsetLoop (a n : Nat) (temp : List uint8_t) : Nat → Nat → NVMDevice → Option (Bool × NVMDevice)
  | 0, _, _ => none
  | fuel + 1, i, dst =>
    if i < n then
      let rd := nvmWrite dst i a temp
      if rd.1 != HAL_SUCCESS then some (false, rd.2)
      else nvmsetLoop a n temp fuel ((i + a) % 2 ^ 32) rd.2
    else some (true, dst)

/-- How `nvmset` ends. -/
inductive SetResult where
  | ret (v : Bool) (dst : NVMDevice)
  | assertFailed
  | running

/-- The function `nvmset`; `di` is the content of the local structure before
`nvmGetInfo` fills it. -/
def nvmset (fuel : Nat) (di : NVMDeviceInfo) (dst : NVMDevice) (pattern : uint8_t) (n : Nat) :
    SetResult :=
  let gi := nvmGetInfo dst di
  if gi.1 == HAL_SUCCESS then .ret false gi.2.2
  else if ¬ gi.2.1.write_alignment ≤ 4 then .assertFailed
  else
    match nvmsetLoop gi.2.1.write_alignment n [pattern, pattern, pattern, pattern] fuel 0
        gi.2.2 with
    | none => .running
    | some r => .ret r.1 r.2

/-- Example: a device of 64 sectors of 256 bytes holding `0x11` everywhere,
write alignment 2, that fails nothing. -/
def devOnes : NVMDevice :=
  ⟨fun _ => 0x11, ⟨256, 64, [1, 2, 3], 2⟩, fun _ => false, []⟩

/-- Example: a device like `devOnes` holding `0x22` at address 1. -/
def devTwo : NVMDevice :=
  ⟨fun a => if a = 1 then 0x22 else 0x11, ⟨256, 64, [1, 2, 3], 2⟩, fun _ => false, []⟩

/-- Example: a device like `devOnes` that fails every read. -/
def devBroken : NVMDevice :=
  ⟨fun _ => 0x11, ⟨256, 64, [1, 2, 3], 2⟩,
    fun r => match r with
      | .read _ _ => true
      | _ => false,
    []⟩

/-- Modelled from the spec: driver state `NVM_UNINIT` of `nvmstate_t` in the
missing `qhal_nvm.h`.  The states are numbered in the order of the ChibiOS
drivers; the code relies on the busy states being above `NVM_READY`
(`nvmpartSync` asserts `state >= NVM_READY` and then tells them apart). -/
def NVM_UNINIT : Nat := 0

/-- Modelled from the spec: driver state `NVM_STOP`. -/
def NVM_STOP : Nat := 1

/-- Modelled from the spec: driver state `NVM_READY`. -/
def NVM_READY : Nat := 2

/-- Modelled from the spec: driver state `NVM_READING`. -/
def NVM_READING : Nat := 3

/-- Modelled from the spec: driver state `NVM_WRITING`. -/
def NVM_WRITING : Nat := 4

/-- Modelled from the spec: driver state `NVM_ERASING`. -/
def NVM_ERASING : Nat := 5

/-- Modelled from the spec: the structure `NVMPartitionConfig` of the missing
`qhal_nvm_partition.h`, with the fields the code uses: the
underlying device, the first sector of the partition and its number of
sectors. -/
structure NVMPartitionConfig where
  nvmp : Nat
  sector_offset : Nat
  sector_num : Nat
  deriving DecidableEq, Repr

/-- Modelled from the spec: the structure `NVMPartitionDriver` of the missing
`qhal_nvm_partition.h`, with the fields the code uses; the
configuration pointer is `none` when it is `NULL`. -/
structure NVMPartitionDriver where
  state : Nat
  config : Option NVMPartitionConfig
  llnvmdi : NVMDeviceInfo
  part_org : Nat
  part_size : Nat
  deriving DecidableEq, Repr

/-- How a function of the partition driver ends: it returns `v` with the
driver and the underlying device as it leaves them, a debug check or assertion
fails, or it reads through the `NULL` configuration pointer. -/
inductive PartResult (α : Type) where
  | ret (v : α) (drv : NVMPartitionDriver) (dev : NVMDevice)
  | assertFailed
  | nullConfig

/-- The function `nvmpartObjectInit`. -/
def nvmpartObjectInit (drv : NVMPartitionDriver) : NVMPartitionDriver :=
  { drv with state := NVM_STOP, config := none }

/-- The function `nvmpartStart`; `dev` is the device `config->nvmp`. -/
def nvmpartStart (drv : NVMPartitionDriver) (config : NVMPartitionConfig) (dev : NVMDevice) :
    PartResult Unit :=
  if ¬ (drv.state = NVM_STOP ∨ drv.state = NVM_READY) then .assertFailed
  else
    let drv1 := { drv with config := some config }
    let gi := nvmGetInfo dev drv1.llnvmdi
    let drv2 := { drv1 with llnvmdi := gi.2.1 }
    let drv3 := { drv2 with part_org := (drv2.llnvmdi.sector_size * config.sector_offset) % 2 ^ 32 }
    let drv4 := { drv3 with part_size := (drv3.llnvmdi.sector_size * config.sector_num) % 2 ^ 32 }
    .ret () { drv4 with state := NVM_READY } gi.2.2

/-- The function `nvmpartStop`. -/
def nvmpartStop (drv : NVMPartitionDriver) (dev : NVMDevice) : PartResult Unit :=
  if ¬ (drv.state = NVM_STOP ∨ drv.state = NVM_READY) then .assertFailed
  else .ret () { drv with state := NVM_STOP } dev

/-- The function `nvmpartRead`; the value is the status and the bytes put
into `buffer`.  `startaddr` and `n` are `uint32_t`. -/
def nvmpartRead (drv : NVMPartitionDriver) (dev : NVMDevice) (startaddr n : Nat) :
    PartResult (Bool × List uint8_t) :=
  if ¬ drv.state ≥ NVM_READY then .assertFailed
  else if ¬ (startaddr + n) % 2 ^ 32 ≤ drv.part_size then .assertFailed
  else
    match drv.config with
    | none => .nullConfig
    | some _ =>
      let drv1 := { drv with state := NVM_READING }
      let r := nvmRead dev ((drv1.part_org + startaddr) % 2 ^ 32) n
      if r.1 != HAL_SUCCESS then .ret (r.1, r.2.1) drv1 r.2.2
      else .ret (HAL_SUCCESS, r.2.1) { drv1 with state := NVM_READY } r.2.2

/-- The function `nvmpartWrite`. -/
def nvmpartWrite (drv : NVMPartitionDriver) (dev : NVMDevice) (startaddr n : Nat)
    (buffer : List uint8_t) : PartResult Bool :=
  if ¬ drv.state ≥ NVM_READY then .assertFailed
  else if ¬ (startaddr + n) % 2 ^ 32 ≤ drv.part_size then .assertFailed
  else
    match drv.config with
    | none => .nullConfig
    | some _ =>
      let drv1 := { drv with state := NVM_WRITING }
      let r := nvmWrite dev ((drv1.part_org + startaddr) % 2 ^ 32) n buffer
      .ret r.1 drv1 r.2

/-- The function `nvmpartErase`. -/
def nvmpartErase (drv : NVMPartitionDriver) (dev : NVMDevice) (startaddr n : Nat) :
    PartResult Bool :=
  if ¬ drv.state ≥ NVM_READY then .assertFailed
  else if ¬ (startaddr + n) % 2 ^ 32 ≤ drv.part_size then .assertFailed
  else
    match drv.config with
    | none => .nullConfig
    | some _ =>
      let drv1 := { drv with state := NVM_ERASING }
      let r := nvmErase dev ((drv1.part_org + startaddr) % 2 ^ 32) n
      .ret r.1 drv1 r.2

/-- The function `nvmpartMassErase`. -/
def nvmpartMassErase (drv : NVMPartitionDriver) (dev : NVMDevice) : PartResult Bool :=
  if ¬ drv.state ≥ NVM_READY then .assertFailed
  else
    match drv.config with
    | none => .nullConfig
    | some _ =>
      let drv1 := { drv with state := NVM_ERASING }
      let r := nvmErase dev drv1.part_org drv1.part_size
      .ret r.1 drv1 r.2

/-- The function `nvmpartSync`. -/
def nvmpartSync (drv : NVMPartitionDriver) (dev : NVMDevice) : PartResult Bool :=
  if ¬ drv.state ≥ NVM_READY then .assertFailed
  else if drv.state = NVM_READY then .ret HAL_SUCCESS drv dev
  else
    match drv.config with
    | none => .nullConfig
    | some _ =>
      let r := nvmSync dev
      if r.1 != HAL_SUCCESS then .ret r.1 drv r.2
      else .ret HAL_SUCCESS { drv with state := NVM_READY } r.2

/-- The function `nvmpartGetInfo`; the value is the status and the structure
`*nvmdip`, which is `nvmdi` before the call. -/
def nvmpartGetInfo (drv : NVMPartitionDriver) (dev : NVMDevice) (nvmdi : NVMDeviceInfo) :
    PartResult (Bool × NVMDeviceInfo) :=
  if ¬ drv.state ≥ NVM_READY then .assertFailed
  else
    match drv.config with
    | none => .nullConfig
    | some config =>
      let i1 := { nvmdi with sector_num := config.sector_num }
      let i2 := { i1 with sector_size := drv.llnvmdi.sector_size }
      let i3 := { i2 with identification := drv.llnvmdi.identification }
      let i4 := { i3 with write_alignment := drv.llnvmdi.write_alignment }
      .ret (HAL_SUCCESS, i4) drv dev

/-- The function `nvmpartWriteProtect`. -/
def nvmpartWriteProtect (drv : NVMPartitionDriver) (dev : NVMDevice) (startaddr n : Nat) :
    PartResult Bool :=
  if ¬ drv.state ≥ NVM_READY then .assertFailed
  else if ¬ (startaddr + n) % 2 ^ 32 ≤ drv.part_size then .assertFailed
  else
    match drv.config with
    | none => .nullConfig
    | some _ =>
      let r := nvmWriteProtect dev ((drv.part_org + startaddr) % 2 ^ 32) n
      .ret r.1 drv r.2

/-- The function `nvmpartWriteUnprotect`. -/
def nvmpartWriteUnprotect (drv : NVMPartitionDriver) (dev : NVMDevice) (startaddr n : Nat) :
    PartResult Bool :=
  if ¬ drv.state ≥ NVM_READY then .assertFailed
  else if ¬ (startaddr + n) % 2 ^ 32 ≤ drv.part_size then .assertFailed
  else
    match drv.config with
    | none => .nullConfig
    | some _ =>
      let r := nvmWriteUnprotect dev ((drv.part_org + startaddr) % 2 ^ 32) n
      .ret r.1 drv r.2

/-- A started partition on configuration `config`: the driver is in state
`NVM_READY` or beyond, holds `config`, and its cached origin and size are the
products of the cached sector size with the sector offset and the sector
number of `config`, in 32 bit arithmetic, as `nvmpartStart` leaves them. -/
def Started (drv : NVMPartitionDriver) (config : NVMPartitionConfig) : Prop :=
  drv.state ≥ NVM_READY ∧ drv.config = some config ∧
  drv.part_org = (drv.llnvmdi.sector_size * config.sector_offset) % 2 ^ 32 ∧
  drv.part_size = (drv.llnvmdi.sector_size * config.sector_num) % 2 ^ 32

instance (drv : NVMPartitionDriver) (config : NVMPartitionConfig) :
    Decidable (Started drv config) := by
  unfold Started; infer_instance

/-- Driver, device and last request of a result, when the function returned. -/
def PartResult.driver {α : Type} : PartResult α → Option NVMPartitionDriver
  | .ret _ drv _ => some drv
  | _ => none

/-- Underlying device of a result, when the function returned. -/
def PartResult.device {α : Type} : PartResult α → Option NVMDevice
  | .ret _ _ dev => some dev
  | _ => none

/-- Value of a result, when the function returned. -/
def PartResult.value {α : Type} : PartResult α → Option α
  | .ret v _ _ => some v
  | _ => none

/-- Requests the underlying device has received, when the function returned. -/
def PartResult.requests {α : Type} (r : PartResult α) : List NVMRequest :=
  match r.device with
  | some dev => dev.log
  | none => []

/-- Example: a partition driver as `nvmpartObjectInit` leaves it. -/
def drvStopped : NVMPartitionDriver :=
  ⟨NVM_STOP, none, ⟨0, 0, [], 0⟩, 0, 0⟩

/-- Example: the partition of sectors 16 to 31. -/
def cfg16 : NVMPartitionConfig := ⟨1, 16, 16⟩

/-- Example: a started partition of 16 sectors of 256 bytes from sector 16 on,
so from `0x1000` on with `0x1000` bytes. -/
def drvStarted : NVMPartitionDriver :=
  ⟨NVM_READY, some cfg16, ⟨256, 64, [1, 2, 3], 2⟩, 0x1000, 0x1000⟩

/-- Example: a stopped driver whose cached device information is left over
from before: sectors of 7 bytes. -/
def drvStale : NVMPartitionDriver :=
  ⟨NVM_STOP, none, ⟨7, 0, [], 0⟩, 0, 0⟩

/-- Example: `drvStale` after a start on `cfg16` with a device that fails
get-info. -/
def drvStaleStarted : NVMPartitionDriver :=
  ⟨NVM_READY, some cfg16, ⟨7, 0, [], 0⟩, 112, 112⟩

/-- Example: a device like `devOnes` that fails every get-info. -/
def devNoInfo : NVMDevice :=
  ⟨fun _ => 0x11, ⟨256, 64, [1, 2, 3], 2⟩,
    fun r => match r with
      | .get_info => true
      | _ => false,
    []⟩


/-! ## Reading the tools of `nvm_tools.c` by their requests -/

/-- The requests for the single bytes at the `len` addresses from `i` on, in
ascending order. -/
def byteReads (i len : Nat) : List NVMRequest :=
  (List.range' i len).map (fun t => NVMRequest.read t 1)

/-- At address `t` the single-byte reads of both devices succeed and give the
same byte. -/
def SameAt (deva devb : NVMDevice) (t : Nat) : Prop :=
  deva.fails (.read t 1) = false ∧ devb.fails (.read t 1) = false ∧ deva.mem t = devb.mem t

instance (deva devb : NVMDevice) (t : Nat) : Decidable (SameAt deva devb t) := by
  unfold SameAt; infer_instance

/-- The devices as the loop of `nvmcpy` leaves them: at its return, or after
`fuel` turns when it is still running then. -/
def nvmcpyLoopDevices (a n : Nat) : Nat → Nat → NVMDevice → NVMDevice → NVMDevice × NVMDevice
  | 0, _, dst, src => (dst, src)
  | fuel + 1, i, dst, src =>
    if i < n then
      let chunk_n := if n - i < a then n - i else a
      let rs := nvmRead src i chunk_n
      if rs.1 != HAL_SUCCESS then (dst, rs.2.2)
      else
        let temp := rs.2.1 ++ List.replicate (4 - chunk_n) (0xff : uint8_t)
        let rd := nvmWrite dst i a temp
        if rd.1 != HAL_SUCCESS then (rd.2, rs.2.2)
        else nvmcpyLoopDevices a n fuel ((i + a) % 2 ^ 32) rd.2 rs.2.2
    else (dst, src)

/-- The devices as `nvmcpy` leaves them: at its return or at the failed
assertion, or after `fuel` turns of its loop when it is still running then. -/
def nvmcpyDevices (fuel : Nat) (di : NVMDeviceInfo) (dst src : NVMDevice) (n : Nat) :
    NVMDevice × NVMDevice :=
  let gi := nvmGetInfo dst di
  if gi.1 != HAL_SUCCESS then (gi.2.2, src)
  else if ¬ gi.2.1.write_alignment ≤ 4 then (gi.2.2, src)
  else
    let a := if gi.2.1.write_alignment = 0 then 1 else gi.2.1.write_alignment
    nvmcpyLoopDevices a n fuel 0 gi.2.2 src

/-- A write request of exactly `a` bytes that starts at a multiple of `a` and
ends at or below `E`. -/
def AlignedWrite (a E : Nat) : NVMRequest → Prop
  | .write startaddr n data => n = a ∧ startaddr % a = 0 ∧ startaddr + a ≤ E ∧ data.length = a
  | _ => False

instance (a E : Nat) (r : NVMRequest) : Decidable (AlignedWrite a E r) := by
  cases r <;> unfold AlignedWrite <;> infer_instance

/-- Example: a device of write alignment 4 holding `0x33` everywhere. -/
def devFour : NVMDevice :=
  ⟨fun _ => 0x33, ⟨256, 64, [1, 2, 3], 4⟩, fun _ => false, []⟩
/-! # Theorems -/

/-! ## The waiting loop -/

theorem waitWhile_false (cond : SymmetricQueue → Bool) (leave : Int → Bool)
    (currp timeout fuel : Nat) (k : World) (ws : List Wake) (h : cond k.sq = false) :
    waitWhile cond leave currp timeout (fuel + 1) k ws = .go k ws := by
  simp [waitWhile, h]

theorem waitWhile_immediate (cond : SymmetricQueue → Bool) (leave : Int → Bool)
    (currp fuel : Nat) (k : World) (ws : List Wake) (h : cond k.sq = true)
    (hl : leave Q_TIMEOUT = true) :
    waitWhile cond leave currp TIME_IMMEDIATE (fuel + 1) k ws = .ret Q_TIMEOUT k ws := by
  simp [waitWhile, h, qwait, hl]

theorem EnvKeeps.tail {P : World → Prop} {w : Wake} {ws : List Wake}
    (h : EnvKeeps P (w :: ws)) : EnvKeeps P ws :=
  fun v hv => h v (List.mem_cons_of_mem _ hv)

theorem EnvKeeps.suffix {P : World → Prop} {ws ws1 : List Wake}
    (h : EnvKeeps P ws) (hs : ws1 <:+ ws) : EnvKeeps P ws1 :=
  fun v hv => h v (hs.subset hv)

theorem envKeeps_codes (P : World → Prop) (codes : List Int) :
    EnvKeeps P (codes.map wakeCode) := by
  intro w hw k hk
  obtain ⟨m, _, rfl⟩ := List.mem_map.1 hw
  exact hk

/-- The waiting loop keeps every stable property that the schedule keeps, and
what it leaves of the schedule is a suffix of it. -/
theorem waitWhile_keeps (cond : SymmetricQueue → Bool) (leave : Int → Bool)
    (currp timeout : Nat) (P : World → Prop) (hP : Stable P) :
    ∀ (fuel : Nat) (k : World) (ws : List Wake), P k → EnvKeeps P ws →
      P (waitWhile cond leave currp timeout fuel k ws).world ∧
      (waitWhile cond leave currp timeout fuel k ws).rest <:+ ws := by
  intro fuel
  induction fuel with
  | zero => intro k ws hk _; exact ⟨hk, List.nil_suffix⟩
  | succ fuel ih =>
    intro k ws hk he
    unfold waitWhile
    by_cases hc : cond k.sq = true
    · simp only [hc, if_true]
      by_cases ht : timeout = TIME_IMMEDIATE
      · simp only [qwait, ht, if_true]
        by_cases hl : leave Q_TIMEOUT = true
        · simp only [hl, if_true]; exact ⟨hk, List.suffix_refl _⟩
        · have hl1 : leave Q_TIMEOUT = false := by simpa using hl
          simp only [hl1, Bool.false_eq_true, if_false]
          subst ht; exact ih k ws hk he
      · cases ws with
        | nil =>
          simp only [qwait, ht, if_false, chSchGoSleepTimeoutS]
          exact ⟨hP k _ _ hk, List.nil_suffix⟩
        | cons w ws =>
          simp only [qwait, ht, if_false, chSchGoSleepTimeoutS]
          have hk1 := he w (List.mem_cons_self _ _) _ (hP k (queue_insert currp k.sq.q_waiting) (k.sleeps + 1) hk)
          have hk2 := hP _ ((w.env { k with sq := { k.sq with q_waiting := queue_insert currp k.sq.q_waiting }, sleeps := k.sleeps + 1 }).sq.q_waiting.filter (fun t => t != currp)) (w.env { k with sq := { k.sq with q_waiting := queue_insert currp k.sq.q_waiting }, sleeps := k.sleeps + 1 }).sleeps hk1
          by_cases hl : leave w.msg = true
          · simp only [hl, if_true]
            exact ⟨hk2, List.suffix_cons _ _⟩
          · have hl1 : leave w.msg = false := by simpa using hl
            simp only [hl1, Bool.false_eq_true, if_false]
            have := ih _ ws hk2 he.tail
            exact ⟨this.1, this.2.trans (List.suffix_cons _ _)⟩
    · simp only [hc]
      exact ⟨hk, List.suffix_refl _⟩

theorem waitWhile_go_cond (cond : SymmetricQueue → Bool) (leave : Int → Bool)
    (currp timeout : Nat) :
    ∀ (fuel : Nat) (k : World) (ws : List Wake) (k1 : World) (ws1 : List Wake),
      waitWhile cond leave currp timeout fuel k ws = .go k1 ws1 → cond k1.sq = false := by
  intro fuel
  induction fuel with
  | zero => intro k ws k1 ws1 h; simp [waitWhile] at h
  | succ fuel ih =>
    intro k ws k1 ws1 h
    unfold waitWhile at h
    by_cases hc : cond k.sq = true
    · simp only [hc, if_true] at h
      split at h
      · simp at h
      · split at h
        · simp at h
        · exact ih _ _ _ _ h
    · simp only [hc] at h
      simp at hc
      simp only [Bool.false_eq_true, if_false, Waited.go.injEq] at h
      rw [← h.1]; exact hc

/-! ## The transfer functions in terms of `popped` and `pushed` -/

theorem get_eq (currp timeout : Nat) (k : World) (ws : List Wake) :
    chSymQGetTimeout currp timeout k ws =
      match waitWhile chSymQIsEmptyI (fun msg => decide (msg < Q_OK)) currp timeout
          (ws.length + 1) k ws with
      | .asleep k1 => ⟨.asleep, k1, []⟩
      | .ret msg k1 ws1 => ⟨.msg msg, k1, ws1⟩
      | .go k1 ws1 => ⟨.msg ((k1.mem k1.sq.q_rdptr).val : Int), popped k1, ws1⟩ := by
  unfold chSymQGetTimeout
  cases waitWhile chSymQIsEmptyI (fun msg => decide (msg < Q_OK)) currp timeout
      (ws.length + 1) k ws with
  | asleep k1 => rfl
  | ret msg k1 ws1 => rfl
  | go k1 ws1 =>
    rcases k1 with ⟨⟨wt, c, bf, tp, wr, rd⟩, mem, umem, rdy, sl⟩
    cases wt <;> simp [popped, nextPtr, chSchReadyI]

theorem put_eq (currp : Nat) (b : uint8_t) (timeout : Nat) (k : World) (ws : List Wake) :
    chSymQPutTimeout currp b timeout k ws =
      match waitWhile chSymQIsFullI (fun msg => decide (msg < Q_OK)) currp timeout
          (ws.length + 1) k ws with
      | .asleep k1 => ⟨.asleep, k1, []⟩
      | .ret msg k1 ws1 => ⟨.msg msg, k1, ws1⟩
      | .go k1 ws1 => ⟨.msg Q_OK, pushed b k1, ws1⟩ := by
  unfold chSymQPutTimeout
  cases waitWhile chSymQIsFullI (fun msg => decide (msg < Q_OK)) currp timeout
      (ws.length + 1) k ws with
  | asleep k1 => rfl
  | ret msg k1 ws1 => rfl
  | go k1 ws1 =>
    rcases k1 with ⟨⟨wt, c, bf, tp, wr, rd⟩, mem, umem, rdy, sl⟩
    cases wt <;> simp [pushed, nextPtr, chSchReadyI]

theorem readLoop_succ (currp timeout n r bp : Nat) (k : World) (ws : List Wake) :
    readLoop currp timeout (n + 1) r bp k ws =
      match waitWhile chSymQIsEmptyI (fun msg => decide (msg ≠ Q_OK)) currp timeout
          (ws.length + 1) k ws with
      | .asleep k1 => ⟨.asleep, k1, []⟩
      | .ret _ k1 ws1 => ⟨.count r, k1, ws1⟩
      | .go k1 ws1 =>
        readLoop currp timeout n (r + 1) (bp + 1) (delivered bp k1) ws1 := by
  rw [readLoop]
  cases waitWhile chSymQIsEmptyI (fun msg => decide (msg ≠ Q_OK)) currp timeout
      (ws.length + 1) k ws with
  | asleep k1 => rfl
  | ret msg k1 ws1 => rfl
  | go k1 ws1 =>
    rcases k1 with ⟨⟨wt, c, bf, tp, wr, rd⟩, mem, umem, rdy, sl⟩
    cases wt <;> simp [delivered, popped, nextPtr, chSchReadyI]

theorem writeLoop_succ (currp timeout n w bp : Nat) (k : World) (ws : List Wake) :
    writeLoop currp timeout (n + 1) w bp k ws =
      match waitWhile chSymQIsFullI (fun msg => decide (msg ≠ Q_OK)) currp timeout
          (ws.length + 1) k ws with
      | .asleep k1 => ⟨.asleep, k1, []⟩
      | .ret _ k1 ws1 => ⟨.count w, k1, ws1⟩
      | .go k1 ws1 =>
        writeLoop currp timeout n (w + 1) (bp + 1) (pushed (k1.umem bp) k1) ws1 := by
  rw [writeLoop]
  cases waitWhile chSymQIsFullI (fun msg => decide (msg ≠ Q_OK)) currp timeout
      (ws.length + 1) k ws with
  | asleep k1 => rfl
  | ret msg k1 ws1 => rfl
  | go k1 ws1 =>
    rcases k1 with ⟨⟨wt, c, bf, tp, wr, rd⟩, mem, umem, rdy, sl⟩
    cases wt <;> simp [pushed, nextPtr, chSchReadyI]

/-! ## Well-formedness is kept -/

theorem WF_stable (C : Nat) : Stable (WF C) := fun _ _ _ h => h

theorem WF_popped (C : Nat) (k : World) (h : WF C k) (hne : k.sq.q_counter ≠ 0) :
    WF C (popped k) := by
  obtain ⟨h1, h2, h3, h4, h5, h6, h7, h8⟩ := h
  simp only [WF, popped, nextPtr]
  split <;> omega

theorem WF_pushed (C : Nat) (b : uint8_t) (k : World) (h : WF C k)
    (hne : k.sq.q_counter ≠ (C : Int)) : WF C (pushed b k) := by
  obtain ⟨h1, h2, h3, h4, h5, h6, h7, h8⟩ := h
  simp only [WF, pushed, nextPtr]
  split <;> omega

theorem WF_umem (C : Nat) (k : World) (m : Nat → uint8_t) (h : WF C k) :
    WF C { k with umem := m } := h

theorem WF_size (C : Nat) (k : World) (h : WF C k) : chSymQSizeI k.sq = C := by
  simp [chSymQSizeI, h.1]

theorem WF_init (C bp : Nat) (hC : 0 < C) (k : World) : WF C (chSymQInit bp C k) := by
  refine ⟨rfl, Nat.le_refl _, ?_, Nat.le_refl _, ?_, Int.le_refl _, ?_, Or.inl ?_⟩ <;>
    simp [chSymQInit] <;> omega

theorem resetWake_eq : ∀ (l : List Nat) (k : World),
    resetWake l k =
      { k with sq := { k.sq with q_waiting := [] },
               rdy := k.rdy ++ l.map (fun t => (t, Q_RESET)) }
  | [], k => by simp [resetWake]
  | t :: l, k => by
    rw [resetWake, resetWake_eq l]
    simp [chSchReadyI]

theorem reset_eq (k : World) :
    chSymQResetI k =
      { k with
        sq := { k.sq with q_waiting := [], q_counter := 0,
                          q_rdptr := k.sq.q_buffer, q_wrptr := k.sq.q_buffer },
        rdy := k.rdy ++ k.sq.q_waiting.map (fun t => (t, Q_RESET)) } := by
  simp [chSymQResetI, resetWake_eq]

theorem WF_reset (C : Nat) (hC : 0 < C) (k : World) (h : WF C k) : WF C (chSymQResetI k) := by
  rw [reset_eq]
  obtain ⟨h1, h2, h3, h4, h5, h6, h7, h8⟩ := h
  simp only [WF]; omega

theorem get_WF (C currp timeout : Nat) (k : World) (ws : List Wake)
    (h : WF C k) (he : EnvKeeps (WF C) ws) :
    WF C (chSymQGetTimeout currp timeout k ws).k ∧
      (chSymQGetTimeout currp timeout k ws).ws <:+ ws := by
  have hk := waitWhile_keeps chSymQIsEmptyI (fun msg => decide (msg < Q_OK)) currp timeout
    (WF C) (WF_stable C) (ws.length + 1) k ws h he
  have hg := waitWhile_go_cond chSymQIsEmptyI (fun msg => decide (msg < Q_OK)) currp timeout
    (ws.length + 1) k ws
  rw [get_eq]
  cases hw : waitWhile chSymQIsEmptyI (fun msg => decide (msg < Q_OK)) currp timeout
      (ws.length + 1) k ws with
  | asleep k1 => rw [hw] at hk; exact ⟨hk.1, List.nil_suffix⟩
  | ret msg k1 ws1 => rw [hw] at hk; exact hk
  | go k1 ws1 =>
    rw [hw] at hk
    have hc := hg k1 ws1 hw
    refine ⟨WF_popped C k1 hk.1 ?_, hk.2⟩
    simpa [chSymQIsEmptyI] using hc

theorem put_WF (C currp : Nat) (b : uint8_t) (timeout : Nat) (k : World) (ws : List Wake)
    (h : WF C k) (he : EnvKeeps (WF C) ws) :
    WF C (chSymQPutTimeout currp b timeout k ws).k ∧
      (chSymQPutTimeout currp b timeout k ws).ws <:+ ws := by
  have hk := waitWhile_keeps chSymQIsFullI (fun msg => decide (msg < Q_OK)) currp timeout
    (WF C) (WF_stable C) (ws.length + 1) k ws h he
  have hg := waitWhile_go_cond chSymQIsFullI (fun msg => decide (msg < Q_OK)) currp timeout
    (ws.length + 1) k ws
  rw [put_eq]
  cases hw : waitWhile chSymQIsFullI (fun msg => decide (msg < Q_OK)) currp timeout
      (ws.length + 1) k ws with
  | asleep k1 => rw [hw] at hk; exact ⟨hk.1, List.nil_suffix⟩
  | ret msg k1 ws1 => rw [hw] at hk; exact hk
  | go k1 ws1 =>
    rw [hw] at hk
    have hc := hg k1 ws1 hw
    refine ⟨WF_pushed C b k1 hk.1 ?_, hk.2⟩
    simpa [chSymQIsFullI, WF_size C k1 hk.1] using hc

theorem readLoop_WF (C currp timeout : Nat) :
    ∀ (n r bp : Nat) (k : World) (ws : List Wake), WF C k → EnvKeeps (WF C) ws →
      WF C (readLoop currp timeout n r bp k ws).k ∧
        (readLoop currp timeout n r bp k ws).ws <:+ ws := by
  intro n
  induction n with
  | zero => intro r bp k ws h _; exact ⟨h, List.suffix_refl _⟩
  | succ n ih =>
    intro r bp k ws h he
    have hk := waitWhile_keeps chSymQIsEmptyI (fun msg => decide (msg ≠ Q_OK)) currp timeout
      (WF C) (WF_stable C) (ws.length + 1) k ws h he
    have hg := waitWhile_go_cond chSymQIsEmptyI (fun msg => decide (msg ≠ Q_OK)) currp timeout
      (ws.length + 1) k ws
    rw [readLoop_succ]
    cases hw : waitWhile chSymQIsEmptyI (fun msg => decide (msg ≠ Q_OK)) currp timeout
        (ws.length + 1) k ws with
    | asleep k1 => rw [hw] at hk; exact ⟨hk.1, List.nil_suffix⟩
    | ret msg k1 ws1 => rw [hw] at hk; exact hk
    | go k1 ws1 =>
      rw [hw] at hk
      have hc := hg k1 ws1 hw
      have hp : WF C (popped k1) := WF_popped C k1 hk.1 (by simpa [chSymQIsEmptyI] using hc)
      have := ih (r + 1) (bp + 1) (delivered bp k1) ws1 (WF_umem C _ _ hp) (he.suffix hk.2)
      exact ⟨this.1, this.2.trans hk.2⟩

theorem writeLoop_WF (C currp timeout : Nat) :
    ∀ (n w bp : Nat) (k : World) (ws : List Wake), WF C k → EnvKeeps (WF C) ws →
      WF C (writeLoop currp timeout n w bp k ws).k ∧
        (writeLoop currp timeout n w bp k ws).ws <:+ ws := by
  intro n
  induction n with
  | zero => intro w bp k ws h _; exact ⟨h, List.suffix_refl _⟩
  | succ n ih =>
    intro w bp k ws h he
    have hk := waitWhile_keeps chSymQIsFullI (fun msg => decide (msg ≠ Q_OK)) currp timeout
      (WF C) (WF_stable C) (ws.length + 1) k ws h he
    have hg := waitWhile_go_cond chSymQIsFullI (fun msg => decide (msg ≠ Q_OK)) currp timeout
      (ws.length + 1) k ws
    rw [writeLoop_succ]
    cases hw : waitWhile chSymQIsFullI (fun msg => decide (msg ≠ Q_OK)) currp timeout
        (ws.length + 1) k ws with
    | asleep k1 => rw [hw] at hk; exact ⟨hk.1, List.nil_suffix⟩
    | ret msg k1 ws1 => rw [hw] at hk; exact hk
    | go k1 ws1 =>
      rw [hw] at hk
      have hc := hg k1 ws1 hw
      have hp : WF C (pushed (k1.umem bp) k1) :=
        WF_pushed C _ k1 hk.1 (by simpa [chSymQIsFullI, WF_size C k1 hk.1] using hc)
      have := ih (w + 1) (bp + 1) _ ws1 hp (he.suffix hk.2)
      exact ⟨this.1, this.2.trans hk.2⟩

theorem exec_WF (C : Nat) (hC : 0 < C) (c : Call) (k : World) (ws : List Wake)
    (h : WF C k) (he : EnvKeeps (WF C) ws) :
    WF C (c.exec k ws).k ∧ (c.exec k ws).ws <:+ ws := by
  cases c with
  | put currp b timeout => exact put_WF C currp b timeout k ws h he
  | get currp timeout => exact get_WF C currp timeout k ws h he
  | read currp bp n timeout =>
    simp only [Call.exec, chSymQReadTimeout]
    split
    · exact ⟨h, List.suffix_refl _⟩
    · exact readLoop_WF C currp timeout n 0 bp k ws h he
  | write currp bp n timeout =>
    simp only [Call.exec, chSymQWriteTimeout]
    split
    · exact ⟨h, List.suffix_refl _⟩
    · exact writeLoop_WF C currp timeout n 0 bp k ws h he
  | reset => exact ⟨WF_reset C hC k h, List.suffix_refl _⟩

theorem runCalls_WF (C : Nat) (hC : 0 < C) :
    ∀ (calls : List Call) (k : World) (ws : List Wake), WF C k → EnvKeeps (WF C) ws →
      WF C (runCalls calls k ws).2.1
  | [], _, _, h, _ => h
  | c :: cs, k, ws, h, he => by
    have h1 := exec_WF C hC c k ws h he
    exact runCalls_WF C hC cs _ _ h1.1 (he.suffix h1.2)

theorem reachable_WF (C : Nat) (hC : 0 < C) (k : World) (h : Reachable C k) : WF C k := by
  obtain ⟨k0, bp, calls, codes, rfl⟩ := h
  exact runCalls_WF C hC calls _ _ (WF_init C bp hC k0) (envKeeps_codes _ codes)

/-- C1: on a queue initialised by `chSymQInit` with capacity `C > 0`, after
every call of every finite sequence of put / get / reset calls (read and write
calls as well), whatever the bytes, the timeouts and the wake codes the
scheduler delivers, the counter of used bytes is between 0 and `C`. -/
theorem counter_bounds (C : Nat) (hC : 0 < C) (bp : Nat) (k0 : World) (calls : List Call)
    (codes : List Int) (m : Nat) :
    0 ≤ (runCalls (calls.take m) (chSymQInit bp C k0) (codes.map wakeCode)).2.1.sq.q_counter ∧
      (runCalls (calls.take m) (chSymQInit bp C k0) (codes.map wakeCode)).2.1.sq.q_counter
        ≤ (C : Int) := by
  have h := runCalls_WF C hC (calls.take m) _ _ (WF_init C bp hC k0)
    (envKeeps_codes _ codes)
  exact ⟨h.2.2.2.2.2.1, h.2.2.2.2.2.2.1⟩

/-! ## The buffered bytes -/

theorem bufferedFrom_store (buffer top C a : Nat) (b : uint8_t) (mem : Nat → uint8_t)
    (ht : top = buffer + C) :
    ∀ (n p : Nat), buffer ≤ p → p < top → (p + n ≤ a ∨ (a < p ∧ p + n ≤ a + C)) →
      bufferedFrom buffer top (store mem a b) n p = bufferedFrom buffer top mem n p := by
  intro n
  induction n with
  | zero => intro p _ _ _; rfl
  | succ n ih =>
    intro p h1 h2 h3
    have hpa : p ≠ a := by omega
    simp only [bufferedFrom, store, hpa, if_false]
    congr 1
    apply ih
    · simp only [nextPtr]; split <;> omega
    · simp only [nextPtr]; split <;> omega
    · simp only [nextPtr]; split <;> omega

theorem bufferedFrom_succ (buffer top C : Nat) (mem : Nat → uint8_t) (ht : top = buffer + C) :
    ∀ (n p q : Nat), buffer ≤ p → p < top → n < C →
      ((q = p + n ∧ q < top) ∨ (q + C = p + n ∧ buffer ≤ q)) →
      bufferedFrom buffer top mem (n + 1) p = bufferedFrom buffer top mem n p ++ [mem q] := by
  intro n
  induction n with
  | zero =>
    intro p q h1 h2 _ h4
    have : q = p := by omega
    simp [bufferedFrom, this]
  | succ n ih =>
    intro p q h1 h2 h3 h4
    rw [bufferedFrom, ih (nextPtr buffer top p) q, bufferedFrom, List.cons_append]
    · simp only [nextPtr]; split <;> omega
    · simp only [nextPtr]; split <;> omega
    · omega
    · simp only [nextPtr]; split <;> omega

theorem buffered_popped (C : Nat) (k : World) (h : WF C k) (hne : k.sq.q_counter ≠ 0) :
    buffered k = k.mem k.sq.q_rdptr :: buffered (popped k) := by
  obtain ⟨h1, h2, h3, h4, h5, h6, h7, h8⟩ := h
  have hn : k.sq.q_counter.toNat = (k.sq.q_counter - 1).toNat + 1 := by omega
  simp only [buffered, popped, hn, bufferedFrom]

theorem buffered_pushed (C : Nat) (b : uint8_t) (k : World) (h : WF C k)
    (hne : k.sq.q_counter ≠ (C : Int)) : buffered (pushed b k) = buffered k ++ [b] := by
  obtain ⟨h1, h2, h3, h4, h5, h6, h7, h8⟩ := h
  have hn : (k.sq.q_counter + 1).toNat = k.sq.q_counter.toNat + 1 := by omega
  simp only [buffered, pushed, hn]
  rw [bufferedFrom_succ _ _ C _ h1 _ _ k.sq.q_wrptr h2 h3 (by omega) (by omega),
    bufferedFrom_store _ _ C _ _ _ h1 _ _ h2 h3 (by omega)]
  simp [store]

theorem buffered_umem (k : World) (m : Nat → uint8_t) :
    buffered { k with umem := m } = buffered k := rfl

theorem buffered_length (k : World) : (buffered k).length = k.sq.q_counter.toNat := by
  have : ∀ (n p : Nat), (bufferedFrom k.sq.q_buffer k.sq.q_top k.mem n p).length = n := by
    intro n
    induction n with
    | zero => intro p; rfl
    | succ n ih => intro p; simp [bufferedFrom, ih]
  exact this _ _

/-! ## Calls that do not wait -/

theorem get_nowait (currp timeout : Nat) (k : World) (ws : List Wake)
    (hne : k.sq.q_counter ≠ 0) :
    chSymQGetTimeout currp timeout k ws =
      ⟨.msg ((k.mem k.sq.q_rdptr).val : Int), popped k, ws⟩ := by
  rw [get_eq, waitWhile_false]
  simp [chSymQIsEmptyI, hne]

theorem put_nowait (currp : Nat) (b : uint8_t) (timeout : Nat) (k : World) (ws : List Wake)
    (hne : k.sq.q_counter ≠ chSymQSizeI k.sq) :
    chSymQPutTimeout currp b timeout k ws = ⟨.msg Q_OK, pushed b k, ws⟩ := by
  rw [put_eq, waitWhile_false]
  simp [chSymQIsFullI, hne]

theorem runCalls_append : ∀ (a b : List Call) (k : World) (ws : List Wake),
    runCalls (a ++ b) k ws =
      ((runCalls a k ws).1 ++ (runCalls b (runCalls a k ws).2.1 (runCalls a k ws).2.2).1,
        (runCalls b (runCalls a k ws).2.1 (runCalls a k ws).2.2).2)
  | [], b, k, ws => by simp [runCalls]
  | c :: a, b, k, ws => by
    have ih := runCalls_append a b (c.exec k ws).k (c.exec k ws).ws
    show runCalls (c :: (a ++ b)) k ws = _
    simp only [runCalls]
    rw [ih]
    simp

/-- Puts that fit into the free space all succeed at once and append their
bytes to the buffered ones. -/
theorem puts_run (C : Nat) :
    ∀ (ps : List (Nat × uint8_t × Nat)) (k : World) (ws : List Wake), WF C k →
      k.sq.q_counter + ps.length ≤ (C : Int) →
      (runCalls (ps.map (fun p => Call.put p.1 p.2.1 p.2.2)) k ws).1
          = ps.map (fun _ => Reply.msg Q_OK) ∧
        (runCalls (ps.map (fun p => Call.put p.1 p.2.1 p.2.2)) k ws).2.2 = ws ∧
        WF C (runCalls (ps.map (fun p => Call.put p.1 p.2.1 p.2.2)) k ws).2.1 ∧
        buffered (runCalls (ps.map (fun p => Call.put p.1 p.2.1 p.2.2)) k ws).2.1
          = buffered k ++ ps.map (fun p => p.2.1) ∧
        (runCalls (ps.map (fun p => Call.put p.1 p.2.1 p.2.2)) k ws).2.1.sq.q_counter
          = k.sq.q_counter + ps.length
  | [], k, ws, h, _ => by simp [runCalls, h]
  | p :: ps, k, ws, h, hl => by
    have hne : k.sq.q_counter ≠ (C : Int) := by
      simp only [List.length_cons, Nat.cast_add, Nat.cast_one] at hl; omega
    have hne1 : k.sq.q_counter ≠ chSymQSizeI k.sq := by rw [WF_size C k h]; exact hne
    have hw := WF_pushed C p.2.1 k h hne
    have hb := buffered_pushed C p.2.1 k h hne
    have ih := puts_run C ps (pushed p.2.1 k) ws hw (by
      simp only [List.length_cons, Nat.cast_add, Nat.cast_one] at hl
      simp only [pushed]; omega)
    simp only [List.map_cons, runCalls, Call.exec, put_nowait _ _ _ _ _ hne1]
    refine ⟨by rw [ih.1], ih.2.1, ih.2.2.1, ?_, ?_⟩
    · rw [ih.2.2.2.1, hb]; simp
    · rw [ih.2.2.2.2]; simp only [pushed, List.length_cons, Nat.cast_add, Nat.cast_one]; omega

/-- Gets on a queue holding enough bytes return the buffered bytes, oldest
first, at once. -/
theorem gets_run (C : Nat) :
    ∀ (gs : List (Nat × Nat)) (k : World) (ws : List Wake), WF C k →
      (gs.length : Int) ≤ k.sq.q_counter →
      (runCalls (gs.map (fun g => Call.get g.1 g.2)) k ws).1
          = ((buffered k).take gs.length).map (fun b => Reply.msg (b.val : Int)) ∧
        (runCalls (gs.map (fun g => Call.get g.1 g.2)) k ws).2.2 = ws ∧
        WF C (runCalls (gs.map (fun g => Call.get g.1 g.2)) k ws).2.1 ∧
        buffered (runCalls (gs.map (fun g => Call.get g.1 g.2)) k ws).2.1
          = (buffered k).drop gs.length ∧
        (runCalls (gs.map (fun g => Call.get g.1 g.2)) k ws).2.1.sq.q_counter
          = k.sq.q_counter - gs.length
  | [], k, ws, h, _ => by simp [runCalls, h]
  | g :: gs, k, ws, h, hl => by
    have hne : k.sq.q_counter ≠ 0 := by
      simp only [List.length_cons, Nat.cast_add, Nat.cast_one] at hl; omega
    have hw := WF_popped C k h hne
    have hb := buffered_popped C k h hne
    have ih := gets_run C gs (popped k) ws hw (by
      simp only [List.length_cons, Nat.cast_add, Nat.cast_one] at hl
      simp only [popped]; omega)
    simp only [List.map_cons, runCalls, Call.exec, get_nowait _ _ _ _ hne]
    refine ⟨?_, ih.2.1, ih.2.2.1, ?_, ?_⟩
    · rw [ih.1, hb]; simp
    · rw [ih.2.2.2.1, hb]; simp
    · rw [ih.2.2.2.2]; simp only [popped, List.length_cons, Nat.cast_add, Nat.cast_one]; omega

/-- C2: FIFO round trip.  On an empty queue state of capacity `C > 0` reached
from `chSymQInit` (read and write pointer anywhere in the buffer), puts of at
most `C` bytes, by any threads with any timeouts, all return `Q_OK`, and as
many gets then return exactly these bytes in the same order; no call sleeps
(the schedule is not consumed) and the queue is empty again. -/
theorem fifo_round_trip (C : Nat) (hC : 0 < C) (k : World) (hr : Reachable C k)
    (hempty : k.sq.q_counter = 0) (ps : List (Nat × uint8_t × Nat)) (gs : List (Nat × Nat))
    (hlen : ps.length ≤ C) (hgs : gs.length = ps.length) (ws : List Wake) :
    (runCalls (ps.map (fun p => Call.put p.1 p.2.1 p.2.2) ++ gs.map (fun g => Call.get g.1 g.2))
        k ws).1
      = ps.map (fun _ => Reply.msg Q_OK) ++ ps.map (fun p => Reply.msg (p.2.1.val : Int)) ∧
    (runCalls (ps.map (fun p => Call.put p.1 p.2.1 p.2.2) ++ gs.map (fun g => Call.get g.1 g.2))
        k ws).2.2 = ws ∧
    (runCalls (ps.map (fun p => Call.put p.1 p.2.1 p.2.2) ++ gs.map (fun g => Call.get g.1 g.2))
        k ws).2.1.sq.q_counter = 0 ∧
    buffered (runCalls (ps.map (fun p => Call.put p.1 p.2.1 p.2.2)
        ++ gs.map (fun g => Call.get g.1 g.2)) k ws).2.1 = [] := by
  have hwf := reachable_WF C hC k hr
  have hp := puts_run C ps k ws hwf (by rw [hempty]; simpa using hlen)
  have hb0 : buffered k = [] := by simp [buffered, hempty, bufferedFrom]
  obtain ⟨hp1, hp2, hp3, hp4, hp5⟩ := hp
  have hg := gets_run C gs (runCalls (ps.map (fun p => Call.put p.1 p.2.1 p.2.2)) k ws).2.1 ws
    hp3 (by rw [hp5, hempty, hgs]; simp)
  obtain ⟨hg1, hg2, hg3, hg4, hg5⟩ := hg
  rw [hp4, hb0, hgs, List.nil_append] at hg1 hg4
  rw [List.take_of_length_le (by simp)] at hg1
  rw [List.drop_of_length_le (by simp)] at hg4
  rw [runCalls_append, hp2]
  refine ⟨?_, hg2, ?_, ?_⟩
  · show _ ++ _ = _
    rw [hp1, hg1]
    simp
  · rw [hg5, hp5, hempty, hgs]; simp
  · exact hg4

/-- C3: a put with `TIME_IMMEDIATE` on a full queue returns `Q_TIMEOUT` and
leaves the world as it was: counter, pointers, buffer memory, threads queue
(the caller is not enqueued), ready list and the number of entries into the
sleep primitive are the same, and no wake-up of the schedule is consumed. -/
theorem put_full_immediate (currp : Nat) (b : uint8_t) (k : World) (ws : List Wake)
    (hfull : k.sq.q_counter = chSymQSizeI k.sq) :
    chSymQPutTimeout currp b TIME_IMMEDIATE k ws = ⟨.msg Q_TIMEOUT, k, ws⟩ := by
  have hc : chSymQIsFullI k.sq = true := by simp [chSymQIsFullI, hfull]
  simp [chSymQPutTimeout, waitWhile_immediate _ _ _ _ _ _ hc, Q_TIMEOUT, Q_OK]

/-- C4: a get with `TIME_IMMEDIATE` on an empty queue returns `Q_TIMEOUT` and
leaves the world as it was: counter, pointers, buffer memory, threads queue
(the caller is not enqueued), ready list and the number of entries into the
sleep primitive are the same, and no wake-up of the schedule is consumed. -/
theorem get_empty_immediate (currp : Nat) (k : World) (ws : List Wake)
    (hempty : k.sq.q_counter = 0) :
    chSymQGetTimeout currp TIME_IMMEDIATE k ws = ⟨.msg Q_TIMEOUT, k, ws⟩ := by
  have hc : chSymQIsEmptyI k.sq = true := by simp [chSymQIsEmptyI, hempty]
  simp [chSymQGetTimeout, waitWhile_immediate _ _ _ _ _ _ hc, Q_TIMEOUT, Q_OK]

/-- C5: `chSymQResetI` readies exactly the waiting threads, longest waiting
first, each with `Q_RESET`, empties the threads queue, clears the counter and
puts both pointers at the buffer start (buffer bounds and memories untouched);
a get with `TIME_IMMEDIATE` right after it returns `Q_TIMEOUT`. -/
theorem reset_releases_all (currp : Nat) (k : World) (ws : List Wake) :
    (chSymQResetI k).rdy = k.rdy ++ k.sq.q_waiting.map (fun t => (t, Q_RESET)) ∧
    (chSymQResetI k).sq.q_waiting = [] ∧
    (chSymQResetI k).sq.q_counter = 0 ∧
    (chSymQResetI k).sq.q_rdptr = k.sq.q_buffer ∧
    (chSymQResetI k).sq.q_wrptr = k.sq.q_buffer ∧
    (chSymQResetI k).sq.q_buffer = k.sq.q_buffer ∧
    (chSymQResetI k).sq.q_top = k.sq.q_top ∧
    (chSymQResetI k).mem = k.mem ∧ (chSymQResetI k).umem = k.umem ∧
    (chSymQResetI k).sleeps = k.sleeps ∧
    chSymQGetTimeout currp TIME_IMMEDIATE (chSymQResetI k) ws
      = ⟨.msg Q_TIMEOUT, chSymQResetI k, ws⟩ := by
  have hc : (chSymQResetI k).sq.q_counter = 0 := by rw [reset_eq]
  refine ⟨?_, ?_, hc, ?_, ?_, ?_, ?_, ?_, ?_, ?_, ?_⟩
  case refine_10 =>
    have hc1 : chSymQIsEmptyI (chSymQResetI k).sq = true := by simp [chSymQIsEmptyI, hc]
    simp [chSymQGetTimeout, waitWhile_immediate _ _ _ _ _ _ hc1, Q_TIMEOUT, Q_OK]
  all_goals rw [reset_eq]

theorem nextPtr_mod (buffer C p : Nat) (h1 : buffer ≤ p) (h2 : p < buffer + C) :
    nextPtr buffer (buffer + C) p = buffer + (p - buffer + 1) % C := by
  unfold nextPtr
  split
  · have : p - buffer + 1 = C := by omega
    rw [this, Nat.mod_self]; rfl
  · rw [Nat.mod_eq_of_lt (by omega)]; omega

/-- C6: on a non-empty well-formed queue of capacity `C` (hence `C > 0`), whatever the timeout and the
schedule, `chSymQGetTimeout` returns at once the byte at the read pointer,
which is the oldest buffered byte, and the other buffered bytes stay as they
were; the counter goes down by 1, the read offset becomes
`(old offset + 1) mod C`, write pointer, buffer bounds and memories are
unchanged; the head of the threads queue, if there is one, is removed and
readied with `Q_OK`, the other waiters keep their order, and nothing is
readied when the threads queue is empty; the caller does not sleep. -/
theorem get_nonempty (C currp timeout : Nat) (k : World) (ws : List Wake)
    (h : WF C k) (hne : k.sq.q_counter ≠ 0) :
    (chSymQGetTimeout currp timeout k ws).reply = .msg ((k.mem k.sq.q_rdptr).val : Int) ∧
    buffered k = k.mem k.sq.q_rdptr :: buffered (chSymQGetTimeout currp timeout k ws).k ∧
    (chSymQGetTimeout currp timeout k ws).k.sq.q_counter = k.sq.q_counter - 1 ∧
    (chSymQGetTimeout currp timeout k ws).k.sq.q_rdptr
      = k.sq.q_buffer + (k.sq.q_rdptr - k.sq.q_buffer + 1) % C ∧
    (chSymQGetTimeout currp timeout k ws).k.sq.q_wrptr = k.sq.q_wrptr ∧
    (chSymQGetTimeout currp timeout k ws).k.sq.q_buffer = k.sq.q_buffer ∧
    (chSymQGetTimeout currp timeout k ws).k.sq.q_top = k.sq.q_top ∧
    (chSymQGetTimeout currp timeout k ws).k.mem = k.mem ∧
    (chSymQGetTimeout currp timeout k ws).k.umem = k.umem ∧
    (chSymQGetTimeout currp timeout k ws).k.sq.q_waiting = k.sq.q_waiting.drop 1 ∧
    (chSymQGetTimeout currp timeout k ws).k.rdy
      = k.rdy ++ (k.sq.q_waiting.take 1).map (fun t => (t, Q_OK)) ∧
    (chSymQGetTimeout currp timeout k ws).k.sleeps = k.sleeps ∧
    (chSymQGetTimeout currp timeout k ws).ws = ws := by
  rw [get_nowait currp timeout k ws hne]
  refine ⟨rfl, buffered_popped C k h hne, rfl, ?_, rfl, rfl, rfl, rfl, rfl, rfl, rfl, rfl, rfl⟩
  show nextPtr k.sq.q_buffer k.sq.q_top k.sq.q_rdptr = _
  rw [h.1]
  exact nextPtr_mod _ _ _ h.2.1 (by have := h.2.2.1; have := h.1; omega)

/-- C7: on a well-formed queue of capacity `C` (hence `C > 0`) that is not full, whatever the timeout
and the schedule, `chSymQPutTimeout` returns `Q_OK` at once, stores `b` at the
old write position and changes no other byte, so that the buffered bytes are
the previous ones followed by `b`; the counter goes up by 1, the write offset
becomes `(old offset + 1) mod C`, read pointer and buffer bounds are unchanged;
the head of the threads queue, if there is one, is removed and readied with
`Q_OK`, the other waiters keep their order, and nothing is readied when the
threads queue is empty; the caller does not sleep. -/
theorem put_nonfull (C currp : Nat) (b : uint8_t) (timeout : Nat)
    (k : World) (ws : List Wake) (h : WF C k) (hne : k.sq.q_counter ≠ (C : Int)) :
    (chSymQPutTimeout currp b timeout k ws).reply = .msg Q_OK ∧
    (chSymQPutTimeout currp b timeout k ws).k.mem k.sq.q_wrptr = b ∧
    (∀ a, a ≠ k.sq.q_wrptr → (chSymQPutTimeout currp b timeout k ws).k.mem a = k.mem a) ∧
    buffered (chSymQPutTimeout currp b timeout k ws).k = buffered k ++ [b] ∧
    (chSymQPutTimeout currp b timeout k ws).k.sq.q_counter = k.sq.q_counter + 1 ∧
    (chSymQPutTimeout currp b timeout k ws).k.sq.q_wrptr
      = k.sq.q_buffer + (k.sq.q_wrptr - k.sq.q_buffer + 1) % C ∧
    (chSymQPutTimeout currp b timeout k ws).k.sq.q_rdptr = k.sq.q_rdptr ∧
    (chSymQPutTimeout currp b timeout k ws).k.sq.q_buffer = k.sq.q_buffer ∧
    (chSymQPutTimeout currp b timeout k ws).k.sq.q_top = k.sq.q_top ∧
    (chSymQPutTimeout currp b timeout k ws).k.umem = k.umem ∧
    (chSymQPutTimeout currp b timeout k ws).k.sq.q_waiting = k.sq.q_waiting.drop 1 ∧
    (chSymQPutTimeout currp b timeout k ws).k.rdy
      = k.rdy ++ (k.sq.q_waiting.take 1).map (fun t => (t, Q_OK)) ∧
    (chSymQPutTimeout currp b timeout k ws).k.sleeps = k.sleeps ∧
    (chSymQPutTimeout currp b timeout k ws).ws = ws := by
  have hne1 : k.sq.q_counter ≠ chSymQSizeI k.sq := by rw [WF_size C k h]; exact hne
  rw [put_nowait currp b timeout k ws hne1]
  refine ⟨rfl, ?_, ?_, buffered_pushed C b k h hne, rfl, ?_, rfl, rfl, rfl, rfl, rfl, rfl,
    rfl, rfl⟩
  · simp [pushed, store]
  · intro a ha; simp [pushed, store, ha]
  · show nextPtr k.sq.q_buffer k.sq.q_top k.sq.q_wrptr = _
    rw [h.1]
    exact nextPtr_mod _ _ _ h.2.2.2.1 (by have := h.2.2.2.2.1; have := h.1; omega)

/-! ## Waits that end with a timeout or a reset -/

theorem sameData_refl (k : World) : SameData k k := ⟨rfl, rfl, rfl, rfl, rfl, rfl, rfl⟩

theorem sameData_trans {a b c : World} (h1 : SameData a b) (h2 : SameData b c) :
    SameData a c := by
  obtain ⟨a1, a2, a3, a4, a5, a6, a7⟩ := h1
  obtain ⟨b1, b2, b3, b4, b5, b6, b7⟩ := h2
  exact ⟨b1.trans a1, b2.trans a2, b3.trans a3, b4.trans a4, b5.trans a5, b6.trans a6,
    b7.trans a7⟩

theorem sameData_WF {C : Nat} {a b : World} (h : SameData a b) (hw : WF C a) : WF C b := by
  obtain ⟨a1, a2, a3, a4, a5, _, _⟩ := h
  unfold WF at hw ⊢
  rw [a1, a2, a3, a4, a5]; exact hw

theorem sameData_buffered {a b : World} (h : SameData a b) : buffered b = buffered a := by
  obtain ⟨a1, a2, a3, a4, a5, a6, _⟩ := h
  unfold buffered
  rw [a1, a2, a3, a5, a6]

theorem qwait_cons (currp timeout : Nat) (k : World) (w : Wake) (ws : List Wake)
    (ht : timeout ≠ TIME_IMMEDIATE) :
    qwait currp timeout k (w :: ws) = (some w.msg, resumed currp w k, ws) := by
  have h1 : TIME_IMMEDIATE + 1 ≠ TIME_IMMEDIATE := by decide
  simp only [qwait, ht, h1, if_false, resumed, chSchGoSleepTimeoutS]

theorem resumed_sameData (currp : Nat) (w : Wake) (k : World) (hq : Quiet w.env) :
    SameData k (resumed currp w k) := by
  have := hq { k with sq := { k.sq with q_waiting := queue_insert currp k.sq.q_waiting },
                      sleeps := k.sleeps + 1 }
  simpa [resumed, qwait, chSchGoSleepTimeoutS, TIME_IMMEDIATE, SameData] using this

/-- With a schedule that ends quietly, the waiting loop returns with the
message of the ending wake-up and the queue data as they were. -/
theorem waitWhile_endsQuietly (cond : SymmetricQueue → Bool) (leave : Int → Bool)
    (currp timeout : Nat) (ht : timeout ≠ TIME_IMMEDIATE)
    (hcond : ∀ k k1 : World, SameData k k1 → cond k1.sq = cond k.sq)
    (hok : leave Q_OK = false) (w : Wake) (post : List Wake) (hw : leave w.msg = true)
    (hq : Quiet w.env) :
    ∀ (pre : List Wake) (fuel : Nat) (k : World), pre.length < fuel → cond k.sq = true →
      (∀ v ∈ pre, v.msg = Q_OK ∧ Quiet v.env) →
      ∃ k1, waitWhile cond leave currp timeout fuel k (pre ++ w :: post) = .ret w.msg k1 post ∧
        SameData k k1 := by
  intro pre
  induction pre with
  | nil =>
    intro fuel k hf hc _
    obtain ⟨fuel, rfl⟩ : ∃ f, fuel = f + 1 := ⟨fuel - 1, by simp at hf; omega⟩
    refine ⟨resumed currp w k, ?_, resumed_sameData currp w k hq⟩
    simp only [waitWhile, hc, if_true, List.nil_append, qwait_cons currp timeout k w post ht, hw]
  | cons v pre ih =>
    intro fuel k hf hc hpre
    obtain ⟨fuel, rfl⟩ : ∃ f, fuel = f + 1 := ⟨fuel - 1, by simp at hf; omega⟩
    have hv := hpre v (List.mem_cons_self _ _)
    have hl : leave v.msg = false := by rw [hv.1]; exact hok
    have hsd := resumed_sameData currp v k hv.2
    obtain ⟨k1, h1, h2⟩ := ih fuel (resumed currp v k) (by simp at hf; omega)
      ((hcond _ _ hsd).trans hc) (fun u hu => hpre u (List.mem_cons_of_mem _ hu))
    refine ⟨k1, ?_, sameData_trans hsd h2⟩
    simp only [waitWhile, hc, if_true, List.cons_append,
      qwait_cons currp timeout k v (pre ++ w :: post) ht, hl, Bool.false_eq_true, if_false]
    exact h1

theorem cond_empty_sameData (k k1 : World) (h : SameData k k1) :
    chSymQIsEmptyI k1.sq = chSymQIsEmptyI k.sq := by
  simp [chSymQIsEmptyI, h.1]

theorem cond_full_sameData (k k1 : World) (h : SameData k k1) :
    chSymQIsFullI k1.sq = chSymQIsFullI k.sq := by
  simp [chSymQIsFullI, chSymQSizeI, h.1, h.2.1, h.2.2.1]

/-- When the condition holds and nothing arrives before the wait ends (immediate
timeout, or a schedule that ends quietly), the loop of read and write returns
with the queue data as they were. -/
theorem waitWhile_gives_up (cond : SymmetricQueue → Bool) (currp timeout : Nat)
    (hcond : ∀ k k1 : World, SameData k k1 → cond k1.sq = cond k.sq)
    (k : World) (ws : List Wake) (hc : cond k.sq = true)
    (hs : timeout = TIME_IMMEDIATE ∨ EndsQuietly ws) :
    ∃ msg k1 ws1, waitWhile cond (fun msg => decide (msg ≠ Q_OK)) currp timeout
        (ws.length + 1) k ws = .ret msg k1 ws1 ∧ SameData k k1 := by
  by_cases ht : timeout = TIME_IMMEDIATE
  · subst ht
    exact ⟨Q_TIMEOUT, k, ws, waitWhile_immediate _ _ _ _ _ _ hc (by decide), sameData_refl k⟩
  · rcases hs with hs | ⟨pre, w, post, rfl, hpre, hw, hq⟩
    · exact absurd hs ht
    · obtain ⟨k1, h1, h2⟩ := waitWhile_endsQuietly cond (fun msg => decide (msg ≠ Q_OK))
        currp timeout ht hcond (by decide) w post
        (by rcases hw with hw | hw <;> rw [hw] <;> decide) hq pre
        ((pre ++ w :: post).length + 1) k (by simp; omega) hc hpre
      exact ⟨w.msg, k1, post, h1, h2⟩

/-- The waiting loop on a schedule of quiet wake-ups with `Q_OK` followed by a
wake-up `w` that makes it leave: it returns the message of `w` in the world in
which the caller resumes on `w`, having gone to sleep with the queue data as
they were. -/
theorem waitWhile_ends (cond : SymmetricQueue → Bool) (leave : Int → Bool)
    (currp timeout : Nat) (ht : timeout ≠ TIME_IMMEDIATE)
    (hcond : ∀ k k1 : World, SameData k k1 → cond k1.sq = cond k.sq)
    (hok : leave Q_OK = false) (w : Wake) (post : List Wake) (hw : leave w.msg = true) :
    ∀ (pre : List Wake) (fuel : Nat) (k : World), pre.length < fuel → cond k.sq = true →
      (∀ v ∈ pre, v.msg = Q_OK ∧ Quiet v.env) →
      ∃ k0, SameData k k0 ∧
        waitWhile cond leave currp timeout fuel k (pre ++ w :: post)
          = .ret w.msg (resumed currp w k0) post := by
  intro pre
  induction pre with
  | nil =>
    intro fuel k hf hc _
    obtain ⟨fuel, rfl⟩ : ∃ f, fuel = f + 1 := ⟨fuel - 1, by simp at hf; omega⟩
    refine ⟨k, sameData_refl k, ?_⟩
    simp only [waitWhile, hc, if_true, List.nil_append, qwait_cons currp timeout k w post ht, hw]
  | cons v pre ih =>
    intro fuel k hf hc hpre
    obtain ⟨fuel, rfl⟩ : ∃ f, fuel = f + 1 := ⟨fuel - 1, by simp at hf; omega⟩
    have hv := hpre v (List.mem_cons_self _ _)
    have hl : leave v.msg = false := by rw [hv.1]; exact hok
    have hsd := resumed_sameData currp v k hv.2
    obtain ⟨k0, h1, h2⟩ := ih fuel (resumed currp v k) (by simp at hf; omega)
      ((hcond _ _ hsd).trans hc) (fun u hu => hpre u (List.mem_cons_of_mem _ hu))
    refine ⟨k0, sameData_trans hsd h1, ?_⟩
    simp only [waitWhile, hc, if_true, List.cons_append,
      qwait_cons currp timeout k v (pre ++ w :: post) ht, hl, Bool.false_eq_true, if_false]
    exact h2

theorem resumed_resetData (currp : Nat) (w : Wake) (k : World) (hq : Resets w.env) :
    ResetData k (resumed currp w k) := by
  have := hq { k with sq := { k.sq with q_waiting := queue_insert currp k.sq.q_waiting },
                      sleeps := k.sleeps + 1 }
  simpa [resumed, qwait, chSymQResetI, chSchGoSleepTimeoutS, TIME_IMMEDIATE, ResetData]
    using this

theorem resetData_of_sameData {k k0 k1 : World} (h : SameData k k0) (hr : ResetData k0 k1) :
    ResetData k k1 := by
  obtain ⟨_, a2, a3, _, _, a6, a7⟩ := h
  obtain ⟨b1, b2, b3, b4, b5, b6, b7⟩ := hr
  exact ⟨b1, b2.trans a2, b3.trans a3, b4.trans a2, b5.trans a2, b6.trans a6, b7.trans a7⟩

theorem resetData_WF {C : Nat} {k k1 : World} (h : ResetData k k1) (hw : WF C k) :
    WF C k1 := by
  obtain ⟨b1, b2, b3, b4, b5, _, _⟩ := h
  obtain ⟨h1, h2, h3, h4, h5, h6, h7, h8⟩ := hw
  unfold WF
  rw [b1, b2, b3, b4, b5]
  omega

theorem buffered_empty (k : World) (h : k.sq.q_counter = 0) : buffered k = [] := by
  simp [buffered, h, bufferedFrom]

theorem chSymQResetI_resets : Resets chSymQResetI := by
  intro k
  rw [reset_eq]
  exact ⟨rfl, rfl, rfl, rfl, rfl, rfl, rfl⟩

/-- When the condition holds and the wait ends with a reset of the queue, the
loop of read and write returns with the queue data as the reset leaves them. -/
theorem waitWhile_reset (cond : SymmetricQueue → Bool) (currp timeout : Nat)
    (hcond : ∀ k k1 : World, SameData k k1 → cond k1.sq = cond k.sq)
    (k : World) (ws : List Wake) (hc : cond k.sq = true) (ht : timeout ≠ TIME_IMMEDIATE)
    (hs : EndsReset ws) :
    ∃ msg k1 ws1, waitWhile cond (fun msg => decide (msg ≠ Q_OK)) currp timeout
        (ws.length + 1) k ws = .ret msg k1 ws1 ∧ ResetData k k1 := by
  obtain ⟨pre, w, post, rfl, hpre, hw, hq⟩ := hs
  obtain ⟨k0, h1, h2⟩ := waitWhile_ends cond (fun msg => decide (msg ≠ Q_OK))
    currp timeout ht hcond (by decide) w post
    (by rcases hw with hw | hw <;> rw [hw] <;> decide) pre
    ((pre ++ w :: post).length + 1) k (by simp; omega) hc hpre
  exact ⟨w.msg, _, post, h2, resetData_of_sameData h1 (resumed_resetData currp w k0 hq)⟩

/-- When the condition holds and no byte arrives before the wait ends
(immediate timeout, quiet end, or reset), the loop of read and write returns
with the callers' arrays as they were and the queue data either as they were
or as a reset leaves them. -/
theorem waitWhile_unfed (cond : SymmetricQueue → Bool) (currp timeout : Nat)
    (hcond : ∀ k k1 : World, SameData k k1 → cond k1.sq = cond k.sq)
    (k : World) (ws : List Wake) (hc : cond k.sq = true)
    (hs : timeout = TIME_IMMEDIATE ∨ EndsUnfed ws) :
    ∃ msg k1 ws1, waitWhile cond (fun msg => decide (msg ≠ Q_OK)) currp timeout
        (ws.length + 1) k ws = .ret msg k1 ws1 ∧ (SameData k k1 ∨ ResetData k k1) := by
  by_cases ht : timeout = TIME_IMMEDIATE
  · obtain ⟨msg, k1, ws1, h1, h2⟩ := waitWhile_gives_up cond currp timeout hcond k ws hc
      (Or.inl ht)
    exact ⟨msg, k1, ws1, h1, Or.inl h2⟩
  · rcases hs with hs | hs | hs
    · exact absurd hs ht
    · obtain ⟨msg, k1, ws1, h1, h2⟩ := waitWhile_gives_up cond currp timeout hcond k ws hc
        (Or.inr hs)
      exact ⟨msg, k1, ws1, h1, Or.inl h2⟩
    · obtain ⟨msg, k1, ws1, h1, h2⟩ := waitWhile_reset cond currp timeout hcond k ws hc ht hs
      exact ⟨msg, k1, ws1, h1, Or.inr h2⟩

/-! ## Block reads and writes that are not fed while they wait -/

theorem readLoop_step (currp timeout n r bp : Nat) (k : World) (ws : List Wake)
    (hne : k.sq.q_counter ≠ 0) :
    readLoop currp timeout (n + 1) r bp k ws =
      readLoop currp timeout n (r + 1) (bp + 1) (delivered bp k) ws := by
  rw [readLoop_succ, waitWhile_false _ _ _ _ _ _ _ (by simp [chSymQIsEmptyI, hne])]

theorem writeLoop_step (C currp timeout n w bp : Nat) (k : World) (ws : List Wake)
    (h : WF C k) (hne : k.sq.q_counter ≠ (C : Int)) :
    writeLoop currp timeout (n + 1) w bp k ws =
      writeLoop currp timeout n (w + 1) (bp + 1) (pushed (k.umem bp) k) ws := by
  rw [writeLoop_succ, waitWhile_false _ _ _ _ _ _ _
    (by simp [chSymQIsFullI, WF_size C k h, hne])]

theorem readLoop_short (C currp timeout : Nat) :
    ∀ (n r bp : Nat) (k : World) (ws : List Wake), WF C k →
      ((n : Int) ≤ k.sq.q_counter ∨ timeout = TIME_IMMEDIATE ∨ EndsUnfed ws) →
      (readLoop currp timeout n r bp k ws).reply = .count (r + min n k.sq.q_counter.toNat) ∧
      (List.range (min n k.sq.q_counter.toNat)).map
          (fun i => (readLoop currp timeout n r bp k ws).k.umem (bp + i))
        = (buffered k).take (min n k.sq.q_counter.toNat) ∧
      (∀ a, a < bp ∨ bp + min n k.sq.q_counter.toNat ≤ a →
        (readLoop currp timeout n r bp k ws).k.umem a = k.umem a) ∧
      (readLoop currp timeout n r bp k ws).k.sq.q_counter
        = k.sq.q_counter - (min n k.sq.q_counter.toNat : Nat) ∧
      buffered (readLoop currp timeout n r bp k ws).k
        = (buffered k).drop (min n k.sq.q_counter.toNat) := by
  intro n
  induction n with
  | zero =>
    intro r bp k ws _ _
    simp [readLoop]
  | succ n ih =>
    intro r bp k ws h hs
    have hc0 := h.2.2.2.2.2.1
    by_cases hne : k.sq.q_counter = 0
    · -- nothing buffered: the wait ends without a byte
      have hs1 : timeout = TIME_IMMEDIATE ∨ EndsUnfed ws := by
        rcases hs with hs | hs
        · rw [hne] at hs; exact absurd hs (by push_cast; omega)
        · exact hs
      obtain ⟨msg, k1, ws1, hw, hsd⟩ := waitWhile_unfed chSymQIsEmptyI currp timeout
        cond_empty_sameData k ws (by simp [chSymQIsEmptyI, hne]) hs1
      rw [readLoop_succ, hw]
      simp only [hne, Int.toNat_zero, Nat.min_zero, Nat.add_zero, List.range_zero, List.map_nil,
        List.take_zero, List.drop_zero, Nat.cast_zero, Int.sub_zero, true_and]
      rcases hsd with hsd | hsd
      · exact ⟨fun a _ => by rw [hsd.2.2.2.2.2.2], hsd.1.trans hne, sameData_buffered hsd⟩
      · exact ⟨fun a _ => by rw [hsd.2.2.2.2.2.2], hsd.1,
          (buffered_empty _ hsd.1).trans (buffered_empty k hne).symm⟩
    · -- one byte is taken and the loop goes on
      have hp := WF_popped C k h hne
      have hb := buffered_popped C k h hne
      have hm : min (n + 1) k.sq.q_counter.toNat = min n (k.sq.q_counter - 1).toNat + 1 := by
        simp only [Nat.min_def]; split <;> split <;> omega
      have hs1 : ((n : Int) ≤ (k.sq.q_counter - 1) ∨ timeout = TIME_IMMEDIATE ∨
          EndsUnfed ws) := by
        rcases hs with hs | hs
        · left; push_cast at hs; omega
        · right; exact hs
      obtain ⟨i1, i2, i3, i4, i5⟩ := ih (r + 1) (bp + 1) (delivered bp k) ws
        (WF_umem C _ _ hp) hs1
      rw [readLoop_step currp timeout n r bp k ws hne]
      have hbu : buffered (delivered bp k) = buffered (popped k) := rfl
      have hcu : (delivered bp k).sq.q_counter = k.sq.q_counter - 1 := rfl
      have huu : (delivered bp k).umem = store k.umem bp (k.mem k.sq.q_rdptr) := rfl
      rw [hcu] at i1 i2 i3 i4 i5
      rw [hbu] at i2 i5
      simp only [huu] at i3
      rw [hm]
      refine ⟨?_, ?_, ?_, ?_, ?_⟩
      · rw [i1]; congr 1; omega
      · rw [List.range_succ_eq_map, List.map_cons, List.map_map, hb, List.take_succ_cons, ← i2]
        congr 1
        · exact (i3 bp (Or.inl (Nat.lt_succ_self _))).trans (by simp [store])
        · apply List.map_congr_left
          intro i _
          simp only [Function.comp, Nat.succ_eq_add_one]
          congr 1; omega
      · intro a ha
        rw [i3 a (by omega)]
        have : a ≠ bp := by omega
        simp [store, this]
      · rw [i4]; push_cast; omega
      · rw [i5, hb, List.drop_succ_cons]

theorem writeLoop_short (C currp timeout : Nat) :
    ∀ (n w bp : Nat) (k : World) (ws : List Wake), WF C k →
      ((n : Int) + k.sq.q_counter ≤ (C : Int) ∨ timeout = TIME_IMMEDIATE ∨ EndsQuietly ws) →
      (writeLoop currp timeout n w bp k ws).reply
        = .count (w + min n (C - k.sq.q_counter.toNat)) ∧
      buffered (writeLoop currp timeout n w bp k ws).k
        = buffered k ++ (List.range (min n (C - k.sq.q_counter.toNat))).map
            (fun i => k.umem (bp + i)) ∧
      (writeLoop currp timeout n w bp k ws).k.sq.q_counter
        = k.sq.q_counter + (min n (C - k.sq.q_counter.toNat) : Nat) ∧
      (writeLoop currp timeout n w bp k ws).k.umem = k.umem ∧
      WF C (writeLoop currp timeout n w bp k ws).k := by
  intro n
  induction n with
  | zero =>
    intro w bp k ws h _
    simp [writeLoop, h]
  | succ n ih =>
    intro w bp k ws h hs
    have hc0 := h.2.2.2.2.2.1
    have hc1 := h.2.2.2.2.2.2.1
    by_cases hne : k.sq.q_counter = (C : Int)
    · -- the queue is full: the wait ends without room
      have hs1 : timeout = TIME_IMMEDIATE ∨ EndsQuietly ws := by
        rcases hs with hs | hs
        · rw [hne] at hs; exact absurd hs (by push_cast; omega)
        · exact hs
      obtain ⟨msg, k1, ws1, hw, hsd⟩ := waitWhile_gives_up chSymQIsFullI currp timeout
        cond_full_sameData k ws (by simp [chSymQIsFullI, WF_size C k h, hne]) hs1
      have hz : min (n + 1) (C - k.sq.q_counter.toNat) = 0 := by
        simp only [Nat.min_def]; split <;> omega
      rw [writeLoop_succ, hw, hz]
      simp only [Nat.add_zero, List.range_zero, List.map_nil, List.append_nil, Nat.cast_zero,
        Int.add_zero, true_and]
      exact ⟨sameData_buffered hsd, hsd.1, hsd.2.2.2.2.2.2, sameData_WF hsd h⟩
    · -- one byte is stored and the loop goes on
      have hp := WF_pushed C (k.umem bp) k h hne
      have hb := buffered_pushed C (k.umem bp) k h hne
      have hcu : (pushed (k.umem bp) k).sq.q_counter = k.sq.q_counter + 1 := rfl
      have huu : (pushed (k.umem bp) k).umem = k.umem := rfl
      have hm : min (n + 1) (C - k.sq.q_counter.toNat)
          = min n (C - (k.sq.q_counter + 1).toNat) + 1 := by
        simp only [Nat.min_def]; split <;> split <;> omega
      have hs1 : ((n : Int) + (k.sq.q_counter + 1) ≤ (C : Int) ∨ timeout = TIME_IMMEDIATE ∨
          EndsQuietly ws) := by
        rcases hs with hs | hs
        · left; push_cast at hs; omega
        · right; exact hs
      obtain ⟨i1, i2, i3, i4, i5⟩ := ih (w + 1) (bp + 1) (pushed (k.umem bp) k) ws hp hs1
      rw [hcu] at i1 i2 i3
      rw [huu] at i2 i4
      rw [writeLoop_step C currp timeout n w bp k ws h hne, hm]
      refine ⟨?_, ?_, ?_, i4, i5⟩
      · rw [i1]; congr 1; omega
      · rw [i2, hb, List.range_succ_eq_map, List.map_cons, List.map_map, List.append_assoc]
        congr 1
        simp only [List.singleton_append, Nat.add_zero]
        congr 1
        apply List.map_congr_left
        intro i _
        simp only [Function.comp, Nat.succ_eq_add_one]
        congr 1; omega
      · rw [i3]; push_cast; omega

/-- C8: on a well-formed queue holding the bytes `buffered k` (oldest first),
a `chSymQReadTimeout` of `n > 0` bytes that is not fed while it waits (enough
bytes are there, or the timeout is `TIME_IMMEDIATE`, or the wait ends before a
byte arrives, with a timeout or with a reset of the queue by another thread)
returns `min n (number of buffered bytes)`, stores the oldest bytes in that
number and order at `bp`, `bp + 1`, and so on, writes nothing else into the
caller's memory, takes exactly these bytes out of the queue, and returns at
most `n`. -/
theorem read_returns_what_is_there (C currp bp n timeout : Nat) (k : World) (ws : List Wake)
    (h : WF C k) (hn : 0 < n)
    (hs : (n : Int) ≤ k.sq.q_counter ∨ timeout = TIME_IMMEDIATE ∨ EndsUnfed ws) :
    (chSymQReadTimeout currp bp n timeout k ws).reply
      = .count (min n (buffered k).length) ∧
    (List.range (min n (buffered k).length)).map
        (fun i => (chSymQReadTimeout currp bp n timeout k ws).k.umem (bp + i))
      = (buffered k).take (min n (buffered k).length) ∧
    (∀ a, a < bp ∨ bp + min n (buffered k).length ≤ a →
      (chSymQReadTimeout currp bp n timeout k ws).k.umem a = k.umem a) ∧
    (chSymQReadTimeout currp bp n timeout k ws).k.sq.q_counter
      = k.sq.q_counter - (min n (buffered k).length : Nat) ∧
    k.sq.q_counter = ((buffered k).length : Nat) ∧
    buffered (chSymQReadTimeout currp bp n timeout k ws).k
      = (buffered k).drop (min n (buffered k).length) ∧
    min n (buffered k).length ≤ n := by
  have hr := readLoop_short C currp timeout n 0 bp k ws h hs
  have hn0 : n ≠ 0 := by omega
  have hc0 := h.2.2.2.2.2.1
  simp only [chSymQReadTimeout, hn0, if_false, buffered_length]
  rw [Nat.zero_add] at hr
  exact ⟨hr.1, hr.2.1, hr.2.2.1, hr.2.2.2.1, by omega, hr.2.2.2.2, Nat.min_le_left _ _⟩

/-- A block write that does not fit and whose wait ends with a reset of the
queue: it returns the number of bytes that filled the queue, and the queue is
as the reset leaves it, empty. -/
theorem writeLoop_reset (C currp timeout : Nat) (ht : timeout ≠ TIME_IMMEDIATE) :
    ∀ (n w bp : Nat) (k : World) (ws : List Wake), WF C k →
      (C : Int) < (n : Int) + k.sq.q_counter → EndsReset ws →
      (writeLoop currp timeout n w bp k ws).reply = .count (w + (C - k.sq.q_counter.toNat)) ∧
      (writeLoop currp timeout n w bp k ws).k.sq.q_counter = 0 ∧
      (writeLoop currp timeout n w bp k ws).k.sq.q_buffer = k.sq.q_buffer ∧
      (writeLoop currp timeout n w bp k ws).k.sq.q_top = k.sq.q_top ∧
      (writeLoop currp timeout n w bp k ws).k.sq.q_wrptr = k.sq.q_buffer ∧
      (writeLoop currp timeout n w bp k ws).k.sq.q_rdptr = k.sq.q_buffer ∧
      (writeLoop currp timeout n w bp k ws).k.umem = k.umem := by
  intro n
  induction n with
  | zero =>
    intro w bp k ws h hlt _
    have hc1 := h.2.2.2.2.2.2.1
    push_cast at hlt
    omega
  | succ n ih =>
    intro w bp k ws h hlt hs
    have hc0 := h.2.2.2.2.2.1
    have hc1 := h.2.2.2.2.2.2.1
    by_cases hne : k.sq.q_counter = (C : Int)
    · obtain ⟨msg, k1, ws1, hw, b1, b2, b3, b4, b5, _, b7⟩ :=
        waitWhile_reset chSymQIsFullI currp timeout
          cond_full_sameData k ws (by simp [chSymQIsFullI, WF_size C k h, hne]) ht hs
      have hz : C - k.sq.q_counter.toNat = 0 := by omega
      rw [writeLoop_succ, hw, hz]
      exact ⟨rfl, b1, b2, b3, b4, b5, b7⟩
    · have hp := WF_pushed C (k.umem bp) k h hne
      have hcu : (pushed (k.umem bp) k).sq.q_counter = k.sq.q_counter + 1 := rfl
      obtain ⟨i1, i2⟩ := ih (w + 1) (bp + 1) (pushed (k.umem bp) k) ws hp
        (by rw [hcu]; push_cast at hlt ⊢; omega) hs
      rw [hcu] at i1
      rw [writeLoop_step C currp timeout n w bp k ws h hne]
      refine ⟨?_, i2⟩
      rw [i1]; congr 1; omega

/-- C9, counterexample: a queue of capacity 3 holding 2 bytes; a write of 2
bytes stores one, waits for room and is woken by a reset of the queue: it
returns 1, but the counter is 0 and not 3, no byte is buffered, and a get
issued afterwards finds the queue empty. -/
theorem write_then_reset_is_empty :
    WF 3 twoWorld ∧ twoWorld.sq.q_counter = 2 ∧
    (chSymQWriteTimeout 1 0 2 20 twoWorld [resetWakeUp]).reply = .count 1 ∧
    (chSymQWriteTimeout 1 0 2 20 twoWorld [resetWakeUp]).k.sq.q_counter = 0 ∧
    (chSymQWriteTimeout 1 0 2 20 twoWorld [resetWakeUp]).k.sq.q_counter ≠ 2 + 1 ∧
    buffered (chSymQWriteTimeout 1 0 2 20 twoWorld [resetWakeUp]).k = [] ∧
    (chSymQGetTimeout 2 TIME_IMMEDIATE
      (chSymQWriteTimeout 1 0 2 20 twoWorld [resetWakeUp]).k []).reply = .msg Q_TIMEOUT := by
  refine ⟨by decide, by decide, by decide, by decide, by decide, by decide, by decide⟩

/-- C9, amended: on a well-formed queue of capacity `C` holding the bytes
`buffered k`, a `chSymQWriteTimeout` of `n > 0` bytes for which no space is
freed by a get while it waits returns `m = min n (C - number of buffered
bytes)` and leaves the caller's memory as it was.  When there is room for
all, or the timeout is `TIME_IMMEDIATE`, or the wait ends with the queue data
untouched (a timeout), the queue holds the old bytes followed by the first `m`
source bytes, in order, with the counter at the old count plus `m`, and gets
issued afterwards return exactly these bytes in that order.  When the bytes do
not all fit and the wait ends with a reset of the queue by another thread, the
queue is empty: the counter is 0, both pointers are at the start of the
buffer, and a get with `TIME_IMMEDIATE` returns `Q_TIMEOUT`. -/
theorem write_fills_free_space (C currp bp n timeout : Nat) (k : World) (ws : List Wake)
    (h : WF C k) (hn : 0 < n)
    (hs : (n : Int) + k.sq.q_counter ≤ (C : Int) ∨ timeout = TIME_IMMEDIATE ∨ EndsUnfed ws) :
    (chSymQWriteTimeout currp bp n timeout k ws).reply
      = .count (min n (C - (buffered k).length)) ∧
    k.sq.q_counter = ((buffered k).length : Nat) ∧
    (chSymQWriteTimeout currp bp n timeout k ws).k.umem = k.umem ∧
    ((n : Int) + k.sq.q_counter ≤ (C : Int) ∨ timeout = TIME_IMMEDIATE ∨ EndsQuietly ws →
      buffered (chSymQWriteTimeout currp bp n timeout k ws).k
        = buffered k ++ (List.range (min n (C - (buffered k).length))).map
            (fun i => k.umem (bp + i)) ∧
      (chSymQWriteTimeout currp bp n timeout k ws).k.sq.q_counter
        = k.sq.q_counter + (min n (C - (buffered k).length) : Nat) ∧
      (∀ (gs : List (Nat × Nat)) (ws1 : List Wake),
        gs.length = (buffered k).length + min n (C - (buffered k).length) →
        (runCalls (gs.map (fun g => Call.get g.1 g.2))
            (chSymQWriteTimeout currp bp n timeout k ws).k ws1).1
          = (buffered k ++ (List.range (min n (C - (buffered k).length))).map
              (fun i => k.umem (bp + i))).map (fun b => Reply.msg (b.val : Int)))) ∧
    ((C : Int) < (n : Int) + k.sq.q_counter → timeout ≠ TIME_IMMEDIATE → EndsReset ws →
      (chSymQWriteTimeout currp bp n timeout k ws).k.sq.q_counter = 0 ∧
      buffered (chSymQWriteTimeout currp bp n timeout k ws).k = [] ∧
      (chSymQWriteTimeout currp bp n timeout k ws).k.sq.q_rdptr = k.sq.q_buffer ∧
      (chSymQWriteTimeout currp bp n timeout k ws).k.sq.q_wrptr = k.sq.q_buffer ∧
      (∀ (currp1 : Nat) (ws1 : List Wake),
        chSymQGetTimeout currp1 TIME_IMMEDIATE
            (chSymQWriteTimeout currp bp n timeout k ws).k ws1
          = ⟨.msg Q_TIMEOUT, (chSymQWriteTimeout currp bp n timeout k ws).k, ws1⟩)) := by
  have hn0 : n ≠ 0 := by omega
  have hc0 := h.2.2.2.2.2.1
  have hc1 := h.2.2.2.2.2.2.1
  have hquiet : (n : Int) + k.sq.q_counter ≤ (C : Int) ∨ timeout = TIME_IMMEDIATE ∨
      EndsQuietly ws →
      (writeLoop currp timeout n 0 bp k ws).reply
        = .count (min n (C - k.sq.q_counter.toNat)) ∧
      buffered (writeLoop currp timeout n 0 bp k ws).k
        = buffered k ++ (List.range (min n (C - k.sq.q_counter.toNat))).map
            (fun i => k.umem (bp + i)) ∧
      (writeLoop currp timeout n 0 bp k ws).k.sq.q_counter
        = k.sq.q_counter + (min n (C - k.sq.q_counter.toNat) : Nat) ∧
      (writeLoop currp timeout n 0 bp k ws).k.umem = k.umem ∧
      WF C (writeLoop currp timeout n 0 bp k ws).k := by
    intro hq
    have hr := writeLoop_short C currp timeout n 0 bp k ws h hq
    rw [Nat.zero_add] at hr
    exact hr
  have hreset : (C : Int) < (n : Int) + k.sq.q_counter → timeout ≠ TIME_IMMEDIATE →
      EndsReset ws →
      (writeLoop currp timeout n 0 bp k ws).reply
        = .count (min n (C - k.sq.q_counter.toNat)) ∧
      (writeLoop currp timeout n 0 bp k ws).k.sq.q_counter = 0 ∧
      (writeLoop currp timeout n 0 bp k ws).k.sq.q_buffer = k.sq.q_buffer ∧
      (writeLoop currp timeout n 0 bp k ws).k.sq.q_top = k.sq.q_top ∧
      (writeLoop currp timeout n 0 bp k ws).k.sq.q_wrptr = k.sq.q_buffer ∧
      (writeLoop currp timeout n 0 bp k ws).k.sq.q_rdptr = k.sq.q_buffer ∧
      (writeLoop currp timeout n 0 bp k ws).k.umem = k.umem := by
    intro hlt ht hr
    have hw := writeLoop_reset C currp timeout ht n 0 bp k ws h hlt hr
    rw [Nat.zero_add] at hw
    have hm : min n (C - k.sq.q_counter.toNat) = C - k.sq.q_counter.toNat := by
      apply Nat.min_eq_right
      push_cast at hlt
      omega
    rw [hm]
    exact hw
  simp only [chSymQWriteTimeout, hn0, if_false, buffered_length]
  have hcases : ((n : Int) + k.sq.q_counter ≤ (C : Int) ∨ timeout = TIME_IMMEDIATE ∨
      EndsQuietly ws) ∨
      ((C : Int) < (n : Int) + k.sq.q_counter ∧ timeout ≠ TIME_IMMEDIATE ∧ EndsReset ws) := by
    by_cases h1 : (n : Int) + k.sq.q_counter ≤ (C : Int)
    · exact Or.inl (Or.inl h1)
    · by_cases h2 : timeout = TIME_IMMEDIATE
      · exact Or.inl (Or.inr (Or.inl h2))
      · rcases hs with hs | hs | hs | hs
        · exact absurd hs h1
        · exact absurd hs h2
        · exact Or.inl (Or.inr (Or.inr hs))
        · exact Or.inr ⟨by omega, h2, hs⟩
  refine ⟨?_, by omega, ?_, ?_, ?_⟩
  · rcases hcases with hq | ⟨hlt, ht, hr⟩
    · exact (hquiet hq).1
    · exact (hreset hlt ht hr).1
  · rcases hcases with hq | ⟨hlt, ht, hr⟩
    · exact (hquiet hq).2.2.2.1
    · exact (hreset hlt ht hr).2.2.2.2.2.2
  · intro hq
    obtain ⟨_, r2, r3, _, r5⟩ := hquiet hq
    refine ⟨r2, r3, ?_⟩
    intro gs ws1 hgs
    have hg := gets_run C gs _ ws1 r5 (by rw [r3, hgs]; push_cast; omega)
    rw [hg.1, r2]
    congr 1
    apply List.take_of_length_le
    simp [buffered_length, hgs]
  · intro hlt ht hr
    obtain ⟨_, r2, _, _, r5, r6, _⟩ := hreset hlt ht hr
    refine ⟨r2, buffered_empty _ r2, r6, r5, ?_⟩
    intro currp1 ws1
    rw [get_eq, waitWhile_immediate _ _ _ _ _ _ (by simp [chSymQIsEmptyI, r2]) (by decide)]

/-! ## Block read as repeated single-byte get -/

theorem waitWhile_leave_congr (cond : SymmetricQueue → Bool) (l1 l2 : Int → Bool)
    (currp timeout : Nat) (ht : l1 Q_TIMEOUT = l2 Q_TIMEOUT) :
    ∀ (fuel : Nat) (k : World) (ws : List Wake), (∀ w ∈ ws, l1 w.msg = l2 w.msg) →
      waitWhile cond l1 currp timeout fuel k ws = waitWhile cond l2 currp timeout fuel k ws := by
  intro fuel
  induction fuel with
  | zero => intro k ws _; rfl
  | succ fuel ih =>
    intro k ws hws
    by_cases hc : cond k.sq = true
    · by_cases hti : timeout = TIME_IMMEDIATE
      · subst hti
        simp only [waitWhile, hc, if_true, qwait, ht]
        rw [ih k ws hws]
      · cases ws with
        | nil => simp only [waitWhile, hc, if_true, qwait, hti, if_false, chSchGoSleepTimeoutS]
        | cons w ws =>
          simp only [waitWhile, hc, if_true, qwait_cons currp timeout k w ws hti,
            hws w (List.mem_cons_self _ _)]
          rw [ih _ ws (fun v hv => hws v (List.mem_cons_of_mem _ hv))]
    · simp only [waitWhile, hc, Bool.false_eq_true, if_false]

theorem waitWhile_ret_msg (cond : SymmetricQueue → Bool) (leave : Int → Bool)
    (currp timeout : Nat) :
    ∀ (fuel : Nat) (k : World) (ws : List Wake) (m : Int) (k1 : World) (ws1 : List Wake),
      waitWhile cond leave currp timeout fuel k ws = .ret m k1 ws1 →
      leave m = true ∧ (m = Q_TIMEOUT ∨ ∃ w ∈ ws, w.msg = m) := by
  intro fuel
  induction fuel with
  | zero => intro k ws m k1 ws1 h; simp [waitWhile] at h
  | succ fuel ih =>
    intro k ws m k1 ws1 h
    by_cases hc : cond k.sq = true
    · by_cases hti : timeout = TIME_IMMEDIATE
      · subst hti
        simp only [waitWhile, hc, if_true, qwait] at h
        by_cases hl : leave Q_TIMEOUT = true
        · simp only [hl, if_true, Waited.ret.injEq] at h
          rw [← h.1]; exact ⟨hl, Or.inl rfl⟩
        · simp only [hl, if_false] at h
          exact ih k ws m k1 ws1 h
      · cases ws with
        | nil =>
          simp [waitWhile, hc, qwait, hti, chSchGoSleepTimeoutS] at h
        | cons w ws =>
          simp only [waitWhile, hc, if_true, qwait_cons currp timeout k w ws hti] at h
          by_cases hl : leave w.msg = true
          · simp only [hl, if_true, Waited.ret.injEq] at h
            rw [← h.1]; exact ⟨hl, Or.inr ⟨w, List.mem_cons_self _ _, rfl⟩⟩
          · simp only [hl, if_false] at h
            obtain ⟨h1, h2⟩ := ih _ ws m k1 ws1 h
            refine ⟨h1, ?_⟩
            rcases h2 with h2 | ⟨v, hv, hm⟩
            · exact Or.inl h2
            · exact Or.inr ⟨v, List.mem_cons_of_mem _ hv, hm⟩
    · simp [waitWhile, hc] at h

theorem byte_of_msg (b : uint8_t) : (Fin.ofNat ((b.val : Int)).toNat : uint8_t) = b := by
  apply Fin.ext
  simp [Fin.ofNat, Nat.mod_eq_of_lt b.isLt]

theorem readLoop_eq_readByGets (currp timeout : Nat) :
    ∀ (n r bp : Nat) (k : World) (ws : List Wake), ValidCodes ws →
      readLoop currp timeout n r bp k ws = readByGets currp timeout n r bp k ws := by
  intro n
  induction n with
  | zero => intro r bp k ws _; rfl
  | succ n ih =>
    intro r bp k ws hv
    have hcg := waitWhile_leave_congr chSymQIsEmptyI (fun msg => decide (msg ≠ Q_OK))
      (fun msg => decide (msg < Q_OK)) currp timeout (by decide) (ws.length + 1) k ws (by
        intro w hw
        rcases hv w hw with h | h | h <;> rw [h] <;> decide)
    have hsuf := (waitWhile_keeps chSymQIsEmptyI (fun msg => decide (msg < Q_OK)) currp timeout
      (fun _ => True) (fun _ _ _ _ => trivial) (ws.length + 1) k ws trivial
      (fun _ _ _ _ => trivial)).2
    have hret := waitWhile_ret_msg chSymQIsEmptyI (fun msg => decide (msg < Q_OK)) currp timeout
      (ws.length + 1) k ws
    rw [readLoop_succ, hcg, readByGets, get_eq]
    cases hw : waitWhile chSymQIsEmptyI (fun msg => decide (msg < Q_OK)) currp timeout
        (ws.length + 1) k ws with
    | asleep k1 => rfl
    | ret m k1 ws1 =>
      obtain ⟨_, h2⟩ := hret m k1 ws1 hw
      have hm : m = Q_TIMEOUT ∨ m = Q_RESET := by
        have hlt : m < Q_OK := by
          have := (hret m k1 ws1 hw).1
          simpa using this
        rcases h2 with h2 | ⟨w, hw1, hw2⟩
        · exact Or.inl h2
        · rcases hv w hw1 with h | h | h
          · rw [hw2] at h; rw [h] at hlt; exact absurd hlt (by decide)
          · rw [hw2] at h; exact Or.inl h
          · rw [hw2] at h; exact Or.inr h
      simp only [hm, if_true]
    | go k1 ws1 =>
      rw [hw] at hsuf
      have hv1 : ValidCodes ws1 := fun w hw1 => hv w (hsuf.subset hw1)
      have hb : ¬ (((k1.mem k1.sq.q_rdptr).val : Int) = Q_TIMEOUT ∨
          ((k1.mem k1.sq.q_rdptr).val : Int) = Q_RESET) := by
        simp only [Q_TIMEOUT, Q_RESET]; omega
      simp only [hb, if_false, byte_of_msg]
      exact ih (r + 1) (bp + 1) _ ws1 hv1

/-- C10: for `n > 0` and a schedule delivering the wake messages `Q_OK`,
`Q_TIMEOUT` and `Q_RESET` (with whatever the other threads do meanwhile),
`chSymQReadTimeout` gives the same result as repeating `chSymQGetTimeout`,
storing each returned byte, until `n` bytes were got or a get returned
`Q_TIMEOUT` or `Q_RESET`: the same count (the number of gets that returned a
byte), the same final world (queue, stored bytes, readied threads, sleeps) and
the same wake-ups left. -/
theorem read_is_repeated_get (currp bp n timeout : Nat) (k : World) (ws : List Wake)
    (hn : 0 < n) (hv : ValidCodes ws) :
    chSymQReadTimeout currp bp n timeout k ws = readByGets currp timeout n 0 bp k ws := by
  have hn0 : n ≠ 0 := by omega
  simp only [chSymQReadTimeout, hn0, if_false]
  exact readLoop_eq_readByGets currp timeout n 0 bp k ws hv

/-- The fuel given to the waiting loop by the transfer functions is never used
up: any larger amount gives the same result. -/
theorem waitWhile_fuel (cond : SymmetricQueue → Bool) (leave : Int → Bool)
    (currp timeout : Nat) (hl : leave Q_TIMEOUT = true) :
    ∀ (f1 f2 : Nat) (k : World) (ws : List Wake), ws.length < f1 → ws.length < f2 →
      waitWhile cond leave currp timeout f1 k ws = waitWhile cond leave currp timeout f2 k ws := by
  intro f1
  induction f1 with
  | zero => intro f2 k ws h1 _; omega
  | succ f1 ih =>
    intro f2 k ws h1 h2
    obtain ⟨f2, rfl⟩ : ∃ f, f2 = f + 1 := ⟨f2 - 1, by omega⟩
    by_cases hc : cond k.sq = true
    · by_cases hti : timeout = TIME_IMMEDIATE
      · subst hti
        simp only [waitWhile, hc, if_true, qwait, hl]
      · cases ws with
        | nil => simp only [waitWhile, hc, if_true, qwait, hti, if_false, chSchGoSleepTimeoutS]
        | cons w ws =>
          simp only [waitWhile, hc, if_true, qwait_cons currp timeout k w ws hti]
          rw [ih f2 _ ws (by simp at h1; omega) (by simp at h2; omega)]
    · simp only [waitWhile, hc, Bool.false_eq_true, if_false]

/-! ## Concrete instances -/

/-- Instance of C1: capacity 3, a put that sleeps and is woken, three calls done. -/
theorem counter_bounds_witness :
    0 < 3 ∧
    0 ≤ (runCalls ([Call.put 1 7 0, .put 1 8 5, .get 2 0, .reset, .get 2 5].take 3)
          (chSymQInit 100 3 world0) ([Q_OK, Q_TIMEOUT].map wakeCode)).2.1.sq.q_counter ∧
    (runCalls ([Call.put 1 7 0, .put 1 8 5, .get 2 0, .reset, .get 2 5].take 3)
          (chSymQInit 100 3 world0) ([Q_OK, Q_TIMEOUT].map wakeCode)).2.1.sq.q_counter
      ≤ ((3 : Nat) : Int) :=
  ⟨by decide, counter_bounds 3 (by decide) 100 world0 _ [Q_OK, Q_TIMEOUT] 3⟩

/-- Instance of C2: three bytes through a queue of capacity 3 whose pointers
start on the last byte of the buffer, so that the transfer wraps around. -/
theorem fifo_round_trip_witness :
    Reachable 3 wrapWorld ∧ wrapWorld.sq.q_rdptr = 102 ∧ wrapWorld.sq.q_counter = 0 ∧
    (runCalls ([(1, 0x41, 0), (1, 0x42, 7), (3, 0xFF, 0)].map (fun p => Call.put p.1 p.2.1 p.2.2)
        ++ [(2, 0), (2, 9), (4, 0)].map (fun g => Call.get g.1 g.2)) wrapWorld []).1
      = [.msg 0, .msg 0, .msg 0, .msg 0x41, .msg 0x42, .msg 0xFF] :=
  ⟨⟨world0, 100, _, [], rfl⟩, by decide, by decide,
    (fifo_round_trip 3 (by decide) wrapWorld ⟨world0, 100, _, [], rfl⟩ (by decide)
      [(1, 0x41, 0), (1, 0x42, 7), (3, 0xFF, 0)] [(2, 0), (2, 9), (4, 0)] (by decide) rfl []).1⟩

/-- Instance of C3 on a full queue of capacity 2. -/
theorem put_full_immediate_witness :
    fullWorld.sq.q_counter = chSymQSizeI fullWorld.sq ∧
    chSymQPutTimeout 1 0x43 TIME_IMMEDIATE fullWorld [wakeCode Q_OK]
      = ⟨.msg Q_TIMEOUT, fullWorld, [wakeCode Q_OK]⟩ :=
  ⟨by decide, put_full_immediate 1 0x43 fullWorld [wakeCode Q_OK] (by decide)⟩

/-- Instance of C4 on an empty queue of capacity 2. -/
theorem get_empty_immediate_witness :
    emptyWorld.sq.q_counter = 0 ∧
    chSymQGetTimeout 1 TIME_IMMEDIATE emptyWorld [wakeCode Q_OK]
      = ⟨.msg Q_TIMEOUT, emptyWorld, [wakeCode Q_OK]⟩ :=
  ⟨by decide, get_empty_immediate 1 emptyWorld [wakeCode Q_OK] (by decide)⟩

/-- Instance of C6: the read pointer wraps from the last byte to the buffer
start and thread 9 is readied. -/
theorem get_nonempty_witness :
    WF 3 twoWorld ∧ twoWorld.sq.q_counter ≠ 0 ∧
    (chSymQGetTimeout 1 TIME_INFINITE twoWorld []).reply = .msg 0x41 ∧
    (chSymQGetTimeout 1 TIME_INFINITE twoWorld []).k.sq.q_rdptr = 100 + (102 - 100 + 1) % 3 ∧
    (chSymQGetTimeout 1 TIME_INFINITE twoWorld []).k.sq.q_waiting = [5] ∧
    (chSymQGetTimeout 1 TIME_INFINITE twoWorld []).k.rdy = [(9, Q_OK)] :=
  have h := get_nonempty 3 1 TIME_INFINITE twoWorld [] (by decide) (by decide)
  ⟨by decide, by decide, h.1, h.2.2.2.1, h.2.2.2.2.2.2.2.2.2.1, h.2.2.2.2.2.2.2.2.2.2.1⟩

/-- Instance of C7: a third byte goes behind the two buffered ones. -/
theorem put_nonfull_witness :
    WF 3 twoWorld ∧ twoWorld.sq.q_counter ≠ ((3 : Nat) : Int) ∧
    (chSymQPutTimeout 1 0x43 TIME_INFINITE twoWorld []).reply = .msg Q_OK ∧
    buffered (chSymQPutTimeout 1 0x43 TIME_INFINITE twoWorld []).k = [0x41, 0x42, 0x43] :=
  have h := put_nonfull 3 1 0x43 TIME_INFINITE twoWorld [] (by decide) (by decide)
  ⟨by decide, by decide, h.1, h.2.2.2.1⟩

/-- A schedule that ends quietly: a wake-up with `Q_OK` that finds the queue
unchanged, then the timeout. -/
theorem endsQuietly_example : EndsQuietly [wakeCode Q_OK, wakeCode Q_TIMEOUT] :=
  ⟨[wakeCode Q_OK], wakeCode Q_TIMEOUT, [], rfl,
    fun v hv => by
      rw [List.mem_singleton] at hv
      subst hv
      exact ⟨rfl, fun k => sameData_refl k⟩,
    Or.inl rfl, fun k => sameData_refl k⟩

theorem endsReset_example : EndsReset [wakeCode Q_OK, resetWakeUp] :=
  ⟨[wakeCode Q_OK], resetWakeUp, [], rfl,
    fun v hv => by
      rw [List.mem_singleton] at hv
      subst hv
      exact ⟨rfl, fun k => sameData_refl k⟩,
    Or.inr rfl, chSymQResetI_resets⟩

/-- Instance of C8: ten bytes wanted, two buffered, then a wake-up for nothing
and the reset of the queue by another thread. -/
theorem read_returns_what_is_there_witness :
    WF 3 twoWorld ∧ 0 < 10 ∧ EndsUnfed [wakeCode Q_OK, resetWakeUp] ∧
    (chSymQReadTimeout 1 50 10 20 twoWorld
      [wakeCode Q_OK, resetWakeUp]).reply = .count 2 ∧
    (List.range 2).map (fun i => (chSymQReadTimeout 1 50 10 20 twoWorld
      [wakeCode Q_OK, resetWakeUp]).k.umem (50 + i)) = [0x41, 0x42] ∧
    (chSymQReadTimeout 1 50 10 20 twoWorld
      [wakeCode Q_OK, resetWakeUp]).k.sq.q_counter = 0 ∧
    (chSymQReadTimeout 1 50 10 20 twoWorld
      [wakeCode Q_OK, wakeCode Q_TIMEOUT]).reply = .count 2 :=
  have h := read_returns_what_is_there 3 1 50 10 20 twoWorld
    [wakeCode Q_OK, resetWakeUp] (by decide) (by decide)
    (Or.inr (Or.inr (Or.inr endsReset_example)))
  ⟨by decide, by decide, Or.inr endsReset_example, h.1, h.2.1, by decide, by decide⟩

/-- Instance of C9 (amended): two bytes offered, room for one, then the reset
of the queue by another thread; and five bytes offered with an immediate
timeout. -/
theorem write_fills_free_space_witness :
    WF 3 twoWorld ∧ 0 < 2 ∧ EndsUnfed [wakeCode Q_OK, resetWakeUp] ∧
    (chSymQWriteTimeout 1 0 2 20 twoWorld [wakeCode Q_OK, resetWakeUp]).reply = .count 1 ∧
    (chSymQWriteTimeout 1 0 2 20 twoWorld [wakeCode Q_OK, resetWakeUp]).k.sq.q_counter = 0 ∧
    (chSymQWriteTimeout 1 0 5 TIME_IMMEDIATE twoWorld []).reply = .count 1 ∧
    buffered (chSymQWriteTimeout 1 0 5 TIME_IMMEDIATE twoWorld []).k = [0x41, 0x42, 0x61] :=
  have h := write_fills_free_space 3 1 0 2 20 twoWorld [wakeCode Q_OK, resetWakeUp]
    (by decide) (by decide) (Or.inr (Or.inr (Or.inr endsReset_example)))
  ⟨by decide, by decide, Or.inr endsReset_example, h.1,
    (h.2.2.2.2 (by decide) (by decide) endsReset_example).1, by decide, by decide⟩

/-- Instance of C10: a read of four bytes that is woken once for nothing and
then ended by a reset. -/
theorem read_is_repeated_get_witness :
    0 < 4 ∧ ValidCodes [wakeCode Q_OK, wakeCode Q_RESET] ∧
    chSymQReadTimeout 1 50 4 TIME_INFINITE twoWorld [wakeCode Q_OK, wakeCode Q_RESET]
      = readByGets 1 TIME_INFINITE 4 0 50 twoWorld [wakeCode Q_OK, wakeCode Q_RESET] :=
  ⟨by decide, by decide,
    read_is_repeated_get 1 50 4 TIME_INFINITE twoWorld [wakeCode Q_OK, wakeCode Q_RESET]
      (by decide) (by decide)⟩

/-! ## Sleeping and resuming in `chSymQGetTimeout` -/

theorem resumed_eq (currp : Nat) (w : Wake) (k : World) :
    resumed currp w k =
      { w.env (parked currp k) with
        sq := { (w.env (parked currp k)).sq with
                q_waiting := (w.env (parked currp k)).sq.q_waiting.filter (fun t => t != currp) } } := by
  have h1 : TIME_IMMEDIATE + 1 ≠ TIME_IMMEDIATE := by decide
  simp only [resumed, qwait, h1, if_false, chSchGoSleepTimeoutS, parked]

theorem parked_sameData (currp : Nat) (k : World) : SameData k (parked currp k) :=
  ⟨rfl, rfl, rfl, rfl, rfl, rfl, rfl⟩

theorem resumed_sameData_env (currp : Nat) (w : Wake) (k : World) :
    SameData (w.env (parked currp k)) (resumed currp w k) := by
  rw [resumed_eq]
  exact ⟨rfl, rfl, rfl, rfl, rfl, rfl, rfl⟩

theorem get_empty_asleep (currp timeout : Nat) (k : World) (ht : timeout ≠ TIME_IMMEDIATE)
    (hempty : k.sq.q_counter = 0) :
    chSymQGetTimeout currp timeout k [] = ⟨.asleep, parked currp k, []⟩ := by
  have hc : chSymQIsEmptyI k.sq = true := by simp [chSymQIsEmptyI, hempty]
  rw [get_eq]
  simp only [List.length_nil, waitWhile, hc, if_true, qwait, ht, if_false,
    chSchGoSleepTimeoutS, parked]

theorem get_empty_woken (currp timeout : Nat) (k : World) (w : Wake) (ws : List Wake)
    (ht : timeout ≠ TIME_IMMEDIATE) (hempty : k.sq.q_counter = 0) :
    waitWhile chSymQIsEmptyI (fun msg => decide (msg < Q_OK)) currp timeout
        ((w :: ws).length + 1) k (w :: ws) =
      if w.msg < Q_OK then .ret w.msg (resumed currp w k) ws
      else waitWhile chSymQIsEmptyI (fun msg => decide (msg < Q_OK)) currp timeout
        (ws.length + 1) (resumed currp w k) ws := by
  have hc : chSymQIsEmptyI k.sq = true := by simp [chSymQIsEmptyI, hempty]
  simp only [List.length_cons, waitWhile, hc, if_true, qwait_cons currp timeout k w ws ht,
    decide_eq_true_eq]

/-- C11: re-validation after wake-up.  A get with a timeout other than
`TIME_IMMEDIATE` on an empty queue sleeps; when it is woken by `w` (message
and whatever the other threads did to the world):
(a) with `Q_OK` and the queue still empty, it goes on exactly as a get started
in the world it resumes in, so with no further wake-up it has not returned,
the caller is on the threads queue again and asleep again, counter, pointers
and memories being those it resumed with;
(b) a returned byte (a message that is not negative) was taken in a world
`k1` in which the waiting loop ended with `q_counter` different from 0, and
positive when the queue is well formed and the other threads keep it so;
(c) with `Q_RESET` or `Q_TIMEOUT` it returns exactly that message, in the world
it resumed in, whose counter, pointers and memories are those the other
threads left. -/
theorem get_revalidates_after_wake (C currp timeout : Nat) (k : World) (w : Wake)
    (ws : List Wake) (ht : timeout ≠ TIME_IMMEDIATE) (hempty : k.sq.q_counter = 0) :
    (w.msg = Q_OK → (resumed currp w k).sq.q_counter = 0 →
      chSymQGetTimeout currp timeout k (w :: ws)
          = chSymQGetTimeout currp timeout (resumed currp w k) ws ∧
        chSymQGetTimeout currp timeout k [w]
          = ⟨.asleep, parked currp (resumed currp w k), []⟩ ∧
        SameData (resumed currp w k) (parked currp (resumed currp w k))) ∧
    (∀ m : Int, (chSymQGetTimeout currp timeout k (w :: ws)).reply = .msg m → 0 ≤ m →
      ∃ k1 ws1,
        waitWhile chSymQIsEmptyI (fun msg => decide (msg < Q_OK)) currp timeout
            ((w :: ws).length + 1) k (w :: ws) = .go k1 ws1 ∧
        k1.sq.q_counter ≠ 0 ∧
        (WF C k → EnvKeeps (WF C) (w :: ws) → 0 < k1.sq.q_counter) ∧
        m = ((k1.mem k1.sq.q_rdptr).val : Int) ∧
        (chSymQGetTimeout currp timeout k (w :: ws)).k = popped k1) ∧
    (w.msg = Q_RESET ∨ w.msg = Q_TIMEOUT →
      chSymQGetTimeout currp timeout k (w :: ws) = ⟨.msg w.msg, resumed currp w k, ws⟩ ∧
        SameData (w.env (parked currp k)) (resumed currp w k) ∧
        SameData k (parked currp k)) := by
  have hstep := get_empty_woken currp timeout k w ws ht hempty
  refine ⟨?_, ?_, ?_⟩
  · intro hok hstill
    have hnlt : ¬ w.msg < Q_OK := by rw [hok]; decide
    refine ⟨?_, ?_, parked_sameData _ _⟩
    · rw [get_eq, hstep, if_neg hnlt, get_eq]
    · have h1 := get_empty_woken currp timeout k w [] ht hempty
      rw [get_eq, h1, if_neg hnlt, ← get_eq, get_empty_asleep currp timeout _ ht hstill]
  · intro m hm hm0
    have hkeep := waitWhile_keeps chSymQIsEmptyI (fun msg => decide (msg < Q_OK)) currp
      timeout (WF C) (WF_stable C) ((w :: ws).length + 1) k (w :: ws)
    have hgo := waitWhile_go_cond chSymQIsEmptyI (fun msg => decide (msg < Q_OK)) currp
      timeout ((w :: ws).length + 1) k (w :: ws)
    have hret := waitWhile_ret_msg chSymQIsEmptyI (fun msg => decide (msg < Q_OK)) currp
      timeout ((w :: ws).length + 1) k (w :: ws)
    rw [get_eq] at hm ⊢
    cases hw : waitWhile chSymQIsEmptyI (fun msg => decide (msg < Q_OK)) currp timeout
        ((w :: ws).length + 1) k (w :: ws) with
    | asleep k1 => rw [hw] at hm; simp at hm
    | ret msg k1 ws1 =>
      rw [hw] at hm
      have hlt : msg < Q_OK := by simpa using (hret msg k1 ws1 hw).1
      simp only [Reply.msg.injEq] at hm
      rw [hm] at hlt
      exact absurd hlt (by simp only [Q_OK]; omega)
    | go k1 ws1 =>
      rw [hw] at hm
      simp only [Reply.msg.injEq] at hm
      have hc := hgo k1 ws1 hw
      have hne : k1.sq.q_counter ≠ 0 := by simpa [chSymQIsEmptyI] using hc
      refine ⟨k1, ws1, rfl, hne, ?_, hm.symm, rfl⟩
      intro hwf henv
      have := (hkeep hwf henv).1
      rw [hw] at this
      have h0 : (0 : Int) ≤ k1.sq.q_counter := this.2.2.2.2.2.1
      omega
  · intro hcode
    have hlt : w.msg < Q_OK := by rcases hcode with h | h <;> rw [h] <;> decide
    refine ⟨?_, resumed_sameData_env _ _ _, parked_sameData _ _⟩
    rw [get_eq, hstep, if_pos hlt]

/-- Instance of C11: a get with timeout 20 on an empty queue, woken with
`Q_OK` for nothing. -/
theorem get_revalidates_after_wake_witness :
    (20 : Nat) ≠ TIME_IMMEDIATE ∧ emptyWorld.sq.q_counter = 0 ∧
    chSymQGetTimeout 1 20 emptyWorld [wakeCode Q_OK]
      = ⟨.asleep, parked 1 (resumed 1 (wakeCode Q_OK) emptyWorld), []⟩ :=
  ⟨by decide, by decide,
    ((get_revalidates_after_wake 2 1 20 emptyWorld (wakeCode Q_OK) [] (by decide)
      (by decide)).1 rfl (by decide)).2.1⟩

/-- C12: for every buffer address `bp` and every `size > 0`, whatever the
structure held before, `chSymQInit` leaves `q_counter = 0`, `q_buffer`,
`q_rdptr` and `q_wrptr` equal to `bp`, `q_top = bp + size` and an empty threads
queue; nothing else of the world changes and the queue is empty and not full. -/
theorem init_postcondition (bp size : Nat) (hsize : 0 < size) (k : World) :
    (chSymQInit bp size k).sq.q_counter = 0 ∧
    (chSymQInit bp size k).sq.q_buffer = bp ∧
    (chSymQInit bp size k).sq.q_rdptr = bp ∧
    (chSymQInit bp size k).sq.q_wrptr = bp ∧
    (chSymQInit bp size k).sq.q_top = bp + size ∧
    (chSymQInit bp size k).sq.q_waiting = [] ∧
    (chSymQInit bp size k).mem = k.mem ∧ (chSymQInit bp size k).umem = k.umem ∧
    (chSymQInit bp size k).rdy = k.rdy ∧ (chSymQInit bp size k).sleeps = k.sleeps ∧
    chSymQIsEmptyI (chSymQInit bp size k).sq = true ∧
    chSymQIsFullI (chSymQInit bp size k).sq = false := by
  refine ⟨rfl, rfl, rfl, rfl, rfl, rfl, rfl, rfl, rfl, rfl, ?_, ?_⟩
  · simp [chSymQIsEmptyI, chSymQInit]
  · simp [chSymQIsFullI, chSymQSizeI, chSymQInit]; omega

/-- Instance of C12: a used queue structure initialised again with 8 bytes. -/
theorem init_postcondition_witness :
    0 < 8 ∧ (chSymQInit 300 8 twoWorld).sq = ⟨[], 0, 300, 308, 300, 300⟩ ∧
    chSymQIsFullI (chSymQInit 300 8 twoWorld).sq = false :=
  ⟨by decide, rfl, (init_postcondition 300 8 (by decide) twoWorld).2.2.2.2.2.2.2.2.2.2.2⟩

/-- C13, counterexample: `chSymQInit` with size 0 is not rejected; the call
returns (it does not halt) and leaves a queue that is empty and full at once. -/
theorem init_zero_not_rejected :
    (chSymQInitCall 100 0 world0 []).reply = Reply.unit ∧
    (chSymQInitCall 100 0 world0 []).reply ≠ Reply.halted ∧
    chSymQIsEmptyI (chSymQInitCall 100 0 world0 []).k.sq = true ∧
    chSymQIsFullI (chSymQInitCall 100 0 world0 []).k.sq = true := by
  refine ⟨rfl, by decide, by decide, by decide⟩

/-- C13, amended: `chSymQInit` checks nothing.  With size 0 it returns as with
any other size, leaving `q_top = q_buffer = bp` and a counter of 0, a queue
that is empty and full at once: a put and a get with `TIME_IMMEDIATE` on it
both return `Q_TIMEOUT` and change nothing. -/
theorem init_zero_capacity (bp currp : Nat) (b : uint8_t) (k : World) (ws : List Wake) :
    (chSymQInitCall bp 0 k ws).reply = Reply.unit ∧
    (chSymQInitCall bp 0 k ws).ws = ws ∧
    (chSymQInitCall bp 0 k ws).k.sq = ⟨[], 0, bp, bp, bp, bp⟩ ∧
    chSymQIsEmptyI (chSymQInitCall bp 0 k ws).k.sq = true ∧
    chSymQIsFullI (chSymQInitCall bp 0 k ws).k.sq = true ∧
    chSymQPutTimeout currp b TIME_IMMEDIATE (chSymQInitCall bp 0 k ws).k ws
      = ⟨.msg Q_TIMEOUT, (chSymQInitCall bp 0 k ws).k, ws⟩ ∧
    chSymQGetTimeout currp TIME_IMMEDIATE (chSymQInitCall bp 0 k ws).k ws
      = ⟨.msg Q_TIMEOUT, (chSymQInitCall bp 0 k ws).k, ws⟩ := by
  have he : chSymQIsEmptyI (chSymQInitCall bp 0 k ws).k.sq = true := by
    simp [chSymQIsEmptyI, chSymQInitCall, chSymQInit]
  have hf : chSymQIsFullI (chSymQInitCall bp 0 k ws).k.sq = true := by
    simp [chSymQIsFullI, chSymQSizeI, chSymQInitCall, chSymQInit]
  refine ⟨rfl, rfl, rfl, he, hf, ?_, ?_⟩
  · rw [put_eq, waitWhile_immediate _ _ _ _ _ _ hf (by decide)]
  · rw [get_eq, waitWhile_immediate _ _ _ _ _ _ he (by decide)]

/-- C14: on a queue initialised by `chSymQInit` with capacity `C > 0`, after
every call of every finite sequence of get / put / read / write / reset calls,
under any wake codes, `q_top` is `q_buffer + C` and both `q_rdptr` and
`q_wrptr` are at least `q_buffer` and below `q_top`; in particular neither is
left equal to `q_top`. -/
theorem pointers_stay_in_buffer (C : Nat) (hC : 0 < C) (bp : Nat) (k0 : World)
    (calls : List Call) (codes : List Int) (m : Nat) :
    (runCalls (calls.take m) (chSymQInit bp C k0) (codes.map wakeCode)).2.1.sq.q_top
      = (runCalls (calls.take m) (chSymQInit bp C k0) (codes.map wakeCode)).2.1.sq.q_buffer + C ∧
    (runCalls (calls.take m) (chSymQInit bp C k0) (codes.map wakeCode)).2.1.sq.q_buffer
      ≤ (runCalls (calls.take m) (chSymQInit bp C k0) (codes.map wakeCode)).2.1.sq.q_rdptr ∧
    (runCalls (calls.take m) (chSymQInit bp C k0) (codes.map wakeCode)).2.1.sq.q_rdptr
      < (runCalls (calls.take m) (chSymQInit bp C k0) (codes.map wakeCode)).2.1.sq.q_top ∧
    (runCalls (calls.take m) (chSymQInit bp C k0) (codes.map wakeCode)).2.1.sq.q_buffer
      ≤ (runCalls (calls.take m) (chSymQInit bp C k0) (codes.map wakeCode)).2.1.sq.q_wrptr ∧
    (runCalls (calls.take m) (chSymQInit bp C k0) (codes.map wakeCode)).2.1.sq.q_wrptr
      < (runCalls (calls.take m) (chSymQInit bp C k0) (codes.map wakeCode)).2.1.sq.q_top ∧
    (runCalls (calls.take m) (chSymQInit bp C k0) (codes.map wakeCode)).2.1.sq.q_rdptr
      ≠ (runCalls (calls.take m) (chSymQInit bp C k0) (codes.map wakeCode)).2.1.sq.q_top ∧
    (runCalls (calls.take m) (chSymQInit bp C k0) (codes.map wakeCode)).2.1.sq.q_wrptr
      ≠ (runCalls (calls.take m) (chSymQInit bp C k0) (codes.map wakeCode)).2.1.sq.q_top := by
  obtain ⟨h1, h2, h3, h4, h5, _, _, _⟩ := runCalls_WF C hC (calls.take m) _ _
    (WF_init C bp hC k0) (envKeeps_codes _ codes)
  exact ⟨h1, h2, h3, h4, h5, by omega, by omega⟩

/-- Instance of C14: capacity 2, the write pointer wraps in the second put. -/
theorem pointers_stay_in_buffer_witness :
    0 < 2 ∧
    (runCalls ([Call.put 1 7 0, .put 1 8 0, .get 2 0].take 2) (chSymQInit 100 2 world0)
        (([] : List Int).map wakeCode)).2.1.sq.q_wrptr
      < (runCalls ([Call.put 1 7 0, .put 1 8 0, .get 2 0].take 2) (chSymQInit 100 2 world0)
        (([] : List Int).map wakeCode)).2.1.sq.q_top :=
  ⟨by decide, (pointers_stay_in_buffer 2 (by decide) 100 world0 _ [] 2).2.2.2.2.1⟩

/-- C15: hand-off between two threads on an empty well-formed queue of
capacity 4 with nobody waiting.  Thread `A` calls get with `TIME_INFINITE` and
sleeps on the threads queue; thread `B` then puts `0x42` with `TIME_INFINITE`:
the put returns `Q_OK`, readies `A` with `Q_OK` and leaves the threads queue
empty.  With that put as what happens during the sleep of `A`, the get of `A`
returns `0x42`, and then the counter is 0, the threads queue is empty and the
only thread readied since the start is `A`, once. -/
theorem blocking_handoff (A B : Nat) (k : World) (h : WF 4 k)
    (hempty : k.sq.q_counter = 0) (hnobody : k.sq.q_waiting = []) :
    chSymQGetTimeout A TIME_INFINITE k [] = ⟨.asleep, parked A k, []⟩ ∧
    (parked A k).sq.q_waiting = [A] ∧
    (chSymQPutTimeout B 0x42 TIME_INFINITE (parked A k) []).reply = .msg Q_OK ∧
    (chSymQPutTimeout B 0x42 TIME_INFINITE (parked A k) []).k.rdy = k.rdy ++ [(A, Q_OK)] ∧
    (chSymQPutTimeout B 0x42 TIME_INFINITE (parked A k) []).k.sq.q_waiting = [] ∧
    (chSymQGetTimeout A TIME_INFINITE k
      [⟨Q_OK, fun x => (chSymQPutTimeout B 0x42 TIME_INFINITE x []).k⟩]).reply = .msg 0x42 ∧
    (chSymQGetTimeout A TIME_INFINITE k
      [⟨Q_OK, fun x => (chSymQPutTimeout B 0x42 TIME_INFINITE x []).k⟩]).k.sq.q_counter = 0 ∧
    (chSymQGetTimeout A TIME_INFINITE k
      [⟨Q_OK, fun x => (chSymQPutTimeout B 0x42 TIME_INFINITE x []).k⟩]).k.sq.q_waiting = [] ∧
    (chSymQGetTimeout A TIME_INFINITE k
      [⟨Q_OK, fun x => (chSymQPutTimeout B 0x42 TIME_INFINITE x []).k⟩]).k.rdy
        = k.rdy ++ [(A, Q_OK)] ∧
    (chSymQGetTimeout A TIME_INFINITE k
      [⟨Q_OK, fun x => (chSymQPutTimeout B 0x42 TIME_INFINITE x []).k⟩]).ws = [] := by
  have ht : TIME_INFINITE ≠ TIME_IMMEDIATE := by decide
  obtain ⟨h1, h2, h3, h4, h5, h6, h7, h8⟩ := h
  have hput : chSymQPutTimeout B 0x42 TIME_INFINITE (parked A k) []
      = ⟨.msg Q_OK, pushed 0x42 (parked A k), []⟩ :=
    put_nowait B 0x42 TIME_INFINITE (parked A k) [] (by
      simp only [parked, chSymQSizeI, hempty]; omega)
  have hwr : k.sq.q_wrptr = k.sq.q_rdptr := by omega
  have hres : resumed A ⟨Q_OK, fun x => (chSymQPutTimeout B 0x42 TIME_INFINITE x []).k⟩ k
      = pushed 0x42 (parked A k) := by
    rw [resumed_eq]
    simp only [hput]
    simp [pushed, parked, queue_insert, hnobody]
  have hget : chSymQGetTimeout A TIME_INFINITE k
      [⟨Q_OK, fun x => (chSymQPutTimeout B 0x42 TIME_INFINITE x []).k⟩]
      = ⟨.msg (((pushed 0x42 (parked A k)).mem (pushed 0x42 (parked A k)).sq.q_rdptr).val : Int),
          popped (pushed 0x42 (parked A k)), []⟩ := by
    rw [get_eq, get_empty_woken A TIME_INFINITE k _ [] ht hempty,
      if_neg (show ¬ (Q_OK : Int) < Q_OK by decide), hres,
      waitWhile_false]
    simp [chSymQIsEmptyI, pushed, parked, hempty]
  refine ⟨get_empty_asleep A TIME_INFINITE k ht hempty, ?_, ?_, ?_, ?_, ?_, ?_, ?_, ?_, ?_⟩
  · simp [parked, queue_insert, hnobody]
  · rw [hput]
  · rw [hput]; simp [pushed, parked, queue_insert, hnobody]
  · rw [hput]; simp [pushed, parked, queue_insert, hnobody]
  · rw [hget]; simp [pushed, parked, store, hwr]; rfl
  · rw [hget]; simp [popped, pushed, parked, hempty]
  · rw [hget]; simp [popped, pushed, parked, queue_insert, hnobody]
  · rw [hget]; simp [popped, pushed, parked, queue_insert, hnobody]
  · rw [hget]

/-- Instance of C15: threads 1 and 2 on a queue of capacity 4 at address 200. -/
theorem blocking_handoff_witness :
    WF 4 fourWorld ∧ fourWorld.sq.q_counter = 0 ∧ fourWorld.sq.q_waiting = [] ∧
    (chSymQGetTimeout 1 TIME_INFINITE fourWorld [putWake]).reply = .msg 0x42 ∧
    (chSymQGetTimeout 1 TIME_INFINITE fourWorld [putWake]).k.sq.q_counter = 0 ∧
    (chSymQGetTimeout 1 TIME_INFINITE fourWorld [putWake]).k.rdy = [(1, Q_OK)] :=
  have h := blocking_handoff 1 2 fourWorld (by decide) (by decide) (by decide)
  ⟨by decide, by decide, by decide, h.2.2.2.2.2.1, h.2.2.2.2.2.2.1, h.2.2.2.2.2.2.2.2.1⟩

/-! ## The masking operations of the simulator port -/

theorem port_lock_ok (o : SigCalls) (p : PortState) (hf : o.fill_ret = 0)
    (hm : o.mask_ret = 0) :
    port_lock o p
      = .done { p with sigmask := fun s => p.sigmask s || (!reservedSignal s && blockable s),
                       port_irq_sts := 1 } := by
  simp [port_lock, sigfillset, sigprocmask, hf, hm]

theorem port_unlock_ok (o : SigCalls) (p : PortState) (hf : o.fill_ret = 0)
    (hm : o.mask_ret = 0) :
    port_unlock o p
      = .done { p with sigmask := fun s => p.sigmask s && reservedSignal s,
                       port_irq_sts := 0 } := by
  simp [port_unlock, sigfillset, sigprocmask, hf, hm]

/-- C16, counterexample: with signal 10 blocked before `port_lock`, the pair
`port_lock`, `port_unlock` (all library calls succeeding, no halt) ends with
signal 10 unblocked: the set of blocked signals is not the one before the lock.
And after `port_lock` alone `SIGKILL` and `SIGSTOP` are not blocked. -/
theorem lock_unlock_loses_mask :
    port10.port_irq_sts = 0 ∧ port10.sigmask 10 = true ∧
    (port_lock sigOk port10).halted = false ∧
    (port_unlock sigOk (port_lock sigOk port10).state).halted = false ∧
    (port_unlock sigOk (port_lock sigOk port10).state).state.sigmask 10 = false ∧
    (port_unlock sigOk (port_lock sigOk port10).state).state.sigmask ≠ port10.sigmask ∧
    (port_lock sigOk port10).state.sigmask SIGKILL = false ∧
    (port_lock sigOk port10).state.sigmask SIGSTOP = false := by
  refine ⟨rfl, by decide, by decide, by decide, by decide, ?_, by decide, by decide⟩
  intro h
  have h10 := congrFun h 10
  revert h10
  decide

/-- C16, amended: from an unlocked port state with any set of blocked signals,
the library calls succeeding, `port_lock` returns with `port_irq_sts = 1` and
every signal blocked other than `SIGKILL`, `SIGSTOP` and the two reserved
signals, which keep their status; `port_unlock` after it returns with
`port_irq_sts = 0` and every signal unblocked other than the two reserved
ones, which keep their status, the ISR flag untouched; this is the state
before the lock exactly when no signal other than the reserved ones was
blocked then. -/
theorem lock_unlock_pair (o1 o2 : SigCalls) (p : PortState) (hunlocked : p.port_irq_sts = 0)
    (hf1 : o1.fill_ret = 0) (hm1 : o1.mask_ret = 0)
    (hf2 : o2.fill_ret = 0) (hm2 : o2.mask_ret = 0) :
    port_lock o1 p
      = .done { p with sigmask := fun s => p.sigmask s || (!reservedSignal s && blockable s),
                       port_irq_sts := 1 } ∧
    (port_lock o1 p).state.port_irq_sts = 1 ∧
    (∀ s, s ≠ SIGKILL → s ≠ SIGSTOP → reservedSignal s = false →
      (port_lock o1 p).state.sigmask s = true) ∧
    (∀ s, s = SIGKILL ∨ s = SIGSTOP ∨ reservedSignal s = true →
      (port_lock o1 p).state.sigmask s = p.sigmask s) ∧
    port_unlock o2 (port_lock o1 p).state
      = .done { p with sigmask := fun s => p.sigmask s && reservedSignal s } ∧
    (port_unlock o2 (port_lock o1 p).state).state.port_irq_sts = 0 ∧
    (∀ s, reservedSignal s = false →
      (port_unlock o2 (port_lock o1 p).state).state.sigmask s = false) ∧
    (∀ s, reservedSignal s = true →
      (port_unlock o2 (port_lock o1 p).state).state.sigmask s = p.sigmask s) ∧
    (port_unlock o2 (port_lock o1 p).state).state.port_isr_context_flag
      = p.port_isr_context_flag ∧
    ((port_unlock o2 (port_lock o1 p).state).state.sigmask = p.sigmask ↔
      ∀ s, reservedSignal s = false → p.sigmask s = false) := by
  have hl := port_lock_ok o1 p hf1 hm1
  have hu := port_unlock_ok o2 (port_lock o1 p).state hf2 hm2
  rw [hl] at hu ⊢
  have hu1 : port_unlock o2
        (PortResult.done
          { p with sigmask := fun s => p.sigmask s || (!reservedSignal s && blockable s),
                   port_irq_sts := 1 }).state
      = .done { p with sigmask := fun s => p.sigmask s && reservedSignal s } := by
    rw [hu]
    rcases p with ⟨sts, flag, mask⟩
    simp only at hunlocked
    subst hunlocked
    simp only [PortResult.state, PortResult.done.injEq, PortState.mk.injEq, true_and]
    funext s
    cases mask s <;> cases reservedSignal s <;> cases blockable s <;> rfl
  rw [hu1]
  refine ⟨rfl, rfl, ?_, ?_, rfl, hunlocked, ?_, ?_, rfl, ?_⟩
  · intro s h1 h2 h3
    simp [PortResult.state, h3, blockable, h1, h2]
  · intro s h
    rcases h with h | h | h
    · simp [PortResult.state, blockable, h]
    · simp [PortResult.state, blockable, h]
    · simp [PortResult.state, h]
  · intro s h
    simp [PortResult.state, h]
  · intro s h
    simp [PortResult.state, h]
  · simp only [PortResult.state]
    constructor
    · intro h s hs
      have := congrFun h s
      simp only [hs, Bool.and_false] at this
      exact this.symm
    · intro h
      funext s
      cases hs : reservedSignal s
      · simp [h s hs]
      · simp

/-- Instance of C16 (amended) on a state with signal 10 blocked. -/
theorem lock_unlock_pair_witness :
    port10.port_irq_sts = 0 ∧ sigOk.fill_ret = 0 ∧ sigOk.mask_ret = 0 ∧
    (port_lock sigOk port10).state.port_irq_sts = 1 ∧
    (port_lock sigOk port10).state.sigmask 11 = true ∧
    (∀ s, reservedSignal s = false →
      (port_unlock sigOk (port_lock sigOk port10).state).state.sigmask s = false) :=
  have h := lock_unlock_pair sigOk sigOk port10 rfl rfl rfl rfl rfl
  ⟨rfl, rfl, rfl, h.2.1, h.2.2.1 11 (by decide) (by decide) (by decide), h.2.2.2.2.2.2.1⟩

/-- C17, the code at the failing input: when `sigprocmask` fails with -1 (the
signal set having been built), none of the seven masking operations halts;
each returns with the signal mask as it was and `port_irq_sts` set as after a
success. -/
theorem sigprocmask_failure_goes_unnoticed (T : Nat) (junk : sigset_t) (p : PortState) :
    port_lock ⟨0, 0, -1, junk⟩ p = .done { p with port_irq_sts := 1 } ∧
    port_unlock ⟨0, 0, -1, junk⟩ p = .done { p with port_irq_sts := 0 } ∧
    port_lock_from_isr T ⟨0, 0, -1, junk⟩ p = .done { p with port_irq_sts := 1 } ∧
    port_unlock_from_isr T ⟨0, 0, -1, junk⟩ p = .done { p with port_irq_sts := 0 } ∧
    port_disable ⟨0, 0, -1, junk⟩ p = .done { p with port_irq_sts := 1 } ∧
    port_suspend ⟨0, 0, -1, junk⟩ p = .done { p with port_irq_sts := 1 } ∧
    port_enable ⟨0, 0, -1, junk⟩ p = .done { p with port_irq_sts := 0 } := by
  refine ⟨?_, ?_, ?_, ?_, ?_, ?_, ?_⟩ <;>
    simp [port_lock, port_unlock, port_lock_from_isr, port_unlock_from_isr, port_disable,
      port_suspend, port_enable, sigfillset, sigdelset, sigprocmask]

/-- Failures in building the signal set are caught: when `sigfillset` returns a
negative value, or `sigdelset` a value other than 0 in the ISR variants, the
operation halts. -/
theorem set_building_failure_halts (T : Nat) (op : PortOp) (o : SigCalls) (p : PortState)
    (h : o.fill_ret < 0 ∨
      ((op = .lock_from_isr ∨ op = .unlock_from_isr) ∧ 0 ≤ o.fill_ret ∧ o.del_ret ≠ 0)) :
    (op.exec T o p).halted = true := by
  rcases h with h | ⟨hop, h1, h2⟩
  · cases op <;>
      simp [PortOp.exec, port_lock, port_unlock, port_lock_from_isr, port_unlock_from_isr,
        port_disable, port_suspend, port_enable, sigfillset, h, PortResult.halted]
  · have h3 : ¬ o.fill_ret < 0 := by omega
    rcases hop with hop | hop <;> subst hop <;>
      simp [PortOp.exec, port_lock_from_isr, port_unlock_from_isr, sigfillset, sigdelset, h3,
        h2, PortResult.halted]

/-- C19: for every port state and every outcome of the library calls,
`port_disable` and `port_suspend` end as `port_lock` does and `port_enable` as
`port_unlock` does: same state, same halt or return, same halt reason. -/
theorem global_masking_is_lock_unlock (o : SigCalls) (p : PortState) :
    port_disable o p = port_lock o p ∧
    port_suspend o p = port_lock o p ∧
    port_enable o p = port_unlock o p :=
  ⟨rfl, rfl, rfl⟩

theorem exec_keeps_flag (T : Nat) (op : PortOp) (o : SigCalls) (p : PortState) :
    (op.exec T o p).state.port_isr_context_flag = p.port_isr_context_flag := by
  cases op <;>
    simp only [PortOp.exec, port_lock, port_unlock, port_lock_from_isr, port_unlock_from_isr,
      port_disable, port_suspend, port_enable] <;>
    (repeat' split) <;> rfl

theorem runPort_keeps_flag (T : Nat) :
    ∀ (ops : List (PortOp × SigCalls)) (p : PortState),
      (runPort T ops p).state.port_isr_context_flag = p.port_isr_context_flag
  | [], _ => rfl
  | (op, o) :: rest, p => by
    have h := exec_keeps_flag T op o p
    rw [runPort]
    cases hr : op.exec T o p with
    | done p1 =>
      rw [hr] at h
      simp only []
      rw [runPort_keeps_flag T rest p1]; exact h
    | halt reason p1 =>
      rw [hr] at h
      exact h

/-- C20: `port_is_isr_context` is false after `port_init`; after
`PORT_IRQ_PROLOGUE` it is true and stays true through any masking operations
of the handler, whatever the library answers; it is false after
`PORT_IRQ_EPILOGUE`, which returns what `chSchIsPreemptionRequired` answers;
and no lock, unlock, disable, suspend or enable operation changes it. -/
theorem isr_context_flag_tracks_handler (T : Nat) (p : PortState) :
    port_is_isr_context (port_init p) = false ∧
    port_is_isr_context (PORT_IRQ_PROLOGUE p) = true ∧
    (∀ ops : List (PortOp × SigCalls),
      port_is_isr_context (runPort T ops (PORT_IRQ_PROLOGUE p)).state = true) ∧
    (∀ (ops : List (PortOp × SigCalls)) (preempt : Bool),
      port_is_isr_context
          (PORT_IRQ_EPILOGUE preempt (runPort T ops (PORT_IRQ_PROLOGUE p)).state).2 = false ∧
        (PORT_IRQ_EPILOGUE preempt (runPort T ops (PORT_IRQ_PROLOGUE p)).state).1 = preempt) ∧
    (∀ (op : PortOp) (o : SigCalls),
      port_is_isr_context (op.exec T o p).state = port_is_isr_context p) ∧
    (∀ ops : List (PortOp × SigCalls),
      port_is_isr_context (runPort T ops p).state = port_is_isr_context p) := by
  refine ⟨rfl, rfl, ?_, fun _ _ => ⟨rfl, rfl⟩, ?_, ?_⟩
  · intro ops
    exact runPort_keeps_flag T ops (PORT_IRQ_PROLOGUE p)
  · intro op o
    exact exec_keeps_flag T op o p
  · intro ops
    exact runPort_keeps_flag T ops p

/-! ## Interrupt status word, context setup and switch of the simulator port -/

/-- C21, the code at the failing input: `port_get_irq_status` returns 0 in
every port state, so `port_irq_enabled` of it is true also right after
`port_lock`, `port_disable` and `port_suspend` have set `port_irq_sts` to 1
(the library calls succeeding). -/
theorem irq_status_word_is_constant (o : SigCalls) (p : PortState) :
    port_get_irq_status p = 0 ∧
    port_irq_enabled (port_get_irq_status p) = true ∧
    port_irq_enabled (port_get_irq_status (port_lock o p).state) = true ∧
    port_irq_enabled (port_get_irq_status (port_disable o p).state) = true ∧
    port_irq_enabled (port_get_irq_status (port_suspend o p).state) = true ∧
    (port_lock sigOk p).state.port_irq_sts = 1 ∧
    port_irq_enabled (port_lock sigOk p).state.port_irq_sts = false :=
  ⟨rfl, rfl, rfl, rfl, rfl, rfl, rfl⟩

/-- C22: `PORT_SETUP_CONTEXT` calls `chSysHalt` exactly when `getcontext`
returns a negative value; otherwise the context of the thread has stack base
`workspace`, stack size `wsize`, stack flags 0, `pf` and `arg` (as 32 bit
values, the addresses themselves when they are below `2 ^ 32`) in `ECX` and
`EDX`, and is resumed in `_port_thread_start`. -/
theorem setup_context_result (ret : Int) (cur uc : ucontext_t)
    (start workspace wsize pf arg : Nat) :
    ((∃ r u, PORT_SETUP_CONTEXT ret cur start uc workspace wsize pf arg = .halt r u) ↔ ret < 0) ∧
    (ret < 0 →
      PORT_SETUP_CONTEXT ret cur start uc workspace wsize pf arg
        = .halt .getcontext_failed uc) ∧
    (0 ≤ ret → ∃ u,
      PORT_SETUP_CONTEXT ret cur start uc workspace wsize pf arg = .done u ∧
      u.ss_sp = workspace ∧ u.ss_size = wsize ∧ u.ss_flags = 0 ∧
      u.gregs_ECX = pf % 2 ^ 32 ∧ u.gregs_EDX = arg % 2 ^ 32 ∧
      (pf < 2 ^ 32 → u.gregs_ECX = pf) ∧ (arg < 2 ^ 32 → u.gregs_EDX = arg) ∧
      u.resume = start) := by
  by_cases h : ret < 0
  · have h0 : ret ≠ 0 := by omega
    have hh : PORT_SETUP_CONTEXT ret cur start uc workspace wsize pf arg
        = .halt .getcontext_failed uc := by
      simp [PORT_SETUP_CONTEXT, getcontext, h, h0]
    refine ⟨⟨fun _ => h, fun _ => ⟨_, _, hh⟩⟩, fun _ => hh, fun h1 => absurd h (by omega)⟩
  · have hd : PORT_SETUP_CONTEXT ret cur start uc workspace wsize pf arg
        = .done (makecontext
            { (getcontext ret cur uc).2 with
              ss_sp := workspace, ss_size := wsize, ss_flags := 0,
              gregs_ECX := pf % 2 ^ 32, gregs_EDX := arg % 2 ^ 32 } start) := by
      simp [PORT_SETUP_CONTEXT, getcontext, h]
    refine ⟨⟨?_, fun h1 => absurd h1 h⟩, fun h1 => absurd h1 h, fun _ => ⟨_, hd, rfl, rfl, rfl,
      rfl, rfl, ?_, ?_, rfl⟩⟩
    · rintro ⟨r, u, hru⟩
      rw [hd] at hru
      exact absurd hru (by simp)
    · intro hpf; exact Nat.mod_eq_of_lt hpf
    · intro harg; exact Nat.mod_eq_of_lt harg

/-- Instance of C22: `getcontext` succeeds, the thread function is at
`0x8048000` and its argument at `0x9000`. -/
theorem setup_context_result_witness :
    (0 : Int) ≤ 0 ∧
    PORT_SETUP_CONTEXT 0 someContext 0x8040000 ⟨0, 0, 0, 0, 0, 0⟩ 0x20000 4096 0x8048000 0x9000
      = .done ⟨0x20000, 4096, 0, 0x8048000, 0x9000, 0x8040000⟩ ∧
    PORT_SETUP_CONTEXT (-1) someContext 0x8040000 ⟨0, 0, 0, 0, 0, 0⟩ 0x20000 4096 0x8048000
        0x9000
      = .halt .getcontext_failed ⟨0, 0, 0, 0, 0, 0⟩ :=
  ⟨by decide, by decide,
    (setup_context_result (-1) someContext ⟨0, 0, 0, 0, 0, 0⟩ 0x8040000 0x20000 4096 0x8048000
      0x9000).2.1 (by decide)⟩

/-- C23, counterexample: the header is rejected when stack checking is
enabled; and in the checking variant of `port_switch`, for a thread whose stack
region is `[1000, 2000)`, a stack pointer of 2500, outside the region, gives
the switch without a halt, while a stack pointer of 1100, inside the region
(the saved context taking 348 bytes), gives the halt. -/
theorem stack_check_not_as_claimed :
    chcore_h_accepted true true = false ∧
    ¬ (1000 ≤ 2500 ∧ 2500 < 1000 + 1000) ∧
    port_switch true 348 2500 1000 1 2 = .switched 1 2 ∧
    (1000 ≤ 1100 ∧ 1100 < 1000 + 1000) ∧
    port_switch true 348 1100 1000 1 2 = .halt .stack_overflow := by
  refine ⟨rfl, by decide, by decide, by decide, by decide⟩

/-- C23, amended: the port does not support stack checking, the header is
rejected when `CH_DBG_ENABLE_STACK_CHECK` is set; in the variant that is
compiled `port_switch(ntp, otp)` is `_port_switch(ntp, otp)` for every stack
pointer, without check or halt.  The checking variant that the header still
contains halts, before `_port_switch`, exactly when `sp - 1` (the stack
pointer less the size of a saved context) is below `otp->p_stklimit`, and
performs the switch otherwise; it has no test against the upper end of the
stack region. -/
theorem switch_without_stack_check (g : Bool) (ctxsize sp p_stklimit ntp otp : Nat) :
    chcore_h_accepted true g = false ∧
    port_switch false ctxsize sp p_stklimit ntp otp = .switched ntp otp ∧
    (port_switch true ctxsize sp p_stklimit ntp otp = .halt .stack_overflow ↔
      (sp : Int) - (ctxsize : Int) < (p_stklimit : Int)) ∧
    (port_switch true ctxsize sp p_stklimit ntp otp = .switched ntp otp ↔
      (p_stklimit : Int) ≤ (sp : Int) - (ctxsize : Int)) := by
  refine ⟨rfl, rfl, ?_, ?_⟩
  · by_cases h : (sp : Int) - (ctxsize : Int) < (p_stklimit : Int)
    · simp [port_switch, h]
    · simp [port_switch, h]
  · by_cases h : (sp : Int) - (ctxsize : Int) < (p_stklimit : Int)
    · simp [port_switch, h]
    · simp only [port_switch, h]
      simp
      omega

/-! ## The tools of `nvm_tools.c` -/

/-- C24, the code at the failing input: on two devices with equal content and
no read error `nvmcmp` returns 0, which is false (also for `n = 0`); on
devices that differ at address 1 it returns 1 and on a read error -1, which
are both true. -/
theorem nvmcmp_zero_when_equal :
    (nvmcmp devOnes devOnes 3).1 = 0 ∧
    (nvmcmp devOnes devTwo 0).1 = 0 ∧
    (nvmcmp devOnes devTwo 1).1 = 0 ∧
    (nvmcmp devOnes devTwo 3).1 = 1 ∧
    (nvmcmp devOnes devBroken 3).1 = -1 := by
  refine ⟨by decide, by decide, by decide, by decide, by decide⟩

theorem nvmRead_fails (dev : NVMDevice) (startaddr n : Nat) :
    (nvmRead dev startaddr n).2.2.fails = dev.fails := by
  unfold nvmRead; split <;> rfl

theorem nvmWrite_fails (dev : NVMDevice) (startaddr n : Nat) (data : List uint8_t) :
    (nvmWrite dev startaddr n data).2.fails = dev.fails := by
  unfold nvmWrite; split <;> rfl

theorem nvmRead_ok (dev : NVMDevice) (startaddr n : Nat)
    (h : dev.fails (.read startaddr n) = false) :
    (nvmRead dev startaddr n).1 = HAL_SUCCESS := by
  simp [nvmRead, h]

theorem nvmWrite_ok (dev : NVMDevice) (startaddr n : Nat) (data : List uint8_t)
    (h : dev.fails (.write startaddr n (data.take n)) = false) :
    (nvmWrite dev startaddr n data).1 = HAL_SUCCESS := by
  simp [nvmWrite, h]

/-- With alignment 2 and `n = 2 ^ 32 - 1` the index of the copy loop stays even
and below `n` for ever: after `0xFFFFFFFE` it is 0 again. -/
theorem nvmcpyLoop_wraps :
    ∀ (fuel i : Nat) (dst src : NVMDevice), i % 2 = 0 → i < 2 ^ 32 →
      (∀ r, dst.fails r = false) → (∀ r, src.fails r = false) →
      nvmcpyLoop 2 (2 ^ 32 - 1) fuel i dst src = .running := by
  intro fuel
  induction fuel with
  | zero => intro i dst src _ _ _ _; rfl
  | succ fuel ih =>
    intro i dst src h2 hlt hd hs
    have hin : i < 2 ^ 32 - 1 := by omega
    have hr := nvmRead_ok src i (if 2 ^ 32 - 1 - i < 2 then 2 ^ 32 - 1 - i else 2) (hs _)
    rw [nvmcpyLoop]
    simp only [hin, if_true, hr, bne_self_eq_false, Bool.false_eq_true, if_false]
    rw [nvmWrite_ok _ _ _ _ (hd _)]
    simp only [bne_self_eq_false, Bool.false_eq_true, if_false]
    apply ih
    · omega
    · omega
    · intro r; rw [nvmWrite_fails]; exact hd r
    · intro r; rw [nvmRead_fails]; exact hs r

theorem chunk_getD (c a k : Nat) (f : Nat → uint8_t) (d : uint8_t) (hk : k < c) (hc : c ≤ a) :
    (((List.range c).map f ++ List.replicate (4 - c) (0xff : uint8_t)).take a).getD k d = f k := by
  have hka : k < a := by omega
  rw [List.getD_eq_getElem?_getD, List.getElem?_take_of_lt hka,
    List.getElem?_append_left (by simpa using hk)]
  simp [hk]

theorem nvmRead_mem (dev : NVMDevice) (startaddr n : Nat) :
    (nvmRead dev startaddr n).2.2.mem = dev.mem := by
  unfold nvmRead; split <;> rfl

theorem nvmRead_data (dev : NVMDevice) (startaddr n : Nat)
    (h : dev.fails (.read startaddr n) = false) :
    (nvmRead dev startaddr n).2.1 = (List.range n).map (fun j => dev.mem (startaddr + j)) := by
  simp [nvmRead, h]

theorem nvmWrite_mem (dev : NVMDevice) (startaddr n : Nat) (data : List uint8_t)
    (h : dev.fails (.write startaddr n (data.take n)) = false) (x : Nat) :
    (nvmWrite dev startaddr n data).2.mem x =
      if startaddr ≤ x ∧ x < startaddr + n then (data.take n).getD (x - startaddr) (dev.mem x)
      else dev.mem x := by
  simp [nvmWrite, h]

/-- While the index cannot wrap (`n + a ≤ 2 ^ 32`) and no request fails, the
copy loop returns true and the first `n` bytes of the destination are those of
the source; the source memory is as before. -/
theorem nvmcpyLoop_copies (a n : Nat) (ha : 0 < a) (hn : n + a ≤ 2 ^ 32) :
    ∀ (fuel i : Nat) (dst src : NVMDevice), n + 1 ≤ i + fuel → 0 < fuel → i < n + a →
      (∀ r, dst.fails r = false) → (∀ r, src.fails r = false) →
      (∀ j, j < i → j < n → dst.mem j = src.mem j) →
      ∃ dst1 src1, nvmcpyLoop a n fuel i dst src = .ret true dst1 src1 ∧
        (∀ j, j < n → dst1.mem j = src.mem j) ∧ src1.mem = src.mem := by
  intro fuel
  induction fuel with
  | zero => intro i dst src _ h; omega
  | succ fuel ih =>
    intro i dst src hfuel _ hi hd hs hinv
    by_cases hin : i < n
    · have hr := nvmRead_ok src i (if n - i < a then n - i else a) (hs _)
      rw [nvmcpyLoop]
      simp only [hin, if_true, hr, bne_self_eq_false, Bool.false_eq_true, if_false]
      rw [nvmWrite_ok _ _ _ _ (hd _)]
      simp only [bne_self_eq_false, Bool.false_eq_true, if_false]
      have hmod : (i + a) % 2 ^ 32 = i + a := Nat.mod_eq_of_lt (by omega)
      rw [hmod]
      have hinv1 : ∀ j, j < i + a → j < n →
          (nvmWrite dst i a ((nvmRead src i (if n - i < a then n - i else a)).2.1 ++
            List.replicate (4 - if n - i < a then n - i else a) (0xff : uint8_t))).2.mem j =
          (nvmRead src i (if n - i < a then n - i else a)).2.2.mem j := by
        intro j hj hjn
        rw [nvmWrite_mem _ _ _ _ (hd _), nvmRead_mem, nvmRead_data _ _ _ (hs _)]
        by_cases hji : i ≤ j
        · rw [if_pos ⟨hji, hj⟩]
          have hk : j - i < (if n - i < a then n - i else a) := by split <;> omega
          have hc : (if n - i < a then n - i else a) ≤ a := by split <;> omega
          rw [chunk_getD _ _ _ _ _ hk hc]
          congr 1; omega
        · rw [if_neg (by omega)]
          exact hinv j (by omega) hjn
      obtain ⟨dst1, src1, he, hc, hsrc⟩ := ih (i + a) _ _ (by omega) (by omega) (by omega)
        (fun r => by rw [nvmWrite_fails]; exact hd r)
        (fun r => by rw [nvmRead_fails]; exact hs r) hinv1
      refine ⟨dst1, src1, he, ?_, ?_⟩
      · intro j hj
        rw [hc j hj, nvmRead_mem]
      · rw [hsrc, nvmRead_mem]
    · rw [nvmcpyLoop]
      simp only [hin, if_false]
      exact ⟨dst, src, rfl, fun j hj => hinv j (by omega) hj, rfl⟩

/-- The function `nvmcpy` away from the wrap-around: with `n` plus the write
alignment at most `2 ^ 32`, no request failing and `n + 1` loop turns, it
returns true and the first `n` bytes of the destination equal the source. -/
theorem nvmcpy_copies_in_range (di : NVMDeviceInfo) (dst src : NVMDevice) (n : Nat)
    (hd : ∀ r, dst.fails r = false) (hs : ∀ r, src.fails r = false)
    (ha : dst.info.write_alignment ≤ 4) (hn : n + 4 ≤ 2 ^ 32) :
    ∃ dst1 src1, nvmcpy (n + 1) di dst src n = .ret true dst1 src1 ∧
      (∀ j, j < n → dst1.mem j = src.mem j) ∧ src1.mem = src.mem := by
  have hg : nvmGetInfo dst di = (HAL_SUCCESS, dst.info, { dst with log := dst.log ++ [.get_info] }) := by
    simp [nvmGetInfo, hd]
  unfold nvmcpy
  simp only [hg, bne_self_eq_false, Bool.false_eq_true, if_false, ha, not_true_eq_false]
  apply nvmcpyLoop_copies
  · split <;> omega
  · split <;> omega
  · omega
  · omega
  · split <;> omega
  · exact hd
  · exact hs
  · intro j hj; omega

/-- C25, the code at the failing input: copying `n = 0xFFFFFFFF` bytes to a
device of write alignment 2, no request failing, never returns, whatever the
number of loop turns allowed. -/
theorem nvmcpy_never_returns (fuel : Nat) (di : NVMDeviceInfo) (mem1 mem2 : Nat → uint8_t)
    (log1 log2 : List NVMRequest) (ssize snum : Nat) (ident : List uint8_t)
    (srcinfo : NVMDeviceInfo) :
    nvmcpy fuel di ⟨mem1, ⟨ssize, snum, ident, 2⟩, fun _ => false, log1⟩
      ⟨mem2, srcinfo, fun _ => false, log2⟩ 0xFFFFFFFF = .running := by
  simp only [nvmcpy, nvmGetInfo, bne_self_eq_false, Bool.false_eq_true, if_false]
  simp only [show ¬ ¬ (2 : Nat) ≤ 4 by decide, if_false, show ¬ (2 : Nat) = 0 by decide]
  exact nvmcpyLoop_wraps fuel 0 _ _ rfl (by decide) (fun _ => rfl) (fun _ => rfl)

/-- C26, the code at the failing input: on a device that fails no request,
whatever its content, geometry and write alignment, `nvmset` returns false
right after `nvmGetInfo` succeeded; the device has received that request only
and its content is unchanged. -/
theorem nvmset_gives_up_on_success (fuel : Nat) (di : NVMDeviceInfo) (mem : Nat → uint8_t)
    (info : NVMDeviceInfo) (log : List NVMRequest) (pattern : uint8_t) (n : Nat) :
    nvmset fuel di ⟨mem, info, fun _ => false, log⟩ pattern n
      = .ret false ⟨mem, info, fun _ => false, log ++ [.get_info]⟩ := by
  simp [nvmset, nvmGetInfo]

/-! ## The partition driver -/

/-- C27, the code at the failing input: on the started partition
`[0x1000, 0x2000)`, `startaddr = 0xFFFFFFFF` and `n = 2` pass the range check
(the 32 bit sum is 1) and each of the five functions hands the range
`[0xFFF, 0x1001)` to the underlying device, which begins below the partition. -/
theorem partition_range_check_wraps :
    Started drvStarted cfg16 ∧ drvStarted.part_org = 0x1000 ∧ drvStarted.part_size = 0x1000 ∧
    (0xFFFFFFFF + 2) % 2 ^ 32 ≤ drvStarted.part_size ∧
    (nvmpartRead drvStarted devOnes 0xFFFFFFFF 2).requests = [.read 0xFFF 2] ∧
    (nvmpartWrite drvStarted devOnes 0xFFFFFFFF 2 [7, 8]).requests = [.write 0xFFF 2 [7, 8]] ∧
    (nvmpartErase drvStarted devOnes 0xFFFFFFFF 2).requests = [.erase 0xFFF 2] ∧
    (nvmpartWriteProtect drvStarted devOnes 0xFFFFFFFF 2).requests = [.writeprotect 0xFFF 2] ∧
    (nvmpartWriteUnprotect drvStarted devOnes 0xFFFFFFFF 2).requests
      = [.writeunprotect 0xFFF 2] ∧
    (0xFFF : Nat) < drvStarted.part_org := by
  refine ⟨by decide, rfl, rfl, by decide, by decide, by decide, by decide, by decide, by decide,
    by decide⟩

/-- Without wrap-around the range handed down is inside the partition: when
`startaddr + n` itself is at most `part_size` and the partition ends at or
below `2 ^ 32`, the address handed down is `part_org + startaddr` and the
range of `n` bytes from it lies in `[part_org, part_org + part_size)`. -/
theorem partition_range_inside (drv : NVMPartitionDriver) (startaddr n : Nat)
    (h : startaddr + n ≤ drv.part_size) (hend : drv.part_org + drv.part_size ≤ 2 ^ 32)
    (hn : 0 < n) :
    (startaddr + n) % 2 ^ 32 ≤ drv.part_size ∧
    (drv.part_org + startaddr) % 2 ^ 32 = drv.part_org + startaddr ∧
    drv.part_org ≤ (drv.part_org + startaddr) % 2 ^ 32 ∧
    (drv.part_org + startaddr) % 2 ^ 32 + n ≤ drv.part_org + drv.part_size := by
  have h1 : (drv.part_org + startaddr) % 2 ^ 32 = drv.part_org + startaddr :=
    Nat.mod_eq_of_lt (by omega)
  have h2 : (startaddr + n) % 2 ^ 32 ≤ startaddr + n := Nat.mod_le _ _
  refine ⟨by omega, h1, by omega, by omega⟩

theorem nvmpartStart_eq (drv : NVMPartitionDriver) (config : NVMPartitionConfig)
    (dev : NVMDevice) (hstate : drv.state = NVM_STOP ∨ drv.state = NVM_READY) :
    nvmpartStart drv config dev
      = .ret ()
          ⟨NVM_READY, some config, (nvmGetInfo dev drv.llnvmdi).2.1,
            ((nvmGetInfo dev drv.llnvmdi).2.1.sector_size * config.sector_offset) % 2 ^ 32,
            ((nvmGetInfo dev drv.llnvmdi).2.1.sector_size * config.sector_num) % 2 ^ 32⟩
          { dev with log := dev.log ++ [.get_info] } := by
  have hs : ¬ ¬ (drv.state = NVM_STOP ∨ drv.state = NVM_READY) := fun h => h hstate
  simp only [nvmpartStart, hs, if_false]
  congr 1
  unfold nvmGetInfo
  split <;> rfl

/-- C28, counterexample: a device with sectors of 256 bytes whose get-info
fails; `nvmpartStart` on sectors 16 to 31 does not notice, ends in `NVM_READY`
and sets `part_org` and `part_size` to 112, 16 times the sector size 7 left in
the cache of the driver, not to 16 times the sector size of the device. -/
theorem start_ignores_failed_getinfo :
    (drvStale.state = NVM_STOP ∨ drvStale.state = NVM_READY) ∧
    devNoInfo.fails .get_info = true ∧ devNoInfo.info.sector_size = 256 ∧
    (nvmpartStart drvStale cfg16 devNoInfo).driver = some drvStaleStarted ∧
    drvStaleStarted.state = NVM_READY ∧
    drvStaleStarted.part_org = 112 ∧ drvStaleStarted.part_size = 112 ∧
    drvStaleStarted.part_org ≠ (devNoInfo.info.sector_size * cfg16.sector_offset) % 2 ^ 32 ∧
    drvStaleStarted.part_size ≠ (devNoInfo.info.sector_size * cfg16.sector_num) % 2 ^ 32 := by
  refine ⟨by decide, by decide, by decide, by decide, by decide, by decide, by decide,
    by decide, by decide⟩

/-- C28, amended: started from state `NVM_STOP` or `NVM_READY` with any
configuration, `nvmpartStart` returns with the driver in state `NVM_READY`
holding that configuration, whatever the status of its `nvmGetInfo` call,
which it does not look at.  The cached device information is as that call
left it: that of the underlying device when the call succeeded, what the cache
held before when it failed.  `part_org` and `part_size` are the cached sector
size times the sector offset, resp. the sector number, modulo `2 ^ 32`, hence
the exact byte offset and byte length when these products are below `2 ^ 32`;
the device received one get-info request. -/
theorem start_geometry (drv : NVMPartitionDriver) (config : NVMPartitionConfig)
    (dev : NVMDevice) (hstate : drv.state = NVM_STOP ∨ drv.state = NVM_READY) :
    nvmpartStart drv config dev
      = .ret ()
          ⟨NVM_READY, some config, (nvmGetInfo dev drv.llnvmdi).2.1,
            ((nvmGetInfo dev drv.llnvmdi).2.1.sector_size * config.sector_offset) % 2 ^ 32,
            ((nvmGetInfo dev drv.llnvmdi).2.1.sector_size * config.sector_num) % 2 ^ 32⟩
          { dev with log := dev.log ++ [.get_info] } ∧
    (dev.fails .get_info = false → (nvmGetInfo dev drv.llnvmdi).2.1 = dev.info) ∧
    (dev.fails .get_info = true → (nvmGetInfo dev drv.llnvmdi).2.1 = drv.llnvmdi) ∧
    ((nvmGetInfo dev drv.llnvmdi).2.1.sector_size * config.sector_offset < 2 ^ 32 →
      ((nvmGetInfo dev drv.llnvmdi).2.1.sector_size * config.sector_offset) % 2 ^ 32
        = (nvmGetInfo dev drv.llnvmdi).2.1.sector_size * config.sector_offset) ∧
    ((nvmGetInfo dev drv.llnvmdi).2.1.sector_size * config.sector_num < 2 ^ 32 →
      ((nvmGetInfo dev drv.llnvmdi).2.1.sector_size * config.sector_num) % 2 ^ 32
        = (nvmGetInfo dev drv.llnvmdi).2.1.sector_size * config.sector_num) ∧
    Started
      ⟨NVM_READY, some config, (nvmGetInfo dev drv.llnvmdi).2.1,
        ((nvmGetInfo dev drv.llnvmdi).2.1.sector_size * config.sector_offset) % 2 ^ 32,
        ((nvmGetInfo dev drv.llnvmdi).2.1.sector_size * config.sector_num) % 2 ^ 32⟩ config := by
  refine ⟨?_, ?_, ?_, fun h => Nat.mod_eq_of_lt h, fun h => Nat.mod_eq_of_lt h, ?_⟩
  · exact nvmpartStart_eq drv config dev hstate
  · intro h; simp [nvmGetInfo, h]
  · intro h; simp [nvmGetInfo, h]
  · exact ⟨Nat.le_refl _, rfl, rfl, rfl⟩

/-- Instance of C28: sectors 16 to 31 of a device with sectors of 256 bytes. -/
theorem start_geometry_witness :
    (drvStopped.state = NVM_STOP ∨ drvStopped.state = NVM_READY) ∧
    (nvmpartStart drvStopped cfg16 devOnes).driver = some drvStarted :=
  ⟨Or.inl rfl,
    (congrArg PartResult.driver (start_geometry drvStopped cfg16 devOnes (Or.inl rfl)).1).trans
      (by decide)⟩

theorem nvmErase_fails (dev : NVMDevice) (startaddr n : Nat) :
    (nvmErase dev startaddr n).2.fails = dev.fails := by
  unfold nvmErase; split <;> rfl

theorem nvmpartSync_busy (drv : NVMPartitionDriver) (config : NVMPartitionConfig)
    (dev : NVMDevice) (h1 : drv.state ≥ NVM_READY) (hne : drv.state ≠ NVM_READY)
    (h2 : drv.config = some config) (hok : dev.fails .sync = false) :
    nvmpartSync drv dev
      = .ret HAL_SUCCESS { drv with state := NVM_READY }
          { dev with log := dev.log ++ [.sync] } := by
  simp [nvmpartSync, h1, hne, h2, nvmSync, hok]

/-- C29: on a started partition, `nvmpartSync` in state `NVM_READY` returns
`HAL_SUCCESS` and leaves driver and device as they are (the device receives no
request); in another state it sends one sync request to the device, and
returns `HAL_SUCCESS` with the state set to `NVM_READY` when the device
succeeds, the failure with the state unchanged when it fails.  So a write or
an erase that passed the range check, whatever its result, followed by a sync
that the device does not fail, ends in `NVM_READY`. -/
theorem sync_waits_for_idle (drv : NVMPartitionDriver) (config : NVMPartitionConfig)
    (dev : NVMDevice) (hs : Started drv config) :
    (drv.state = NVM_READY → nvmpartSync drv dev = .ret HAL_SUCCESS drv dev) ∧
    (drv.state ≠ NVM_READY → dev.fails .sync = false →
      nvmpartSync drv dev
        = .ret HAL_SUCCESS { drv with state := NVM_READY }
            { dev with log := dev.log ++ [.sync] }) ∧
    (drv.state ≠ NVM_READY → dev.fails .sync = true →
      nvmpartSync drv dev = .ret HAL_FAILED drv { dev with log := dev.log ++ [.sync] }) ∧
    (∀ (startaddr n : Nat) (buffer : List uint8_t),
      (startaddr + n) % 2 ^ 32 ≤ drv.part_size → dev.fails .sync = false →
      ∃ v dev1,
        nvmpartWrite drv dev startaddr n buffer
          = .ret v { drv with state := NVM_WRITING } dev1 ∧
        nvmpartSync { drv with state := NVM_WRITING } dev1
          = .ret HAL_SUCCESS { drv with state := NVM_READY }
              { dev1 with log := dev1.log ++ [.sync] }) ∧
    (∀ (startaddr n : Nat),
      (startaddr + n) % 2 ^ 32 ≤ drv.part_size → dev.fails .sync = false →
      ∃ v dev1,
        nvmpartErase drv dev startaddr n
          = .ret v { drv with state := NVM_ERASING } dev1 ∧
        nvmpartSync { drv with state := NVM_ERASING } dev1
          = .ret HAL_SUCCESS { drv with state := NVM_READY }
              { dev1 with log := dev1.log ++ [.sync] }) := by
  obtain ⟨h1, h2, _, _⟩ := hs
  have hge : ¬ ¬ drv.state ≥ NVM_READY := fun h => h h1
  refine ⟨?_, ?_, ?_, ?_, ?_⟩
  · intro hr
    simp [nvmpartSync, hr]
  · intro hne hok
    exact nvmpartSync_busy drv config dev h1 hne h2 hok
  · intro hne hfail
    simp [nvmpartSync, h1, hne, h2, nvmSync, hfail, HAL_FAILED, HAL_SUCCESS]
  · intro startaddr n buffer hrange hok
    refine ⟨(nvmWrite dev ((drv.part_org + startaddr) % 2 ^ 32) n buffer).1,
      (nvmWrite dev ((drv.part_org + startaddr) % 2 ^ 32) n buffer).2, ?_, ?_⟩
    · simp only [nvmpartWrite, hge, if_false, not_not.2 hrange, h2]
    · exact nvmpartSync_busy { drv with state := NVM_WRITING } config _
        (show NVM_WRITING ≥ NVM_READY by decide) (show NVM_WRITING ≠ NVM_READY by decide)
        h2 (by rw [nvmWrite_fails]; exact hok)
  · intro startaddr n hrange hok
    refine ⟨(nvmErase dev ((drv.part_org + startaddr) % 2 ^ 32) n).1,
      (nvmErase dev ((drv.part_org + startaddr) % 2 ^ 32) n).2, ?_, ?_⟩
    · simp only [nvmpartErase, hge, if_false, not_not.2 hrange, h2]
    · exact nvmpartSync_busy { drv with state := NVM_ERASING } config _
        (show NVM_ERASING ≥ NVM_READY by decide) (show NVM_ERASING ≠ NVM_READY by decide)
        h2 (by rw [nvmErase_fails]; exact hok)

/-- Instance of C29: sync of the example partition in state `NVM_READY`. -/
theorem sync_waits_for_idle_witness :
    Started drvStarted cfg16 ∧ drvStarted.state = NVM_READY ∧
    (nvmpartSync drvStarted devOnes).requests = [] ∧
    (nvmpartSync drvStarted devOnes).value = some HAL_SUCCESS :=
  have h := (sync_waits_for_idle drvStarted cfg16 devOnes (by decide)).1 rfl
  ⟨by decide, rfl, congrArg PartResult.requests h, congrArg PartResult.value h⟩

/-- C30, counterexample: on the partition started on a device whose get-info
failed, `nvmpartGetInfo` returns `HAL_SUCCESS` and reports the sector size 7,
no identification and write alignment 0 left in the cache of the driver, while
the underlying device has sectors of 256 bytes, identification 1, 2, 3 and
write alignment 2. -/
theorem getinfo_reports_stale_cache :
    (nvmpartStart drvStale cfg16 devNoInfo).driver = some drvStaleStarted ∧
    Started drvStaleStarted cfg16 ∧
    (nvmpartGetInfo drvStaleStarted devNoInfo ⟨0, 0, [], 0⟩).value
      = some (HAL_SUCCESS, ⟨7, 16, [], 0⟩) ∧
    devNoInfo.info = ⟨256, 64, [1, 2, 3], 2⟩ ∧
    (7 : Nat) ≠ devNoInfo.info.sector_size ∧
    ([] : List uint8_t) ≠ devNoInfo.info.identification ∧
    (0 : Nat) ≠ devNoInfo.info.write_alignment := by
  refine ⟨by decide, by decide, by decide, by decide, by decide, by decide, by decide⟩

/-- C30, amended: on a started partition `nvmpartGetInfo` returns
`HAL_SUCCESS`, leaves driver and device as they are (the device receives no
request), and reports the sector number of the configuration with the sector
size, identification and write alignment that the driver has cached; the
reported sector number times sector size is `part_size` when that product is
below `2 ^ 32`.  The cached information is that of the underlying device when
the get-info of `nvmpartStart` succeeded, and what the cache held before that
start when it failed. -/
theorem getinfo_reports_geometry (drv : NVMPartitionDriver) (config : NVMPartitionConfig)
    (dev : NVMDevice) (nvmdi : NVMDeviceInfo) (hs : Started drv config) :
    nvmpartGetInfo drv dev nvmdi
      = .ret (HAL_SUCCESS,
          ⟨drv.llnvmdi.sector_size, config.sector_num, drv.llnvmdi.identification,
            drv.llnvmdi.write_alignment⟩) drv dev ∧
    (drv.llnvmdi.sector_size * config.sector_num < 2 ^ 32 →
      config.sector_num * drv.llnvmdi.sector_size = drv.part_size) ∧
    (∀ (drv0 : NVMPartitionDriver) (dev0 : NVMDevice),
      (drv0.state = NVM_STOP ∨ drv0.state = NVM_READY) → dev0.fails .get_info = false →
      ∃ drv1 dev1, nvmpartStart drv0 config dev0 = .ret () drv1 dev1 ∧ Started drv1 config ∧
        nvmpartGetInfo drv1 dev1 nvmdi
          = .ret (HAL_SUCCESS,
              ⟨dev0.info.sector_size, config.sector_num, dev0.info.identification,
                dev0.info.write_alignment⟩) drv1 dev1) ∧
    (∀ (drv0 : NVMPartitionDriver) (dev0 : NVMDevice),
      (drv0.state = NVM_STOP ∨ drv0.state = NVM_READY) → dev0.fails .get_info = true →
      ∃ drv1 dev1, nvmpartStart drv0 config dev0 = .ret () drv1 dev1 ∧ Started drv1 config ∧
        nvmpartGetInfo drv1 dev1 nvmdi
          = .ret (HAL_SUCCESS,
              ⟨drv0.llnvmdi.sector_size, config.sector_num, drv0.llnvmdi.identification,
                drv0.llnvmdi.write_alignment⟩) drv1 dev1) := by
  obtain ⟨h1, h2, _, h4⟩ := hs
  have hge : ¬ ¬ drv.state ≥ NVM_READY := fun h => h h1
  refine ⟨?_, ?_, ?_, ?_⟩
  rotate_left 3
  · intro drv0 dev0 h0 hfail
    refine ⟨_, _, nvmpartStart_eq drv0 config dev0 h0, ⟨Nat.le_refl _, rfl, rfl, rfl⟩, ?_⟩
    simp [nvmpartGetInfo, nvmGetInfo, hfail, NVM_READY]
  · simp only [nvmpartGetInfo, hge, if_false, h2]
  · intro hlt
    rw [h4, Nat.mod_eq_of_lt hlt, Nat.mul_comm]
  · intro drv0 dev0 h0 hok
    refine ⟨_, _, nvmpartStart_eq drv0 config dev0 h0, ⟨Nat.le_refl _, rfl, rfl, rfl⟩, ?_⟩
    simp [nvmpartGetInfo, nvmGetInfo, hok, NVM_READY]

/-- Instance of C30 on the example partition. -/
theorem getinfo_reports_geometry_witness :
    Started drvStarted cfg16 ∧
    (nvmpartGetInfo drvStarted devOnes ⟨0, 0, [], 0⟩).value
      = some (HAL_SUCCESS, ⟨256, 16, [1, 2, 3], 2⟩) ∧
    16 * 256 = drvStarted.part_size :=
  have h := getinfo_reports_geometry drvStarted cfg16 devOnes ⟨0, 0, [], 0⟩ (by decide)
  ⟨by decide, congrArg PartResult.value h.1, h.2.1 (by decide)⟩

/-! ## The scan of `nvmcmp` -/

theorem byteReads_succ (i len : Nat) :
    byteReads i (len + 1) = NVMRequest.read i 1 :: byteReads (i + 1) len := by
  simp [byteReads, List.range']

theorem nvmcmpLoop_scan (n : Nat) (hn : n < 2 ^ 32) :
    ∀ (left i : Nat) (deva devb : NVMDevice), i ≤ n → n - i < left →
      ((nvmcmpLoop n left i deva devb).1 = 0 ∧
        (∀ t, i ≤ t → t < n →
          deva.fails (.read t 1) = false ∧ devb.fails (.read t 1) = false ∧
            deva.mem t = devb.mem t) ∧
        (nvmcmpLoop n left i deva devb).2.1.log = deva.log ++ byteReads i (n - i) ∧
        (nvmcmpLoop n left i deva devb).2.2.log = devb.log ++ byteReads i (n - i)) ∨
      ((nvmcmpLoop n left i deva devb).1 = 1 ∧
        ∃ j, i ≤ j ∧ j < n ∧
          (∀ t, i ≤ t → t < j →
            deva.fails (.read t 1) = false ∧ devb.fails (.read t 1) = false ∧
              deva.mem t = devb.mem t) ∧
          deva.fails (.read j 1) = false ∧ devb.fails (.read j 1) = false ∧
          deva.mem j ≠ devb.mem j ∧
          (nvmcmpLoop n left i deva devb).2.1.log = deva.log ++ byteReads i (j + 1 - i) ∧
          (nvmcmpLoop n left i deva devb).2.2.log = devb.log ++ byteReads i (j + 1 - i)) ∨
      ((nvmcmpLoop n left i deva devb).1 = -1 ∧
        ∃ j, i ≤ j ∧ j < n ∧
          (∀ t, i ≤ t → t < j →
            deva.fails (.read t 1) = false ∧ devb.fails (.read t 1) = false ∧
              deva.mem t = devb.mem t) ∧
          ((deva.fails (.read j 1) = true ∧
              (nvmcmpLoop n left i deva devb).2.1.log = deva.log ++ byteReads i (j + 1 - i) ∧
              (nvmcmpLoop n left i deva devb).2.2.log = devb.log ++ byteReads i (j - i)) ∨
            (deva.fails (.read j 1) = false ∧ devb.fails (.read j 1) = true ∧
              (nvmcmpLoop n left i deva devb).2.1.log = deva.log ++ byteReads i (j + 1 - i) ∧
              (nvmcmpLoop n left i deva devb).2.2.log
                = devb.log ++ byteReads i (j + 1 - i)))) := by
  intro left
  induction left with
  | zero => intro i deva devb _ h; omega
  | succ left ih =>
    intro i deva devb hi hleft
    by_cases hin : i < n
    · have hmod : (i + 1) % 4294967296 = i + 1 := by omega
      cases hfa : deva.fails (.read i 1) with
      | true =>
        refine Or.inr (Or.inr ?_)
        have hr : nvmcmpLoop n (left + 1) i deva devb
            = (-1, { deva with log := deva.log ++ [.read i 1] }, devb) := by
          simp [nvmcmpLoop, hin, nvmRead, hfa, HAL_SUCCESS, HAL_FAILED]
        rw [hr]
        refine ⟨rfl, i, Nat.le_refl _, hin, fun t h1 h2 => absurd h1 (by omega),
          Or.inl ⟨hfa, ?_, ?_⟩⟩
        · simp [byteReads, List.range']
        · simp [byteReads]
      | false =>
        cases hfb : devb.fails (.read i 1) with
        | true =>
          refine Or.inr (Or.inr ?_)
          have hr : nvmcmpLoop n (left + 1) i deva devb
              = (-1, { deva with log := deva.log ++ [.read i 1] },
                  { devb with log := devb.log ++ [.read i 1] }) := by
            simp [nvmcmpLoop, hin, nvmRead, hfa, hfb, HAL_SUCCESS, HAL_FAILED]
          rw [hr]
          refine ⟨rfl, i, Nat.le_refl _, hin, fun t h1 h2 => absurd h1 (by omega),
            Or.inr ⟨hfa, hfb, ?_, ?_⟩⟩
          · simp [byteReads, List.range']
          · simp [byteReads, List.range']
        | false =>
          by_cases heq : deva.mem i = devb.mem i
          · have hr : nvmcmpLoop n (left + 1) i deva devb
                = nvmcmpLoop n left (i + 1) { deva with log := deva.log ++ [.read i 1] }
                    { devb with log := devb.log ++ [.read i 1] } := by
              simp [nvmcmpLoop, hin, nvmRead, hfa, hfb, HAL_SUCCESS, HAL_FAILED, heq, hmod]
            rw [hr]
            have hsplit : ∀ m, i < m → byteReads i (m - i)
                = NVMRequest.read i 1 :: byteReads (i + 1) (m - (i + 1)) := by
              intro m hm
              have : m - i = (m - (i + 1)) + 1 := by omega
              rw [this, byteReads_succ]
            rcases ih (i + 1) { deva with log := deva.log ++ [.read i 1] }
                { devb with log := devb.log ++ [.read i 1] } (by omega) (by omega) with
              ⟨h0, hall, hla, hlb⟩ | ⟨h1, j, hj1, hj2, hall, ha, hb, hne, hla, hlb⟩ |
              ⟨h2, j, hj1, hj2, hall, hlast⟩
            · refine Or.inl ⟨h0, ?_, ?_, ?_⟩
              · intro t ht1 ht2
                by_cases hti : t = i
                · subst hti; exact ⟨hfa, hfb, heq⟩
                · exact hall t (by omega) ht2
              · rw [hla, hsplit n hin]; simp
              · rw [hlb, hsplit n hin]; simp
            · refine Or.inr (Or.inl ⟨h1, j, by omega, hj2, ?_, ha, hb, hne, ?_, ?_⟩)
              · intro t ht1 ht2
                by_cases hti : t = i
                · subst hti; exact ⟨hfa, hfb, heq⟩
                · exact hall t (by omega) ht2
              · rw [hla, hsplit (j + 1) (by omega)]; simp
              · rw [hlb, hsplit (j + 1) (by omega)]; simp
            · refine Or.inr (Or.inr ⟨h2, j, by omega, hj2, ?_, ?_⟩)
              · intro t ht1 ht2
                by_cases hti : t = i
                · subst hti; exact ⟨hfa, hfb, heq⟩
                · exact hall t (by omega) ht2
              · rcases hlast with ⟨hja, hla, hlb⟩ | ⟨hja, hjb, hla, hlb⟩
                · refine Or.inl ⟨hja, ?_, ?_⟩
                  · rw [hla, hsplit (j + 1) (by omega)]; simp
                  · rw [hlb, hsplit j (by omega)]; simp
                · refine Or.inr ⟨hja, hjb, ?_, ?_⟩
                  · rw [hla, hsplit (j + 1) (by omega)]; simp
                  · rw [hlb, hsplit (j + 1) (by omega)]; simp
          · refine Or.inr (Or.inl ?_)
            have hr : nvmcmpLoop n (left + 1) i deva devb
                = (1, { deva with log := deva.log ++ [.read i 1] },
                    { devb with log := devb.log ++ [.read i 1] }) := by
              simp [nvmcmpLoop, hin, nvmRead, hfa, hfb, HAL_SUCCESS, HAL_FAILED, heq]
            rw [hr]
            refine ⟨rfl, i, Nat.le_refl _, hin, fun t h1 h2 => absurd h1 (by omega),
              hfa, hfb, heq, ?_, ?_⟩
            · simp [byteReads, List.range']
            · simp [byteReads, List.range']
    · have hni : n = i := by omega
      subst hni
      refine Or.inl ?_
      have hr : nvmcmpLoop n (left + 1) n deva devb = (0, deva, devb) := by
        simp [nvmcmpLoop]
      rw [hr]
      exact ⟨rfl, fun t h1 h2 => absurd h1 (by omega), by simp [byteReads], by simp [byteReads]⟩

/-- C34: for `n` a `uint32_t`, `nvmcmp` returns 0, 1 or -1: 0 exactly when at
every index below `n` both single-byte reads succeed and the bytes are equal;
1 exactly when at the first index where this is not so both reads succeed and
the bytes differ; -1 exactly when at that index a read fails.  Each device
receives the reads of the indices 0, 1, ... in ascending order up to the index
where the scan stops; device `b` is read at an index only after the read of
device `a` at that index succeeded.  For `n = 0` the result is 0 and no device
receives a request. -/
theorem nvmcmp_tristate (deva devb : NVMDevice) (n : Nat) (hn : n < 2 ^ 32) :
    ((nvmcmp deva devb n).1 = 0 ∨ (nvmcmp deva devb n).1 = 1 ∨
      (nvmcmp deva devb n).1 = -1) ∧
    ((nvmcmp deva devb n).1 = 0 ↔ ∀ t, t < n → SameAt deva devb t) ∧
    ((nvmcmp deva devb n).1 = 1 ↔
      ∃ j, j < n ∧ (∀ t, t < j → SameAt deva devb t) ∧
        deva.fails (.read j 1) = false ∧ devb.fails (.read j 1) = false ∧
        deva.mem j ≠ devb.mem j) ∧
    ((nvmcmp deva devb n).1 = -1 ↔
      ∃ j, j < n ∧ (∀ t, t < j → SameAt deva devb t) ∧
        (deva.fails (.read j 1) = true ∨ devb.fails (.read j 1) = true)) ∧
    (∃ ja jb, ja ≤ n ∧
      (nvmcmp deva devb n).2.1.log = deva.log ++ byteReads 0 ja ∧
      (nvmcmp deva devb n).2.2.log = devb.log ++ byteReads 0 jb ∧
      (jb = ja ∨ (ja = jb + 1 ∧ deva.fails (.read jb 1) = true)) ∧
      (∀ t, t + 1 < ja → SameAt deva devb t) ∧
      ((nvmcmp deva devb n).1 = 0 → ja = n) ∧
      ((nvmcmp deva devb n).1 ≠ 0 → 0 < ja ∧ ¬ SameAt deva devb (ja - 1))) ∧
    (n = 0 → nvmcmp deva devb n = (0, deva, devb)) := by
  have hscan := nvmcmpLoop_scan n hn (n + 1) 0 deva devb (Nat.zero_le _) (by omega)
  have hnz : n = 0 → nvmcmp deva devb n = (0, deva, devb) := by
    intro h; subst h; simp [nvmcmp, nvmcmpLoop]
  simp only [SameAt, nvmcmp]
  simp only [nvmcmp] at hnz
  rcases hscan with ⟨h0, hall, hla, hlb⟩ | ⟨h1, j, _, hj, hall, ha, hb, hne, hla, hlb⟩ |
    ⟨h2, j, _, hj, hall, hlast⟩
  · have hall1 : ∀ t, t < n → deva.fails (.read t 1) = false ∧
        devb.fails (.read t 1) = false ∧ deva.mem t = devb.mem t :=
      fun t ht => hall t (Nat.zero_le _) ht
    refine ⟨Or.inl h0, ⟨fun _ => hall1, fun _ => h0⟩, ⟨fun h => ?_, ?_⟩, ⟨fun h => ?_, ?_⟩,
      ⟨n, n, Nat.le_refl _, by simpa using hla, by simpa using hlb, Or.inl rfl,
        fun t ht => hall1 t (by omega), fun _ => rfl, fun h => absurd h0 h⟩, hnz⟩
    · rw [h0] at h; exact absurd h (by decide)
    · rintro ⟨j, hj, _, _, _, hne⟩
      exact absurd (hall1 j hj).2.2 hne
    · rw [h0] at h; exact absurd h (by decide)
    · rintro ⟨j, hj, _, hf⟩
      have := hall1 j hj
      rcases hf with hf | hf
      · rw [this.1] at hf; exact absurd hf (by decide)
      · rw [this.2.1] at hf; exact absurd hf (by decide)
  · have hall1 : ∀ t, t < j → deva.fails (.read t 1) = false ∧
        devb.fails (.read t 1) = false ∧ deva.mem t = devb.mem t :=
      fun t ht => hall t (Nat.zero_le _) ht
    refine ⟨Or.inr (Or.inl h1), ⟨fun h => ?_, fun h => ?_⟩,
      ⟨fun _ => ⟨j, hj, hall1, ha, hb, hne⟩, fun _ => h1⟩, ⟨fun h => ?_, ?_⟩,
      ⟨j + 1, j + 1, by omega, by simpa using hla, by simpa using hlb, Or.inl rfl,
        fun t ht => hall1 t (by omega), fun h => ?_,
        fun _ => ⟨by omega, fun hs => hne (by simpa using hs.2.2)⟩⟩, hnz⟩
    · rw [h1] at h; exact absurd h (by decide)
    · exact absurd (h j hj).2.2 hne
    · rw [h1] at h; exact absurd h (by decide)
    · rintro ⟨j1, hj1, hall2, hf⟩
      rcases Nat.lt_trichotomy j1 j with hlt | heq | hgt
      · have := hall1 j1 hlt
        rcases hf with hf | hf
        · rw [this.1] at hf; exact absurd hf (by decide)
        · rw [this.2.1] at hf; exact absurd hf (by decide)
      · subst heq
        rcases hf with hf | hf
        · rw [ha] at hf; exact absurd hf (by decide)
        · rw [hb] at hf; exact absurd hf (by decide)
      · exact absurd (hall2 j hgt).2.2 hne
    · rw [h1] at h; exact absurd h (by decide)
  · have hall1 : ∀ t, t < j → deva.fails (.read t 1) = false ∧
        devb.fails (.read t 1) = false ∧ deva.mem t = devb.mem t :=
      fun t ht => hall t (Nat.zero_le _) ht
    have hf : deva.fails (.read j 1) = true ∨ devb.fails (.read j 1) = true := by
      rcases hlast with ⟨h, _⟩ | ⟨_, h, _⟩
      · exact Or.inl h
      · exact Or.inr h
    have hnot : ¬ (deva.fails (.read j 1) = false ∧ devb.fails (.read j 1) = false ∧
        deva.mem j = devb.mem j) := by
      rintro ⟨x1, x2, _⟩
      rcases hf with hf | hf
      · rw [x1] at hf; exact absurd hf (by decide)
      · rw [x2] at hf; exact absurd hf (by decide)
    refine ⟨Or.inr (Or.inr h2), ⟨fun h => ?_, fun h => ?_⟩, ⟨fun h => ?_, ?_⟩,
      ⟨fun _ => ⟨j, hj, hall1, hf⟩, fun _ => h2⟩, ?_, hnz⟩
    · rw [h2] at h; exact absurd h (by decide)
    · exact absurd (h j hj) hnot
    · rw [h2] at h; exact absurd h (by decide)
    · rintro ⟨j1, hj1, hall2, x1, x2, x3⟩
      rcases Nat.lt_trichotomy j1 j with hlt | heq | hgt
      · exact absurd (hall1 j1 hlt).2.2 x3
      · subst heq
        rcases hf with hf | hf
        · rw [x1] at hf; exact absurd hf (by decide)
        · rw [x2] at hf; exact absurd hf (by decide)
      · exact absurd (hall2 j hgt) hnot
    · rcases hlast with ⟨hja, hla, hlb⟩ | ⟨hja, hjb, hla, hlb⟩
      · exact ⟨j + 1, j, by omega, by simpa using hla, by simpa using hlb,
          Or.inr ⟨rfl, hja⟩, fun t ht => hall1 t (by omega),
          fun h => by rw [h2] at h; exact absurd h (by decide),
          fun _ => ⟨by omega, by simpa using hnot⟩⟩
      · exact ⟨j + 1, j + 1, by omega, by simpa using hla, by simpa using hlb,
          Or.inl rfl, fun t ht => hall1 t (by omega),
          fun h => by rw [h2] at h; exact absurd h (by decide),
          fun _ => ⟨by omega, by simpa using hnot⟩⟩

/-- Instance of C34: three bytes of two devices that differ at address 1; and
with a first device whose reads fail. -/
theorem nvmcmp_tristate_witness :
    (3 : Nat) < 2 ^ 32 ∧
    ((nvmcmp devOnes devTwo 3).1 = 1 ↔
      ∃ j, j < 3 ∧ (∀ t, t < j → SameAt devOnes devTwo t) ∧
        devOnes.fails (.read j 1) = false ∧ devTwo.fails (.read j 1) = false ∧
        devOnes.mem j ≠ devTwo.mem j) ∧
    (nvmcmp devOnes devTwo 3).1 = 1 ∧
    (nvmcmp devOnes devTwo 3).2.1.log = [.read 0 1, .read 1 1] ∧
    (nvmcmp devBroken devOnes 3).1 = -1 ∧
    (nvmcmp devBroken devOnes 3).2.1.log = [.read 0 1] ∧
    (nvmcmp devBroken devOnes 3).2.2.log = [] :=
  ⟨by decide, (nvmcmp_tristate devOnes devTwo 3 (by decide)).2.2.1, by decide, by decide,
    by decide, by decide, by decide⟩

/-! ## Pointers and counter; the result of get -/

/-- C32: on a queue initialised by `chSymQInit` with capacity `C > 0`, after
every call of every finite sequence of get / put / read / write / reset calls,
under any wake codes, the offset of `q_wrptr` in the buffer is the offset of
`q_rdptr` plus `q_counter`, modulo `C`; so the two pointers are equal exactly
when `q_counter` is 0 or `C`, and the queue is not empty and full at once. -/
theorem pointer_counter_consistency (C : Nat) (hC : 0 < C) (bp : Nat) (k0 : World)
    (calls : List Call) (codes : List Int) (m : Nat) (k : World)
    (hk : k = (runCalls (calls.take m) (chSymQInit bp C k0) (codes.map wakeCode)).2.1) :
    (k.sq.q_wrptr : Int) - (k.sq.q_buffer : Int)
      = (((k.sq.q_rdptr : Int) - (k.sq.q_buffer : Int)) + k.sq.q_counter) % (C : Int) ∧
    (k.sq.q_rdptr = k.sq.q_wrptr ↔ k.sq.q_counter = 0 ∨ k.sq.q_counter = (C : Int)) ∧
    ¬ (chSymQIsEmptyI k.sq = true ∧ chSymQIsFullI k.sq = true) := by
  have h : WF C k := by
    rw [hk]
    exact runCalls_WF C hC (calls.take m) _ _ (WF_init C bp hC k0) (envKeeps_codes _ codes)
  have hsize := WF_size C k h
  obtain ⟨h1, h2, h3, h4, h5, h6, h7, h8⟩ := h
  refine ⟨?_, ⟨fun he => ?_, fun hc => ?_⟩, ?_⟩
  · rcases h8 with h8 | h8
    · rw [Int.emod_eq_of_lt (by omega) (by omega)]; omega
    · have hx : ((k.sq.q_rdptr : Int) - (k.sq.q_buffer : Int)) + k.sq.q_counter
          = ((k.sq.q_wrptr : Int) - (k.sq.q_buffer : Int)) + (C : Int) := by omega
      rw [hx, Int.add_emod_self, Int.emod_eq_of_lt (by omega) (by omega)]
  · rcases h8 with h8 | h8
    · left; omega
    · right; omega
  · rcases h8 with h8 | h8 <;> rcases hc with hc | hc <;> omega
  · rintro ⟨he, hf⟩
    simp only [chSymQIsEmptyI, chSymQIsFullI, hsize, decide_eq_true_eq] at he hf
    omega

/-- Instance of C32: capacity 3, two puts and two gets leave both pointers on
the last byte of the buffer with the counter at 0. -/
theorem pointer_counter_consistency_witness :
    0 < 3 ∧ wrapWorld.sq.q_counter = 0 ∧ wrapWorld.sq.q_rdptr = 102 ∧
    wrapWorld.sq.q_rdptr = wrapWorld.sq.q_wrptr :=
  ⟨by decide, by decide, by decide,
    (pointer_counter_consistency 3 (by decide) 100 world0
      [.put 1 7 0, .put 1 8 0, .get 2 0, .get 2 0] [] 4 wrapWorld rfl).2.1.2
      (Or.inl (by decide))⟩

theorem sameData_stable (k0 : World) : Stable (SameData k0) :=
  fun _ _ _ h => h

/-- C33: with wake messages among `Q_OK`, `Q_TIMEOUT` and `Q_RESET`, a call of
`chSymQGetTimeout` either has not returned (the caller is asleep, which does
not happen with `TIME_IMMEDIATE` nor on a queue that is not empty) or returns
a message `m` of one of two kinds.
Either `0 ≤ m ≤ 255`: the waiting loop ended in a world `k1` with a counter
other than 0, `m` is the byte at the read pointer of `k1` and the call leaves
`k1` with that byte taken (counter one less, read pointer one further, buffer
memory as it was; on a well-formed queue the buffered bytes lose their head).
Or `m` is negative, `Q_TIMEOUT` or `Q_RESET`: the call returns in the world in
which the waiting loop left, and took nothing.
In both cases the waiting itself changes only the threads queue and the sleep
count: every property of the rest of the world that the other threads keep
still holds; with wake codes alone, a negative result leaves counter,
pointers and memories as they were at the call. -/
theorem get_result_disambiguated (C currp timeout : Nat) (k : World) (ws : List Wake)
    (hv : ValidCodes ws) :
    ((chSymQGetTimeout currp timeout k ws).reply = .asleep ∨
      ∃ m, (chSymQGetTimeout currp timeout k ws).reply = .msg m) ∧
    (timeout = TIME_IMMEDIATE ∨ k.sq.q_counter ≠ 0 →
      ∃ m, (chSymQGetTimeout currp timeout k ws).reply = .msg m) ∧
    (∀ m, (chSymQGetTimeout currp timeout k ws).reply = .msg m →
      (0 ≤ m ∧ m ≤ 255 ∧
        ∃ k1,
          waitWhile chSymQIsEmptyI (fun msg => decide (msg < Q_OK)) currp timeout
              (ws.length + 1) k ws = .go k1 (chSymQGetTimeout currp timeout k ws).ws ∧
          k1.sq.q_counter ≠ 0 ∧
          m = ((k1.mem k1.sq.q_rdptr).val : Int) ∧
          (chSymQGetTimeout currp timeout k ws).k = popped k1 ∧
          (chSymQGetTimeout currp timeout k ws).k.sq.q_counter = k1.sq.q_counter - 1 ∧
          (chSymQGetTimeout currp timeout k ws).k.sq.q_rdptr
            = nextPtr k1.sq.q_buffer k1.sq.q_top k1.sq.q_rdptr ∧
          (chSymQGetTimeout currp timeout k ws).k.mem = k1.mem ∧
          (∀ P : World → Prop, Stable P → EnvKeeps P ws → P k → P k1) ∧
          (WF C k → EnvKeeps (WF C) ws →
            buffered k1
              = k1.mem k1.sq.q_rdptr :: buffered (chSymQGetTimeout currp timeout k ws).k)) ∨
      (m < 0 ∧ (m = Q_TIMEOUT ∨ m = Q_RESET) ∧
        waitWhile chSymQIsEmptyI (fun msg => decide (msg < Q_OK)) currp timeout
            (ws.length + 1) k ws
          = .ret m (chSymQGetTimeout currp timeout k ws).k
              (chSymQGetTimeout currp timeout k ws).ws ∧
        (∀ P : World → Prop, Stable P → EnvKeeps P ws → P k →
          P (chSymQGetTimeout currp timeout k ws).k))) ∧
    (∀ codes : List Int, ws = codes.map wakeCode →
      ∀ m, (chSymQGetTimeout currp timeout k ws).reply = .msg m → m < 0 →
        SameData k (chSymQGetTimeout currp timeout k ws).k ∧
        buffered (chSymQGetTimeout currp timeout k ws).k = buffered k) := by
  have hkeep : ∀ P : World → Prop, Stable P → EnvKeeps P ws → P k →
      P (waitWhile chSymQIsEmptyI (fun msg => decide (msg < Q_OK)) currp timeout
        (ws.length + 1) k ws).world :=
    fun P hP he hk =>
      (waitWhile_keeps chSymQIsEmptyI _ currp timeout P hP (ws.length + 1) k ws hk he).1
  have hret := waitWhile_ret_msg chSymQIsEmptyI (fun msg => decide (msg < Q_OK)) currp timeout
    (ws.length + 1) k ws
  have hgo := waitWhile_go_cond chSymQIsEmptyI (fun msg => decide (msg < Q_OK)) currp timeout
    (ws.length + 1) k ws
  have hnow : timeout = TIME_IMMEDIATE ∨ k.sq.q_counter ≠ 0 →
      ∃ m, (chSymQGetTimeout currp timeout k ws).reply = .msg m := by
    intro h
    by_cases hc : k.sq.q_counter = 0
    · rcases h with h | h
      · subst h
        have he : chSymQIsEmptyI k.sq = true := by simp [chSymQIsEmptyI, hc]
        rw [get_eq, waitWhile_immediate _ _ _ _ _ _ he (by decide)]
        exact ⟨_, rfl⟩
      · exact absurd hc h
    · rw [get_nowait currp timeout k ws hc]
      exact ⟨_, rfl⟩
  have hmain : ∀ m, (chSymQGetTimeout currp timeout k ws).reply = .msg m →
      (0 ≤ m ∧ m ≤ 255 ∧
        ∃ k1,
          waitWhile chSymQIsEmptyI (fun msg => decide (msg < Q_OK)) currp timeout
              (ws.length + 1) k ws = .go k1 (chSymQGetTimeout currp timeout k ws).ws ∧
          k1.sq.q_counter ≠ 0 ∧
          m = ((k1.mem k1.sq.q_rdptr).val : Int) ∧
          (chSymQGetTimeout currp timeout k ws).k = popped k1 ∧
          (chSymQGetTimeout currp timeout k ws).k.sq.q_counter = k1.sq.q_counter - 1 ∧
          (chSymQGetTimeout currp timeout k ws).k.sq.q_rdptr
            = nextPtr k1.sq.q_buffer k1.sq.q_top k1.sq.q_rdptr ∧
          (chSymQGetTimeout currp timeout k ws).k.mem = k1.mem ∧
          (∀ P : World → Prop, Stable P → EnvKeeps P ws → P k → P k1) ∧
          (WF C k → EnvKeeps (WF C) ws →
            buffered k1
              = k1.mem k1.sq.q_rdptr :: buffered (chSymQGetTimeout currp timeout k ws).k)) ∨
      (m < 0 ∧ (m = Q_TIMEOUT ∨ m = Q_RESET) ∧
        waitWhile chSymQIsEmptyI (fun msg => decide (msg < Q_OK)) currp timeout
            (ws.length + 1) k ws
          = .ret m (chSymQGetTimeout currp timeout k ws).k
              (chSymQGetTimeout currp timeout k ws).ws ∧
        (∀ P : World → Prop, Stable P → EnvKeeps P ws → P k →
          P (chSymQGetTimeout currp timeout k ws).k)) := by
    intro m hm
    rw [get_eq] at hm ⊢
    cases hw : waitWhile chSymQIsEmptyI (fun msg => decide (msg < Q_OK)) currp timeout
        (ws.length + 1) k ws with
    | asleep k1 => rw [hw] at hm; simp at hm
    | ret m1 k1 ws1 =>
      rw [hw] at hm hkeep
      simp only [Reply.msg.injEq] at hm
      subst hm
      obtain ⟨hl, hsrc⟩ := hret m1 k1 ws1 hw
      have hneg : m1 < 0 := by simpa [Q_OK] using hl
      refine Or.inr ⟨hneg, ?_, rfl, fun P hP he hk => hkeep P hP he hk⟩
      rcases hsrc with h | ⟨w, hwm, rfl⟩
      · exact Or.inl h
      · rcases hv w hwm with h | h | h
        · rw [h] at hneg; exact absurd hneg (by decide)
        · exact Or.inl h
        · exact Or.inr h
    | go k1 ws1 =>
      rw [hw] at hm hkeep
      simp only [Reply.msg.injEq] at hm
      subst hm
      have hne : k1.sq.q_counter ≠ 0 := by
        have := hgo k1 ws1 hw
        simpa [chSymQIsEmptyI] using this
      refine Or.inl ⟨Int.natCast_nonneg _, ?_, k1, rfl, hne, rfl, rfl, rfl, rfl, rfl,
        fun P hP he hk => hkeep P hP he hk, fun hwf he => ?_⟩
      · have := (k1.mem k1.sq.q_rdptr).isLt
        omega
      · exact buffered_popped C k1 (hkeep (WF C) (WF_stable C) he hwf) hne
  refine ⟨?_, hnow, hmain, ?_⟩
  · rw [get_eq]
    cases waitWhile chSymQIsEmptyI (fun msg => decide (msg < Q_OK)) currp timeout
        (ws.length + 1) k ws with
    | asleep k1 => exact Or.inl rfl
    | ret m1 k1 ws1 => exact Or.inr ⟨_, rfl⟩
    | go k1 ws1 => exact Or.inr ⟨_, rfl⟩
  · intro codes hcodes m hm hneg
    rcases hmain m hm with ⟨h0, _⟩ | ⟨_, _, _, hframe⟩
    · omega
    · have hs := hframe (SameData k) (sameData_stable k)
        (by rw [hcodes]; exact envKeeps_codes _ codes) (sameData_refl k)
      exact ⟨hs, sameData_buffered hs⟩

/-- Instance of C33: the byte `0xFF` stored in a queue is returned as 255; an
empty queue woken with `Q_OK` and then `Q_RESET` gives `Q_RESET`. -/
theorem get_result_disambiguated_witness :
    ValidCodes [wakeCode Q_OK, wakeCode Q_RESET] ∧
    (chSymQGetTimeout 1 20 emptyWorld [wakeCode Q_OK, wakeCode Q_RESET]).reply = .msg Q_RESET ∧
    SameData emptyWorld
      (chSymQGetTimeout 1 20 emptyWorld [wakeCode Q_OK, wakeCode Q_RESET]).k ∧
    (chSymQGetTimeout 1 20 (chSymQPutTimeout 1 0xFF 0 emptyWorld []).k []).reply = .msg 255 :=
  ⟨by decide, by decide,
    ((get_result_disambiguated 2 1 20 emptyWorld [wakeCode Q_OK, wakeCode Q_RESET]
      (by decide)).2.2.2 [Q_OK, Q_RESET] rfl Q_RESET (by decide) (by decide)).1,
    by decide⟩

/-! ## What `nvmcpy` writes -/

theorem chunk_getD_pad (c a k : Nat) (f : Nat → uint8_t) (d : uint8_t) (hk : c ≤ k)
    (hka : k < a) (ha : a ≤ 4) :
    (((List.range c).map f ++ List.replicate (4 - c) (0xff : uint8_t)).take a).getD k d
      = 0xff := by
  rw [List.getD_eq_getElem?_getD, List.getElem?_take_of_lt hka,
    List.getElem?_append_right (by simpa using hk)]
  have : k - c < 4 - c := by omega
  simp [List.getElem?_replicate, this]

theorem dvd_step (a i E : Nat) (hi : a ∣ i) (hE : a ∣ E) (h : i < E) : i + a ≤ E := by
  have h1 : a ∣ E - i := Nat.dvd_sub' hE hi
  have h2 := Nat.le_of_dvd (by omega) h1
  omega

theorem dvd_between (a i x : Nat) (hi : a ∣ i) (hx : a ∣ x) (h1 : i ≤ x) (h2 : x < i + a) :
    x = i := by
  have h3 : a ∣ x - i := Nat.dvd_sub' hx hi
  have h4 := Nat.eq_zero_of_dvd_of_lt h3 (by omega)
  omega

theorem ceil_facts (n a : Nat) (hn : n < 2 ^ 32) (ha : 1 ≤ a) (ha4 : a ≤ 4) :
    n ≤ (n + a - 1) / a * a ∧ (n + a - 1) / a * a < n + a ∧ a ∣ (n + a - 1) / a * a ∧
    (n + a - 1) / a * a ≤ 2 ^ 32 := by
  refine ⟨?_, ?_, Dvd.intro_left _ rfl, ?_⟩ <;> interval_cases a <;> omega

/-- One turn of the loop of `nvmcpy` when nothing fails: the request of `a`
bytes at `i` that the destination receives and the memory it leaves. -/
theorem nvmcpy_turn (a n i : Nat) (d s : NVMDevice) (hin : i < n) (ha : 0 < a) (ha4 : a ≤ 4)
    (hd : ∀ r, d.fails r = false) (hs : ∀ r, s.fails r = false) :
    ∃ (d1 s1 : NVMDevice) (data : List uint8_t),
      (∀ fuel, nvmcpyLoopDevices a n (fuel + 1) i d s
        = nvmcpyLoopDevices a n fuel ((i + a) % 2 ^ 32) d1 s1) ∧
      (∀ fuel, nvmcpyLoop a n (fuel + 1) i d s
        = nvmcpyLoop a n fuel ((i + a) % 2 ^ 32) d1 s1) ∧
      (∀ r, d1.fails r = false) ∧ (∀ r, s1.fails r = false) ∧ s1.mem = s.mem ∧
      d1.log = d.log ++ [.write i a data] ∧ data.length = a ∧
      (∀ x, d1.mem x
        = if i ≤ x ∧ x < i + a then (if x < n then s.mem x else 0xff) else d.mem x) := by
  have hr := nvmRead_ok s i (if n - i < a then n - i else a) (hs _)
  refine ⟨(nvmWrite d i a ((nvmRead s i (if n - i < a then n - i else a)).2.1 ++
      List.replicate (4 - if n - i < a then n - i else a) (0xff : uint8_t))).2,
    (nvmRead s i (if n - i < a then n - i else a)).2.2,
    ((nvmRead s i (if n - i < a then n - i else a)).2.1 ++
      List.replicate (4 - if n - i < a then n - i else a) (0xff : uint8_t)).take a,
    ?_, ?_, ?_, ?_, ?_, ?_, ?_, ?_⟩
  · intro fuel
    rw [nvmcpyLoopDevices]
    simp only [hin, if_true, hr, bne_self_eq_false, Bool.false_eq_true, if_false]
    rw [nvmWrite_ok _ _ _ _ (hd _)]
    simp only [bne_self_eq_false, Bool.false_eq_true, if_false]
  · intro fuel
    rw [nvmcpyLoop]
    simp only [hin, if_true, hr, bne_self_eq_false, Bool.false_eq_true, if_false]
    rw [nvmWrite_ok _ _ _ _ (hd _)]
    simp only [bne_self_eq_false, Bool.false_eq_true, if_false]
  · intro r; rw [nvmWrite_fails]; exact hd r
  · intro r; rw [nvmRead_fails]; exact hs r
  · exact nvmRead_mem _ _ _
  · simp [nvmWrite, hd]
  · rw [nvmRead_data _ _ _ (hs _)]
    have hc : (if n - i < a then n - i else a) ≤ 4 := by split <;> omega
    simp only [List.length_take, List.length_append, List.length_map, List.length_range,
      List.length_replicate]
    omega
  · intro x
    rw [nvmWrite_mem _ _ _ _ (hd _), nvmRead_data _ _ _ (hs _)]
    by_cases hx : i ≤ x ∧ x < i + a
    · rw [if_pos hx, if_pos hx]
      have hc : (if n - i < a then n - i else a) ≤ a := by split <;> omega
      by_cases hxn : x < n
      · rw [if_pos hxn]
        have hk : x - i < (if n - i < a then n - i else a) := by split <;> omega
        rw [chunk_getD _ _ _ _ _ hk hc]
        congr 1; omega
      · rw [if_neg hxn]
        have hk : (if n - i < a then n - i else a) ≤ x - i := by split <;> omega
        exact chunk_getD_pad _ _ _ _ _ hk (by omega) ha4
    · rw [if_neg hx, if_neg hx]

theorem next_index (a i E : Nat) (hi : a ∣ i) (hE : a ∣ E) (hlt : i < E)
    (hE32 : E ≤ 2 ^ 32) :
    a ∣ (i + a) % 2 ^ 32 ∧
    (((i + a) % 2 ^ 32 = i + a ∧ i + a < 2 ^ 32) ∨
      (i + a = 2 ^ 32 ∧ E = 2 ^ 32 ∧ (i + a) % 2 ^ 32 = 0)) := by
  have h1 := dvd_step a i E hi hE hlt
  by_cases h : i + a < 2 ^ 32
  · rw [Nat.mod_eq_of_lt h]
    exact ⟨Nat.dvd_add hi (Nat.dvd_refl a), Or.inl ⟨rfl, h⟩⟩
  · have h2 : i + a = 2 ^ 32 := by omega
    rw [h2, Nat.mod_self]
    exact ⟨Nat.dvd_zero a, Or.inr ⟨rfl, by omega, rfl⟩⟩

/-- Whatever the number of turns, the loop of `nvmcpy` sends the destination
only writes of `a` bytes at multiples of `a` below `E` (the length rounded up
to a multiple of `a`), and leaves the destination from `E` on and the source
memory as they are. -/
theorem nvmcpyLoop_safe (a n E : Nat) (ha : 0 < a) (ha4 : a ≤ 4) (hnE : n ≤ E) (hE : a ∣ E)
    (hE32 : E ≤ 2 ^ 32) :
    ∀ (fuel i : Nat) (d s : NVMDevice), a ∣ i → (∀ r, d.fails r = false) →
      (∀ r, s.fails r = false) →
      ∃ ws, (nvmcpyLoopDevices a n fuel i d s).1.log = d.log ++ ws ∧
        (∀ w ∈ ws, AlignedWrite a E w) ∧
        (∀ x, E ≤ x → (nvmcpyLoopDevices a n fuel i d s).1.mem x = d.mem x) ∧
        (nvmcpyLoopDevices a n fuel i d s).2.mem = s.mem := by
  intro fuel
  induction fuel with
  | zero => intro i d s _ _ _; exact ⟨[], by simp [nvmcpyLoopDevices], by simp, fun _ _ => rfl, rfl⟩
  | succ fuel ih =>
    intro i d s hi hd hs
    by_cases hin : i < n
    · obtain ⟨d1, s1, data, hstep, _, hd1, hs1, hsm, hlog, hlen, hmem⟩ :=
        nvmcpy_turn a n i d s hin ha ha4 hd hs
      have hnext := next_index a i E hi hE (by omega) hE32
      have hiE := dvd_step a i E hi hE (by omega)
      obtain ⟨ws, h1, h2, h3, h4⟩ := ih ((i + a) % 2 ^ 32) d1 s1 hnext.1 hd1 hs1
      rw [hstep]
      refine ⟨NVMRequest.write i a data :: ws, ?_, ?_, ?_, ?_⟩
      · rw [h1, hlog]; simp
      · intro w hw
        rcases List.mem_cons.1 hw with rfl | hw
        · exact ⟨rfl, Nat.mod_eq_zero_of_dvd hi, hiE, hlen⟩
        · exact h2 w hw
      · intro x hx
        rw [h3 x hx, hmem x, if_neg (by omega)]
      · rw [h4, hsm]
    · have hr : nvmcpyLoopDevices a n (fuel + 1) i d s = (d, s) := by
        rw [nvmcpyLoopDevices]; simp only [hin, if_false]
      rw [hr]
      exact ⟨[], by simp, by simp, fun _ _ => rfl, rfl⟩

/-- Once the destination holds below `E` the source bytes followed by the
`0xff` padding, further turns of the loop keep it so. -/
theorem nvmcpyLoop_keeps_full (a n E : Nat) (ha : 0 < a) (ha4 : a ≤ 4) (hnE : n ≤ E)
    (hE : a ∣ E) (hE32 : E ≤ 2 ^ 32) :
    ∀ (fuel i : Nat) (d s : NVMDevice), a ∣ i → (∀ r, d.fails r = false) →
      (∀ r, s.fails r = false) →
      (∀ x, x < E → d.mem x = if x < n then s.mem x else 0xff) →
      ∀ x, x < E →
        (nvmcpyLoopDevices a n fuel i d s).1.mem x = if x < n then s.mem x else 0xff := by
  intro fuel
  induction fuel with
  | zero => intro i d s _ _ _ h; exact h
  | succ fuel ih =>
    intro i d s hi hd hs hfull
    by_cases hin : i < n
    · obtain ⟨d1, s1, data, hstep, _, hd1, hs1, hsm, hlog, hlen, hmem⟩ :=
        nvmcpy_turn a n i d s hin ha ha4 hd hs
      have hnext := next_index a i E hi hE (by omega) hE32
      rw [hstep]
      have := ih ((i + a) % 2 ^ 32) d1 s1 hnext.1 hd1 hs1 (by
        intro x hx
        rw [hmem x, hsm]
        by_cases hr : i ≤ x ∧ x < i + a
        · rw [if_pos hr]
        · rw [if_neg hr]; exact hfull x hx)
      rw [hsm] at this
      exact this
    · have hr : nvmcpyLoopDevices a n (fuel + 1) i d s = (d, s) := by
        rw [nvmcpyLoopDevices]; simp only [hin, if_false]
      rw [hr]; exact hfull

/-- After the turns of one pass the destination holds below `E` the source
bytes followed by the `0xff` padding, and has received a write at every
multiple of `a` below `E`. -/
theorem nvmcpyLoop_covers (a n E : Nat) (ha : 0 < a) (ha4 : a ≤ 4) (hnE : n ≤ E)
    (hEn : E < n + a) (hE : a ∣ E) (hE32 : E ≤ 2 ^ 32) :
    ∀ (fuel i : Nat) (d s : NVMDevice), a ∣ i → i ≤ E → (∀ r, d.fails r = false) →
      (∀ r, s.fails r = false) →
      (∀ x, x < i → d.mem x = if x < n then s.mem x else 0xff) →
      (∀ q, q * a < i → ∃ data, NVMRequest.write (q * a) a data ∈ d.log) →
      E ≤ i + fuel * a →
      (∀ x, x < E →
        (nvmcpyLoopDevices a n fuel i d s).1.mem x = if x < n then s.mem x else 0xff) ∧
      (∀ q, q * a < E →
        ∃ data, NVMRequest.write (q * a) a data ∈ (nvmcpyLoopDevices a n fuel i d s).1.log) := by
  intro fuel
  induction fuel with
  | zero =>
    intro i d s _ hiE _ _ hcov hlogcov hfuel
    have : i = E := by omega
    subst this
    exact ⟨hcov, hlogcov⟩
  | succ fuel ih =>
    intro i d s hi hiE hd hs hcov hlogcov hfuel
    by_cases hin : i < n
    · obtain ⟨d1, s1, data, hstep, _, hd1, hs1, hsm, hlog, hlen, hmem⟩ :=
        nvmcpy_turn a n i d s hin ha ha4 hd hs
      have hnext := next_index a i E hi hE (by omega) hE32
      have hiaE := dvd_step a i E hi hE (by omega)
      have hcov1 : ∀ x, x < i + a → d1.mem x = if x < n then s1.mem x else 0xff := by
        intro x hx
        rw [hmem x, hsm]
        by_cases hr : i ≤ x ∧ x < i + a
        · rw [if_pos hr]
        · rw [if_neg hr]; exact hcov x (by omega)
      have hlogcov1 : ∀ q, q * a < i + a →
          ∃ data, NVMRequest.write (q * a) a data ∈ d1.log := by
        intro q hq
        by_cases hqi : q * a < i
        · obtain ⟨dt, hdt⟩ := hlogcov q hqi
          exact ⟨dt, by rw [hlog]; exact List.mem_append_left _ hdt⟩
        · have : q * a = i := dvd_between a i (q * a) hi (Dvd.intro_left q rfl) (by omega) hq
          exact ⟨data, by rw [hlog, this]; simp⟩
      have hmul : (fuel + 1) * a = fuel * a + a := Nat.succ_mul fuel a
      rw [hstep]
      rcases hnext.2 with ⟨hm, _⟩ | ⟨hw, hE2, hm⟩
      · rw [hm]
        have := ih (i + a) d1 s1 (Nat.dvd_add hi (Nat.dvd_refl a)) hiaE hd1 hs1 hcov1
          hlogcov1 (by omega)
        rw [hsm] at this
        exact this
      · rw [hm]
        have hEia : E = i + a := by omega
        refine ⟨?_, ?_⟩
        · have := nvmcpyLoop_keeps_full a n E ha ha4 hnE hE hE32 fuel 0 d1 s1
            (Nat.dvd_zero a) hd1 hs1 (fun x hx => hcov1 x (by omega))
          rw [hsm] at this
          exact this
        · intro q hq
          obtain ⟨ws, h1, _⟩ := nvmcpyLoop_safe a n E ha ha4 hnE hE hE32 fuel 0 d1 s1
            (Nat.dvd_zero a) hd1 hs1
          obtain ⟨dt, hdt⟩ := hlogcov1 q (by omega)
          exact ⟨dt, by rw [h1]; exact List.mem_append_left _ hdt⟩
    · have hr : nvmcpyLoopDevices a n (fuel + 1) i d s = (d, s) := by
        rw [nvmcpyLoopDevices]; simp only [hin, if_false]
      rw [hr]
      have : E = i := dvd_between a i E hi hE hiE (by omega)
      subst this
      exact ⟨hcov, hlogcov⟩

/-- When `E`, the length rounded up to a multiple of `a`, is below `2 ^ 32` the
loop of `nvmcpy` returns true, given the turns of one pass and one more test
of its condition. -/
theorem nvmcpyLoop_returns (a n E : Nat) (ha : 0 < a) (ha4 : a ≤ 4) (hnE : n ≤ E)
    (hEn : E < n + a) (hE : a ∣ E) (hE32 : E < 2 ^ 32) :
    ∀ (fuel i : Nat) (d s : NVMDevice), a ∣ i → i ≤ E → (∀ r, d.fails r = false) →
      (∀ r, s.fails r = false) → E + a ≤ i + fuel * a →
      nvmcpyLoop a n fuel i d s
        = .ret true (nvmcpyLoopDevices a n fuel i d s).1
            (nvmcpyLoopDevices a n fuel i d s).2 := by
  intro fuel
  induction fuel with
  | zero => intro i d s _ hiE _ _ hfuel; omega
  | succ fuel ih =>
    intro i d s hi hiE hd hs hfuel
    by_cases hin : i < n
    · obtain ⟨d1, s1, data, hstep, hstep2, hd1, hs1, _⟩ :=
        nvmcpy_turn a n i d s hin ha ha4 hd hs
      have hiaE := dvd_step a i E hi hE (by omega)
      have hm : (i + a) % 2 ^ 32 = i + a := Nat.mod_eq_of_lt (by omega)
      have hmul : (fuel + 1) * a = fuel * a + a := Nat.succ_mul fuel a
      rw [hstep, hstep2, hm]
      exact ih (i + a) d1 s1 (Nat.dvd_add hi (Nat.dvd_refl a)) hiaE hd1 hs1 (by omega)
    · rw [nvmcpyLoop, nvmcpyLoopDevices]
      simp only [hin, if_false]

/-- The devices of a returned `nvmcpyLoop` are those of `nvmcpyLoopDevices`. -/
theorem nvmcpyLoop_ret_devices (a n : Nat) :
    ∀ (fuel i : Nat) (d s : NVMDevice) (v : Bool) (d1 s1 : NVMDevice),
      nvmcpyLoop a n fuel i d s = .ret v d1 s1 →
      nvmcpyLoopDevices a n fuel i d s = (d1, s1) := by
  intro fuel
  induction fuel with
  | zero => intro i d s v d1 s1 h; simp [nvmcpyLoop] at h
  | succ fuel ih =>
    intro i d s v d1 s1 h
    rw [nvmcpyLoop] at h
    rw [nvmcpyLoopDevices]
    by_cases hin : i < n
    · simp only [hin, if_true] at h ⊢
      by_cases hrs : ((nvmRead s i (if n - i < a then n - i else a)).1 != HAL_SUCCESS) = true
      · simp only [hrs, if_true] at h ⊢
        simp only [ToolResult.ret.injEq] at h
        rw [h.2.1, h.2.2]
      · simp only [hrs, Bool.false_eq_true, if_false] at h ⊢
        by_cases hrd : ((nvmWrite d i a ((nvmRead s i (if n - i < a then n - i else a)).2.1 ++
            List.replicate (4 - if n - i < a then n - i else a) (0xff : uint8_t))).1
              != HAL_SUCCESS) = true
        · simp only [hrd, if_true] at h ⊢
          simp only [ToolResult.ret.injEq] at h
          rw [h.2.1, h.2.2]
        · simp only [hrd, Bool.false_eq_true, if_false] at h ⊢
          exact ih _ _ _ _ _ _ h
    · simp only [hin, if_false] at h ⊢
      simp only [ToolResult.ret.injEq] at h
      rw [h.2.1, h.2.2]

/-- The devices of a returned `nvmcpy` are those of `nvmcpyDevices`. -/
theorem nvmcpy_ret_devices (fuel : Nat) (di : NVMDeviceInfo) (dst src : NVMDevice) (n : Nat)
    (v : Bool) (d1 s1 : NVMDevice) (h : nvmcpy fuel di dst src n = .ret v d1 s1) :
    nvmcpyDevices fuel di dst src n = (d1, s1) := by
  unfold nvmcpy at h
  unfold nvmcpyDevices
  by_cases hg : ((nvmGetInfo dst di).1 != HAL_SUCCESS) = true
  · simp only [hg, if_true] at h ⊢
    simp only [ToolResult.ret.injEq] at h
    rw [h.2.1, h.2.2]
  · simp only [hg, Bool.false_eq_true, if_false] at h ⊢
    by_cases hw : ¬ (nvmGetInfo dst di).2.1.write_alignment ≤ 4
    · simp only [hw, not_false_eq_true, if_true] at h
      exact absurd h (by simp)
    · simp only [hw, if_false] at h ⊢
      exact nvmcpyLoop_ret_devices _ _ _ _ _ _ _ _ _ h

/-- C31: `nvmcpy` of `n` bytes (`n` a `uint32_t`) to a destination of write
alignment `a` in 1..4, no request failing; `E` is `n` rounded up to a multiple
of `a`.  At every moment, that is after any number of turns of the loop, the
destination has received the get-info request followed by writes only, each of
exactly `a` bytes at a multiple of `a` and ending at or below `E`, and its
bytes from `E` on are unchanged.  Once the loop has made its `E / a` turns the
destination holds the source bytes below `n` and `0xff` from `n` up to `E`,
and has received a write at every multiple of `a` below `E`.  When `E` is
below `2 ^ 32` the function returns true then, leaving these devices. -/
theorem nvmcpy_padding_and_frame (fuel : Nat) (di : NVMDeviceInfo) (dst src : NVMDevice)
    (n a : Nat) (hn : n < 2 ^ 32) (ha : 1 ≤ a) (ha4 : a ≤ 4)
    (hal : dst.info.write_alignment = a)
    (hd : ∀ r, dst.fails r = false) (hs : ∀ r, src.fails r = false) :
    (∃ ws, (nvmcpyDevices fuel di dst src n).1.log = dst.log ++ NVMRequest.get_info :: ws ∧
      ∀ w ∈ ws, AlignedWrite a ((n + a - 1) / a * a) w) ∧
    (∀ x, (n + a - 1) / a * a ≤ x → (nvmcpyDevices fuel di dst src n).1.mem x = dst.mem x) ∧
    ((nvmcpyDevices fuel di dst src n).2.mem = src.mem) ∧
    ((n + a - 1) / a ≤ fuel →
      (∀ x, x < n → (nvmcpyDevices fuel di dst src n).1.mem x = src.mem x) ∧
      (∀ x, n ≤ x → x < (n + a - 1) / a * a →
        (nvmcpyDevices fuel di dst src n).1.mem x = 0xff) ∧
      (∀ j, j < (n + a - 1) / a →
        ∃ data, NVMRequest.write (j * a) a data ∈ (nvmcpyDevices fuel di dst src n).1.log)) ∧
    ((n + a - 1) / a * a < 2 ^ 32 → (n + a - 1) / a < fuel →
      nvmcpy fuel di dst src n
        = .ret true (nvmcpyDevices fuel di dst src n).1 (nvmcpyDevices fuel di dst src n).2) ∧
    (∀ v d1 s1, nvmcpy fuel di dst src n = .ret v d1 s1 →
      nvmcpyDevices fuel di dst src n = (d1, s1)) := by
  obtain ⟨hnE, hEn, hE, hE32⟩ := ceil_facts n a hn ha ha4
  have ha0 : ¬ a = 0 := by omega
  have hg : nvmGetInfo dst di
      = (HAL_SUCCESS, dst.info, { dst with log := dst.log ++ [.get_info] }) := by
    simp [nvmGetInfo, hd]
  have hdev : nvmcpyDevices fuel di dst src n
      = nvmcpyLoopDevices a n fuel 0 { dst with log := dst.log ++ [.get_info] } src := by
    unfold nvmcpyDevices
    simp only [hg, bne_self_eq_false, Bool.false_eq_true, if_false, hal, ha4,
      not_true_eq_false, ha0]
  have hcpy : nvmcpy fuel di dst src n
      = nvmcpyLoop a n fuel 0 { dst with log := dst.log ++ [.get_info] } src := by
    unfold nvmcpy
    simp only [hg, bne_self_eq_false, Bool.false_eq_true, if_false, hal, ha4,
      not_true_eq_false, ha0]
  have hd1 : ∀ r, ({ dst with log := dst.log ++ [.get_info] } : NVMDevice).fails r = false := hd
  obtain ⟨ws, hs1, hs2, hs3, hs4⟩ := nvmcpyLoop_safe a n _ ha ha4 hnE hE hE32 fuel 0
    { dst with log := dst.log ++ [.get_info] } src (Nat.dvd_zero a) hd1 hs
  refine ⟨⟨ws, ?_, hs2⟩, ?_, ?_, ?_, ?_, ?_⟩
  · rw [hdev, hs1]; simp
  · intro x hx; rw [hdev]; exact hs3 x hx
  · rw [hdev]; exact hs4
  · intro hfuel
    have hmul : (n + a - 1) / a * a ≤ 0 + fuel * a := by
      rw [Nat.zero_add]; exact Nat.mul_le_mul_right a hfuel
    obtain ⟨hc1, hc2⟩ := nvmcpyLoop_covers a n _ ha ha4 hnE hEn hE hE32 fuel 0
      { dst with log := dst.log ++ [.get_info] } src (Nat.dvd_zero a) (Nat.zero_le _) hd1 hs
      (fun x hx => absurd hx (Nat.not_lt_zero x)) (fun q hq => absurd hq (Nat.not_lt_zero _))
      hmul
    rw [hdev]
    refine ⟨fun x hx => ?_, fun x hx1 hx2 => ?_, fun j hj => ?_⟩
    · rw [hc1 x (by omega), if_pos hx]
    · rw [hc1 x hx2, if_neg (by omega)]
    · exact hc2 j (Nat.mul_lt_mul_of_pos_right hj ha)
  · intro hlt hfuel
    have hmul : (n + a - 1) / a * a + a ≤ 0 + fuel * a := by
      have h1 : ((n + a - 1) / a + 1) * a ≤ fuel * a := Nat.mul_le_mul_right a hfuel
      rw [Nat.succ_mul] at h1
      omega
    rw [hcpy, hdev]
    exact nvmcpyLoop_returns a n _ ha ha4 hnE hEn hE hlt fuel 0 _ src (Nat.dvd_zero a)
      (Nat.zero_le _) hd1 hs hmul
  · intro v d1 s1 h
    exact nvmcpy_ret_devices fuel di dst src n v d1 s1 h

/-- Instance of C31: six bytes to a device of write alignment 4: two writes of
four bytes, bytes 6 and 7 padded with `0xff`, byte 8 and the following ones
untouched. -/
theorem nvmcpy_padding_and_frame_witness :
    (6 : Nat) < 2 ^ 32 ∧ devFour.info.write_alignment = 4 ∧
    (nvmcpyDevices 3 ⟨0, 0, [], 0⟩ devFour devTwo 6).1.log
      = [.get_info, .write 0 4 [0x11, 0x22, 0x11, 0x11], .write 4 4 [0x11, 0x11, 0xff, 0xff]] ∧
    (∀ x, (6 + 4 - 1) / 4 * 4 ≤ x →
      (nvmcpyDevices 3 ⟨0, 0, [], 0⟩ devFour devTwo 6).1.mem x = devFour.mem x) ∧
    (nvmcpyDevices 3 ⟨0, 0, [], 0⟩ devFour devTwo 6).1.mem 7 = 0xff ∧
    (nvmcpyDevices 3 ⟨0, 0, [], 0⟩ devFour devTwo 6).1.mem 8 = 0x33 :=
  ⟨by decide, rfl, by decide,
    (nvmcpy_padding_and_frame 3 ⟨0, 0, [], 0⟩ devFour devTwo 6 4 (by decide) (by decide)
      (by decide) rfl (fun _ => rfl) (fun _ => rfl)).2.1,
    by decide, by decide⟩
